import Mathlib

/-!
# cson5: a shallow embedding of `json5.c`

The source buffer is a list of bytes (`List Nat`), a `char*` into it is an
index, and a null pointer is `none`.  Every read or write outside the buffer,
every dereference of a null pointer and every overflow of the fixed local
arrays `buf[16]` and `expbuf[6]` is undefined behaviour in C; the embedding
reports it as `Fault.undefined` instead of inventing a result.

Conventions:
* `isspace`, `isalpha`, `isdigit`, `isxdigit` are those of the "C" locale,
  false on bytes above 127;
* `long` and `int64_t` are 64 bits wide (LP64);
* `double` is idealised by exact rationals, `0.1f` by `1/10`;
* the members of the anonymous union of `json5_object` are kept as separate
  fields; a zero-initialised node has all of them zero;
* a children sequence handled through `array_init`, `array_append` and
  `array_count` is a list, the null array being `[]`.
-/

namespace Cson5

/-- Ways a run of the C code can fail to have a defined result. -/
inductive Fault where
  | undefined
  | out_of_fuel
  deriving DecidableEq, Repr

/-- Result of running a piece of the C code. -/
abbrev Run (α : Type) := Except Fault α

/-- Undefined behaviour. -/
def ub {α : Type} : Run α := Except.error Fault.undefined

inductive json5_type where
  | json5_type_object
  | json5_type_string
  | json5_type_multistring
  | json5_type_array
  | json5_type_integer
  | json5_type_real
  | json5_type_null
  | json5_type_false
  | json5_type_true
  deriving DecidableEq, Repr

inductive json5_error where
  | json5_error_none
  | json5_error_invalid_name
  | json5_error_invalid_value
  deriving DecidableEq, Repr

inductive json5_style where
  | json5_style_double_quote
  | json5_style_single_quote
  | json5_style_no_quotes
  deriving DecidableEq, Repr

open json5_type json5_error json5_style

/-- Values of the `double` member: finite ones as exact rationals, and the
four special constants the keyword branch stores. -/
inductive json5_real where
  | finite (q : ℚ)
  | infinity
  | neg_infinity
  | nan
  | neg_nan
  deriving DecidableEq

/-- The node `struct json5_object`.  `name` and `string` are pointers into the
source buffer, `nodes` stands for both `elements` and `nodes`. -/
structure json5_object where
  name : Option Nat
  type : json5_type
  quote_style : json5_style
  nodes : List json5_object
  integer : Int
  real : json5_real
  string : Option Nat

/-- The zero-initialised node `{ 0 }`. -/
def json5_object.zero : json5_object :=
  { name := none, type := json5_type_object, quote_style := json5_style_double_quote,
    nodes := [], integer := 0, real := json5_real.finite 0, string := none }

/-! ## `<ctype.h>` and `<string.h>` -/

def isspace (c : Nat) : Bool := c == 32 || (9 ≤ c && c ≤ 13)

def isdigit (c : Nat) : Bool := 48 ≤ c && c ≤ 57

def isalpha (c : Nat) : Bool := (65 ≤ c && c ≤ 90) || (97 ≤ c && c ≤ 122)

def isxdigit (c : Nat) : Bool :=
  isdigit c || (65 ≤ c && c ≤ 70) || (97 ≤ c && c ≤ 102)

/-- The test `strchr(lit, c) != NULL`: the terminating NUL of `lit` is part of
the string that `strchr` searches. -/
def strchr_found (lit : List Nat) (c : Nat) : Bool := c == 0 || lit.contains c

/-- The test `!strncmp(p, lit, n)` for a literal `lit` of `n` non-NUL
characters, `rest` being the bytes from `p` on. -/
def strncmp_eq : List Nat → List Nat → Run Bool
  | _, [] => pure true
  | [], _ :: _ => ub
  | x :: xs, y :: ys => if x = y then strncmp_eq xs ys else pure false

/-- The bytes of an ASCII text. -/
def bytes (t : String) : List Nat := t.toList.map Char.toNat

/-- The NUL-terminated buffer holding an ASCII text. -/
def cbuf (t : String) : List Nat := bytes t ++ [0]

/-! ## Memory access -/

/-- Read `s[p]`. -/
def rd (s : List Nat) (p : Nat) : Run Nat :=
  match s[p]? with
  | some c => pure c
  | none => ub

/-- Write `s[p] = c`. -/
def wr (s : List Nat) (p : Nat) (c : Nat) : Run (List Nat) :=
  if p < s.length then pure (s.set p c) else ub

/-- The call `memset(s + b, c, n)`. -/
def memset (s : List Nat) (b : Nat) (c : Nat) : Nat → Run (List Nat)
  | 0 => pure s
  | n + 1 => do
    let s ← wr s b c
    memset s (b + 1) c n

/-- The C string that starts at `s[p]`, as a reader of the tree sees it. -/
def cstr_go : List Nat → List Nat
  | [] => []
  | c :: cs => if c = 0 then [] else c :: cstr_go cs

def cstr (s : List Nat) (p : Nat) : List Nat := cstr_go (s.drop p)

/-! ## Character helpers of `json5.c` -/

def json5__is_special_char (c : Nat) : Bool := strchr_found (bytes "<>:/") c

def json5__is_control_char (c : Nat) : Bool :=
  strchr_found [34, 92, '/'.toNat, 'b'.toNat, 'f'.toNat, 'n'.toNat, 'r'.toNat, 't'.toNat] c

/-- Loop of `json5__trim` over the bytes from `str` on. -/
def json5__trim_go : List Nat → Nat → Run Nat
  | [], _ => ub
  | c :: cs, str => if c ≠ 0 ∧ isspace c then json5__trim_go cs (str + 1) else pure str

def json5__trim (s : List Nat) (str : Nat) : Run Nat :=
  json5__trim_go (s.drop str) str

/-- Loop of `json5__skip`; `prev` is the byte at `str - 1`, absent when `str`
is the start of the buffer. -/
def json5__skip_go (c : Nat) : Option Nat → List Nat → Nat → Run Nat
  | _, [], _ => ub
  | prev, x :: xs, str =>
    if x ≠ 0 ∧ x ≠ c then json5__skip_go c (some x) xs (str + 1)
    else
      match prev with
      | none => ub
      | some b =>
        if b = 92 ∧ x = c ∧ json5__is_control_char c then json5__skip_go c (some x) xs (str + 1)
        else pure str

def json5__skip (s : List Nat) (str : Nat) (c : Nat) : Run Nat :=
  json5__skip_go c (if str = 0 then none else s[str - 1]?) (s.drop str) str

/-- The condition of the `if` in `json5__validate_name`, with the reads of
`s[1]` .. `s[4]` made in the order of the short-circuit evaluation; `rest`
holds the bytes after `s[0]`. -/
def json5__validate_name_bad (s0 : Nat) (rest : List Nat) : Run Bool :=
  if s0 ≠ 92 then pure false else do
    let s1 ← rd rest 0
    if json5__is_control_char s1 then pure false else
    if isxdigit s1 then pure false else do
    let s2 ← rd rest 1
    if isxdigit s2 then pure false else do
    let s3 ← rd rest 2
    if isxdigit s3 then pure false else do
    let s4 ← rd rest 3
    pure (!isxdigit s4)

/-- Loop of `json5__validate_name` over the bytes from `s` on. -/
def json5__validate_name_go : List Nat → Run Bool
  | [] => ub
  | c :: cs =>
    if c = 0 then pure true else do
      let bad ← json5__validate_name_bad c cs
      if bad then pure false else json5__validate_name_go cs

/-- The call `json5__validate_name(s, &errc)`; `s` may be the null pointer. -/
def json5__validate_name (src : List Nat) (s : Option Nat) : Run Bool :=
  match s with
  | none => ub
  | some p => json5__validate_name_go (src.drop p)

/-! ## `strtol` and `atof` -/

/-- Value of a digit character, `none` for any other byte. -/
def digit_val (c : Nat) : Option Nat :=
  if isdigit c then some (c - 48)
  else if 97 ≤ c ∧ c ≤ 122 then some (c - 87)
  else if 65 ≤ c ∧ c ≤ 90 then some (c - 55)
  else none

/-- Longest run of digits of base `b` at the head of a string: the value
accumulated onto `acc`, the number of digits added to `n`, and what follows. -/
def scan_digits (b : Nat) : List Nat → Nat → Nat → Nat × Nat × List Nat
  | [], acc, n => (acc, n, [])
  | c :: cs, acc, n =>
    match digit_val c with
    | some d => if d < b then scan_digits b cs (acc * b + d) (n + 1) else (acc, n, c :: cs)
    | none => (acc, n, c :: cs)

/-- Optional sign at the head of a string: whether it is a minus, and the rest. -/
def scan_sign : List Nat → Bool × List Nat
  | 45 :: r => (true, r)
  | 43 :: r => (false, r)
  | s => (false, s)

/-- The base `strtol` converts in and the text it converts, after the sign:
with base 0 or 16 a `0x` before a hexadecimal digit is skipped, with base 0 a
leading `0` selects octal. -/
def strtol_base (base : Nat) (s : List Nat) : Nat × List Nat :=
  match s with
  | 48 :: x :: d :: r =>
    if (x = 120 ∨ x = 88) ∧ (base = 0 ∨ base = 16) ∧ isxdigit d then (16, d :: r)
    else if base = 0 then (8, s) else (base, s)
  | 48 :: _ => if base = 0 then (8, s) else (base, s)
  | _ => if base = 0 then (10, s) else (base, s)

/-- The libc call `strtol(s, 0, base)` on the C string `s` (given without its
terminator), saturating at `LONG_MIN` and `LONG_MAX`. -/
def strtol (s : List Nat) (base : Nat) : Int :=
  let sg := scan_sign (s.dropWhile isspace)
  let bs := strtol_base base sg.2
  let v : Int := (scan_digits bs.1 bs.2 0 0).1
  if sg.1 then max (-v) (-(2 : Int) ^ 63) else min v ((2 : Int) ^ 63 - 1)

/-- Mantissa of a floating literal in base `b`: value, number of digits seen,
and what follows. -/
def atof_mantissa (b : Nat) (s : List Nat) : ℚ × Nat × List Nat :=
  let i := scan_digits b s 0 0
  match i.2.2 with
  | 46 :: r =>
    let f := scan_digits b r i.1 0
    ((f.1 : ℚ) / (b : ℚ) ^ f.2.1, i.2.1 + f.2.1, f.2.2)
  | _ => ((i.1 : ℚ), i.2.1, i.2.2)

/-- Exponent part introduced by the letter `m1` or `m2`: its signed value, 0
when no digit follows. -/
def atof_exponent (m1 m2 : Nat) : List Nat → Int
  | [] => 0
  | c :: r =>
    if c = m1 ∨ c = m2 then
      let sg := scan_sign r
      let d := scan_digits 10 sg.2 0 0
      if d.2.1 = 0 then 0 else if sg.1 then -(d.1 : Int) else (d.1 : Int)
    else 0

/-- The libc call `atof(s)` on the C string `s` (given without its
terminator), for the decimal and hexadecimal forms; exact, without rounding. -/
def atof (s : List Nat) : ℚ :=
  let sg := scan_sign (s.dropWhile isspace)
  let v : ℚ :=
    match sg.2 with
    | 48 :: x :: r =>
      if x = 120 ∨ x = 88 then
        let m := atof_mantissa 16 r
        if m.2.1 = 0 then 0 else m.1 * (2 : ℚ) ^ atof_exponent 112 80 m.2.2
      else
        let m := atof_mantissa 10 sg.2
        if m.2.1 = 0 then 0 else m.1 * (10 : ℚ) ^ atof_exponent 101 69 m.2.2
    | _ =>
      let m := atof_mantissa 10 sg.2
      if m.2.1 = 0 then 0 else m.1 * (10 : ℚ) ^ atof_exponent 101 69 m.2.2
  if sg.1 then -v else v

/-! ## The leaf branches of `json5__parse_value` -/

/-- What a parser function leaves behind: the source buffer, `*err_code`, the
node it was given, and the pointer it returns (`none` for `NULL`). -/
structure Out where
  src : List Nat
  err : json5_error
  obj : json5_object
  ret : Option Nat

/-- The scan loop of the quoted-string branch and of the backtick branch
(`nl` tells whether an escaped line break is blanked); `rest` holds the bytes
from `e` on.  Returns the buffer and the final `e`. -/
def json5__string_scan (c : Nat) (nl : Bool) : List Nat → List Nat → Nat → Run (List Nat × Nat)
  | [], _, _ => ub
  | x :: xs, s, e =>
    if x = 0 then pure (s, e) else do
      let y ← if x = 92 then rd xs 0 else pure 0
      if x = 92 ∧ y = c then
        match xs with
        | [] => ub
        | _ :: ys => json5__string_scan c nl ys s (e + 2)
      else if nl ∧ x = 92 ∧ (y = 13 ∨ y = 10) then
        json5__string_scan c nl xs (s.set e 32) (e + 1)
      else if x = c then pure (s, e)
      else json5__string_scan c nl xs s (e + 1)

/-- Lines 304-326 and 327-344: a quoted or backtick string whose opening
delimiter `c` is at `p`. -/
def json5__parse_string (src : List Nat) (err : json5_error) (obj : json5_object)
    (p : Nat) (c : Nat) (ty : json5_type) (nl : Bool) : Run Out := do
  let b := p + 1
  let obj := { obj with type := ty, string := some b }
  let r ← json5__string_scan c nl (src.drop b) src b
  let src ← wr r.1 r.2 0
  pure ⟨src, err, obj, some (r.2 + 1)⟩

/-- Lines 345-376: the keyword literals; `rest` holds the bytes from `p` on. -/
def json5__parse_keyword (src : List Nat) (err : json5_error) (obj : json5_object)
    (p : Nat) : Run Out := do
  let rest := src.drop p
  if ← strncmp_eq rest (bytes "true") then
    pure ⟨src, err, { obj with type := json5_type_true }, some (p + 4)⟩
  else if ← strncmp_eq rest (bytes "false") then
    pure ⟨src, err, { obj with type := json5_type_false }, some (p + 5)⟩
  else if ← strncmp_eq rest (bytes "null") then
    pure ⟨src, err, { obj with type := json5_type_null }, some (p + 4)⟩
  else if ← strncmp_eq rest (bytes "Infinity") then
    pure ⟨src, err, { obj with type := json5_type_real, real := json5_real.infinity }, some (p + 8)⟩
  else if ← strncmp_eq rest (bytes "-Infinity") then
    pure ⟨src, err, { obj with type := json5_type_real, real := json5_real.neg_infinity },
      some (p + 9)⟩
  else if ← strncmp_eq rest (bytes "NaN") then
    pure ⟨src, err, { obj with type := json5_type_real, real := json5_real.nan }, some (p + 3)⟩
  else if ← strncmp_eq rest (bytes "-NaN") then
    pure ⟨src, err, { obj with type := json5_type_real, real := json5_real.neg_nan }, some (p + 4)⟩
  else
    pure ⟨src, json5_error_invalid_value, obj, none⟩

/-- The store `buf[ib++] = c` into `char buf[16]`, the list being
`buf[0 .. ib-1]`. -/
def buf_push (buf : List Nat) (c : Nat) : Run (List Nat) :=
  if buf.length < 16 then pure (buf ++ [c]) else ub

/-- The store `expbuf[expi++] = c` into `char expbuf[6]`. -/
def expbuf_push (buf : List Nat) (c : Nat) : Run (List Nat) :=
  if buf.length < 6 then pure (buf ++ [c]) else ub

/-- Line 400: `while (isxdigit(*e) || *e == 'x' || *e == 'X') buf[ib++] = *e++;`. -/
def json5__scan_xdigits : List Nat → List Nat → Nat → Run (List Nat × Nat)
  | [], _, _ => ub
  | x :: xs, buf, e =>
    if isxdigit x ∨ x = 'x'.toNat ∨ x = 'X'.toNat then do
      let buf ← buf_push buf x
      json5__scan_xdigits xs buf (e + 1)
    else pure (buf, e)

/-- The `while (isdigit(*++e))` part of the two `do` loops, after the first
pass of the body: returns `buf`, `e` and `step`. -/
def json5__scan_fraction_loop : List Nat → List Nat → Nat → Nat → Run (List Nat × Nat × Nat)
  | [], _, _, _ => ub
  | x :: xs, buf, e, step =>
    if isdigit x then do
      let buf ← buf_push buf x
      json5__scan_fraction_loop xs buf (e + 1) (step + 1)
    else pure (buf, e, step)

/-- Lines 396-398 and 408-411: `do { buf[ib++] = *e; ++step; } while (isdigit(*++e));`. -/
def json5__scan_fraction : List Nat → List Nat → Nat → Run (List Nat × Nat × Nat)
  | [], _, _ => ub
  | x :: xs, buf, e => do
    let buf ← buf_push buf x
    json5__scan_fraction_loop xs buf (e + 1) 1

/-- Line 435: `while (isdigit(*e)) expbuf[expi++] = *e++;`. -/
def json5__scan_exponent : List Nat → List Nat → Nat → Run (List Nat × Nat)
  | [], _, _ => ub
  | x :: xs, buf, e =>
    if isdigit x then do
      let buf ← expbuf_push buf x
      json5__scan_exponent xs buf (e + 1)
    else pure (buf, e)

/-- Lines 451-453: `while (--exp > 0) obj->integer *= (int64_t)eb;`, as the
`n` multiplications it makes; a product outside `int64_t` is undefined. -/
def json5__scale_integer (k : Int) : Nat → Int → Run Int
  | 0, v => pure v
  | n + 1, v =>
    if -(2 : Int) ^ 63 ≤ v * k ∧ v * k < (2 : Int) ^ 63 then json5__scale_integer k n (v * k)
    else ub

/-- Lines 457-459: `while (--exp > 0) obj->real *= eb;`, as the `n`
multiplications it makes. -/
def json5__scale_real (k : ℚ) : Nat → ℚ → ℚ
  | 0, v => v
  | n + 1, v => json5__scale_real k n (v * k)

/-- Lines 377-462: the numeric branch, for a literal that starts at `p`. -/
def json5__parse_number (src : List Nat) (err : json5_error) (obj : json5_object)
    (p : Nat) : Run Out := do
  let obj := { obj with type := json5_type_integer }
  let c ← rd src p
  let (buf, e) ←
    if c = '+'.toNat then pure (([] : List Nat), p + 1)
    else if c = '-'.toNat then do
      let buf ← buf_push [] c
      pure (buf, p + 1)
    else pure ([], p)
  let c ← rd src e
  let (obj, buf, e) ←
    if c = '.'.toNat then do
      let buf ← buf_push buf '0'.toNat
      let r ← json5__scan_fraction (src.drop e) buf e
      pure ({ obj with type := json5_type_real }, r.1, r.2.1)
    else do
      let r ← json5__scan_xdigits (src.drop e) buf e
      let c ← rd src r.2
      if c = '.'.toNat then do
        let f ← json5__scan_fraction (src.drop r.2) r.1 r.2
        let buf ← if f.2.2 < 2 then buf_push f.1 '0'.toNat else pure f.1
        pure ({ obj with type := json5_type_real }, buf, f.2.1)
      else pure (obj, r.1, r.2)
  -- lines 419-440: `small` is `eb == 0.1f`
  let c ← rd src e
  let (exp, small, e) ←
    if c = 'e'.toNat ∨ c = 'E'.toNat then do
      let e := e + 1
      let c ← rd src e
      let (small, expbuf, e) ←
        if c = '+'.toNat ∨ c = '-'.toNat ∨ isdigit c then do
          let e1 := if isdigit c then e else e + 1
          let r ← json5__scan_exponent (src.drop e1) [] e1
          pure (decide (c = '-'.toNat), r.1, r.2)
        else pure (false, [], e)
      if expbuf.length < 6 then pure (strtol expbuf 10, small, e) else ub
    else pure ((0 : Int), false, e)
  let c ← rd src e
  let err := if c = 0 then json5_error_invalid_value else err
  if 16 ≤ buf.length then ub
  else if obj.type = json5_type_integer then do
    let v ← json5__scale_integer (if small then 0 else 10) (exp - 1).toNat (strtol buf 0)
    pure ⟨src, err, { obj with integer := v }, some e⟩
  else
    let v := json5__scale_real (if small then 1 / 10 else 10) (exp - 1).toNat (atof buf)
    pure ⟨src, err, { obj with real := json5_real.finite v }, some e⟩

/-! ## The member name of `json5__parse_object` -/

/-- How the name part of one pass of the member loop ends: with `return NULL`
after an error, or with the node and `p` that reach line 573. -/
inductive NameOut where
  | failed (out : Out)
  | named (src : List Nat) (node : json5_object) (p : Nat)

/-- Lines 544-546: `do { ++e; } while (*e && (*e == '_' || isalpha(*e) ||
isdigit(*e)) && !isspace(*e) && *e != ':');`, `rest` holding the bytes from
`e + 1` on. -/
def json5__ident_scan : List Nat → Nat → Run Nat
  | [], _ => ub
  | x :: xs, e =>
    if x ≠ 0 ∧ (x = '_'.toNat ∨ isalpha x ∨ isdigit x) ∧ ¬ isspace x ∧ x ≠ ':'.toNat then
      json5__ident_scan xs (e + 1)
    else pure (e + 1)

/-- Lines 551-556: `while (*e) { if (*e && (!isspace(*e) || *e == ':')) break; ++e; }`. -/
def json5__ident_gap : List Nat → Nat → Run Nat
  | [], _ => ub
  | x :: xs, e =>
    if x = 0 then pure e
    else if x ≠ 0 ∧ (¬ isspace x ∨ x = ':'.toNat) then pure e
    else json5__ident_gap xs (e + 1)

/-- Lines 514-571 without the `[` case: the name of a member whose first
character `c` is at `p`. -/
def json5__parse_name (src : List Nat) (obj node : json5_object)
    (p : Nat) (c : Nat) : Run NameOut :=
  if c = 34 ∨ c = 39 then do
    let node := { node with quote_style :=
      if c = 34 then json5_style_double_quote else json5_style_single_quote }
    let b := p + 1
    let e ← json5__skip src b c
    let node := { node with name := some b }
    let src ← wr src e 0
    let p ← json5__trim src (e + 1)
    let c ← rd src p
    if c ≠ 0 ∧ c ≠ ':'.toNat then
      pure (NameOut.failed ⟨src, json5_error_invalid_name, obj, none⟩)
    else pure (NameOut.named src node p)
  else if isalpha c ∨ c = '_'.toNat ∨ c = '$'.toNat then do
    let b := p
    let e ← json5__ident_scan (src.drop (b + 1)) b
    let c ← rd src e
    if c = ':'.toNat then do
      let src ← wr src e 0
      pure (NameOut.named src { node with name := some b, quote_style := json5_style_no_quotes } e)
    else do
      let e ← json5__ident_gap (src.drop e) e
      let e ← json5__trim src e
      let c ← rd src e
      if c ≠ 0 ∧ c ≠ ':'.toNat then
        pure (NameOut.failed ⟨src, json5_error_invalid_name, obj, none⟩)
      else do
        let src ← wr src e 0
        pure (NameOut.named src { node with name := some b, quote_style := json5_style_no_quotes } e)
  else pure (NameOut.named src node p)

/-- The test `isalpha(*p) || (*p == '-' && !isdigit(p[1]))` of line 345. -/
def json5__is_keyword_start (src : List Nat) (p : Nat) (c : Nat) : Run Bool :=
  if isalpha c then pure true
  else if c = '-'.toNat then do
    let c1 ← rd src (p + 1)
    pure (!isdigit c1)
  else pure false

/-! ## The body of the member loop of `json5__parse_object`

The body of the `while (*p)` loop is cut at the label `l_parsed`.  The part
before it calls `json5__parse_value`, which is passed in as `pv`. -/

/-- Lines 514-585, for a member whose first character `c` (not `}`) is at
`p`: either a `return NULL` (left) or the state in which control reaches
`l_parsed` (right), the node being in `obj` and `p` in `ret` there. -/
def json5__member (pv : List Nat → json5_error → json5_object → Nat → Run Out)
    (src : List Nat) (err : json5_error) (obj : json5_object) (p : Nat) (c : Nat) :
    Run (Out ⊕ Out) :=
  let node := json5_object.zero
  if c = '['.toNat then do
    let r ← pv src err { node with name := none } p
    pure (Sum.inr r)
  else do
    match ← json5__parse_name src obj node p c with
    | NameOut.failed out => pure (Sum.inl out)
    | NameOut.named src node p =>
      if ← json5__validate_name src node.name then do
        let p ← json5__trim src (p + 1)
        let r ← pv src err node p
        if r.err ≠ json5_error_none then pure (Sum.inl ⟨r.src, r.err, obj, none⟩)
        else pure (Sum.inr r)
      else pure (Sum.inl ⟨src, json5_error_invalid_name, obj, none⟩)

/-- Lines 587-602, from the label `l_parsed` to the end of the loop body, `r`
being the state `json5__member` reached it in: either the function returns
(left) or the loop goes on (right) at the position in `ret`. -/
def json5__l_parsed (obj : json5_object) (r : Out) : Run (Out ⊕ Out) := do
  let obj := { obj with nodes := obj.nodes ++ [r.obj] }
  let p ← match r.ret with
    | none => ub
    | some q => json5__trim r.src q
  let c ← rd r.src p
  if c = ','.toNat then pure (Sum.inr ⟨r.src, r.err, obj, some (p + 1)⟩)
  else if c = 0 ∨ c = '}'.toNat then pure (Sum.inl ⟨r.src, r.err, obj, some p⟩)
  else pure (Sum.inl ⟨r.src, json5_error_invalid_value, obj, none⟩)

/-- Lines 475-493, the body of the loop of `json5__parse_array` after the
call of `json5__parse_value` that left `r`: either the function returns
(left) or the loop goes on (right) at the position in `ret`. -/
def json5__element (obj : json5_object) (r : Out) : Run (Out ⊕ Out) :=
  if r.err ≠ json5_error_none then pure (Sum.inl ⟨r.src, r.err, obj, none⟩)
  else do
    let obj := { obj with nodes := obj.nodes ++ [r.obj] }
    let p ← match r.ret with
      | none => ub
      | some q => json5__trim r.src q
    let c ← rd r.src p
    if c = ','.toNat then pure (Sum.inr ⟨r.src, r.err, obj, some (p + 1)⟩)
    else pure (Sum.inl ⟨r.src, r.err, obj, some p⟩)

/-! ## The recursive descent

The three parser functions call each other; `fuel` bounds the depth of the
calls and the number of passes of the two loops.  Each function spends one
unit per call and per pass. -/

mutual

def json5__parse_value : Nat → List Nat → json5_error → json5_object → Nat → Run Out
  | 0, _, _, _, _ => Except.error Fault.out_of_fuel
  | fuel + 1, src, err, obj, base => do
    let c ← rd src base
    if c = '['.toNat then do
      let p ← json5__trim src (base + 1)
      let c ← rd src p
      if c = ']'.toNat then pure ⟨src, err, obj, some p⟩
      else do
        let r ← json5__parse_array fuel src err obj p
        if r.err ≠ json5_error_none then pure { r with ret := none }
        else
          match r.ret with
          | none => ub
          | some q => pure { r with ret := some (q + 1) }
    else if c = '{'.toNat then do
      let p ← json5__trim src (base + 1)
      let r ← json5__parse_object fuel src err obj p
      if r.err ≠ json5_error_none then pure { r with ret := none }
      else
        match r.ret with
        | none => ub
        | some q => pure { r with ret := some (q + 1) }
    else if c = 34 ∨ c = 39 then json5__parse_string src err obj base c json5_type_string true
    else if c = 96 then json5__parse_string src err obj base c json5_type_multistring false
    else if ← json5__is_keyword_start src base c then json5__parse_keyword src err obj base
    else if isdigit c ∨ c = '+'.toNat ∨ c = '-'.toNat ∨ c = '.'.toNat then
      json5__parse_number src err obj base
    else pure ⟨src, err, obj, some base⟩
termination_by structural fuel => fuel

def json5__parse_array : Nat → List Nat → json5_error → json5_object → Nat → Run Out
  | 0, _, _, _, _ => Except.error Fault.out_of_fuel
  | fuel + 1, src, err, obj, base =>
    json5__parse_array_loop fuel src err { obj with type := json5_type_array, nodes := [] } base
termination_by structural fuel => fuel

/-- The `while (*p)` loop of `json5__parse_array`, from its test on. -/
def json5__parse_array_loop : Nat → List Nat → json5_error → json5_object → Nat → Run Out
  | 0, _, _, _, _ => Except.error Fault.out_of_fuel
  | fuel + 1, src, err, obj, p => do
    let c ← rd src p
    if c = 0 then pure ⟨src, err, obj, some p⟩
    else do
      let p ← json5__trim src p
      let r ← json5__parse_value fuel src err json5_object.zero p
      match ← json5__element obj r with
      | Sum.inl out => pure out
      | Sum.inr next =>
        match next.ret with
        | none => ub
        | some q => json5__parse_array_loop fuel next.src next.err next.obj q
termination_by structural fuel => fuel

def json5__parse_object : Nat → List Nat → json5_error → json5_object → Nat → Run Out
  | 0, _, _, _, _ => Except.error Fault.out_of_fuel
  | fuel + 1, src, err, obj, base => do
    let p ← json5__trim src base
    let c ← rd src p
    json5__parse_object_loop fuel src err { obj with nodes := [] }
      (if c = '{'.toNat then p + 1 else p)
termination_by structural fuel => fuel

/-- The `while (*p)` loop of `json5__parse_object`, from its test on. -/
def json5__parse_object_loop : Nat → List Nat → json5_error → json5_object → Nat → Run Out
  | 0, _, _, _, _ => Except.error Fault.out_of_fuel
  | fuel + 1, src, err, obj, p => do
    let c ← rd src p
    if c = 0 then pure ⟨src, err, obj, some p⟩
    else do
      let p ← json5__trim src p
      let c ← rd src p
      if c = '}'.toNat then pure ⟨src, err, obj, some p⟩
      else do
        match ← json5__member (json5__parse_value fuel) src err obj p c with
        | Sum.inl out => pure out
        | Sum.inr r =>
          match ← json5__l_parsed obj r with
          | Sum.inl out => pure out
          | Sum.inr next =>
            match next.ret with
            | none => ub
            | some q => json5__parse_object_loop fuel next.src next.err next.obj q
termination_by structural fuel => fuel

end

/-! ## `json5_parse` -/

/-- Line 234: `while (p[0] != '*' && p[1] != '/') ++p;`, `rest` holding the
bytes from `p` on. -/
def json5__block_scan : List Nat → Nat → Run Nat
  | [], _ => ub
  | x :: xs, p =>
    if x = '*'.toNat then pure p else do
      let y ← rd xs 0
      if y ≠ '/'.toNat then json5__block_scan xs (p + 1) else pure p

/-- Line 244: `while (p[0] != '\n') ++p;`. -/
def json5__line_scan : List Nat → Nat → Run Nat
  | [], _ => ub
  | x :: xs, p => if x ≠ 10 then json5__line_scan xs (p + 1) else pure p

/-- Lines 210-252: the `while (*p)` loop of the comment pre-pass, from its
test on; one unit of `fuel` per pass. -/
def json5__strip_loop : Nat → List Nat → Bool → Nat → Nat → Run (List Nat)
  | 0, _, _, _, _ => Except.error Fault.out_of_fuel
  | fuel + 1, s, is_lit, lit_c, p => do
    let c ← rd s p
    if c = 0 then pure s
    else if is_lit then do
      let c1 ← if c = 92 then rd s (p + 1) else pure 0
      if c = 92 ∧ c1 ≠ 0 ∧ c1 = lit_c then json5__strip_loop fuel s true lit_c (p + 2)
      else if c = lit_c then json5__strip_loop fuel s false lit_c (p + 1)
      else json5__strip_loop fuel s true lit_c (p + 1)
    else if c = 34 ∨ c = 39 then json5__strip_loop fuel s true c (p + 1)
    else do
      let c1 ← if c = '/'.toNat then rd s (p + 1) else pure 0
      let (s, p) ←
        if c = '/'.toNat ∧ c1 = '*'.toNat then do
          let q ← json5__block_scan (s.drop (p + 2)) (p + 2)
          let s ← memset s p 32 (q + 1 - p + 1)
          pure (s, q + 1)
        else pure (s, p)
      let c ← rd s p
      let c1 ← if c = '/'.toNat then rd s (p + 1) else pure 0
      let (s, p) ←
        if c = '/'.toNat ∧ c1 = '/'.toNat then do
          let q ← json5__line_scan (s.drop (p + 2)) (p + 2)
          let s ← memset s p 32 (q - p + 1)
          pure (s, q)
        else pure (s, p)
      json5__strip_loop fuel s false lit_c (p + 1)

/-- Lines 204-253: the comment pre-pass on the whole buffer. -/
def json5__strip_comments (source : List Nat) : Run (List Nat) :=
  json5__strip_loop (source.length + 1) source false 0 0

/-- The entry point `json5_parse(root, source, strip_comments)`: the buffer as
the call leaves it, the node stored in `*root`, and the returned error code.
The recursive descent gets three units of fuel per byte of the buffer and four
more: a nested value costs one call each of `json5__parse_value`,
`json5__parse_array` or `json5__parse_object` and one pass of the loop, and
starts behind the bracket of the value around it; a further pass of a loop
starts behind a comma. -/
def json5_parse (source : List Nat) (strip_comments : Bool) :
    Run (List Nat × json5_object × json5_error) := do
  let dest ← if strip_comments then json5__strip_comments source else pure source
  let r ← json5__parse_object (3 * dest.length + 4) dest json5_error_none json5_object.zero 0
  pure (r.src, r.obj, r.err)

/-! ## `json5_free` -/

mutual

/-- The call `json5_free(obj)`: the node as the call leaves it, and the number
of children sequences the call and the calls it makes have released with
`array_free`.  A children sequence is null exactly when it is empty. -/
def json5_free : json5_object → json5_object × Nat
  | ⟨name, type, quote_style, nodes, integer, real, string⟩ =>
    match nodes with
    | [] => (⟨name, type, quote_style, [], integer, real, string⟩, 0)
    | n :: ns =>
      if type = json5_type_array ∨ type = json5_type_object then
        (⟨name, type, quote_style, [], integer, real, string⟩, json5_free_children (n :: ns) + 1)
      else (⟨name, type, quote_style, n :: ns, integer, real, string⟩, 0)

/-- The `for` loops of `json5_free` over the children: the number of
sequences that the calls on the children release. -/
def json5_free_children : List json5_object → Nat
  | [] => 0
  | o :: os => (json5_free o).2 + json5_free_children os

end

/-! ## The vector allocator and the array macros

`malloc` and `realloc` are taken to succeed.  The payload of a block is kept
as the elements stored in it, by byte offset; `realloc` keeps what lies inside
both the old and the new extent.  The product `sz * 1.75` is taken as
`7 * sz / 4` rounded down. -/

/-- The block behind a non-null pointer that `vrealloc` has returned: the
header words `ret[0]` (size) and `ret[1]` (spare capacity), the number of
payload bytes the block was allocated with, and the payload. -/
structure vblock (α : Type) where
  size : Nat
  spare : Nat
  bytes : Nat
  mem : Nat → Option α

def vcapacity {α : Type} (p : Option (vblock α)) : Nat :=
  match p with
  | some b => b.spare
  | none => 0

def vsize {α : Type} (p : Option (vblock α)) : Nat :=
  match p with
  | some b => b.size
  | none => 0

def vrealloc {α : Type} (p : Option (vblock α)) (sz : Nat) : Option (vblock α) :=
  match p with
  | none =>
    if sz ≠ 0 then some { size := sz, spare := 0, bytes := sz, mem := fun _ => none }
    else none
  | some b =>
    if sz = 0 then none
    else if sz ≤ b.size then some { b with size := sz }
    else if sz ≤ b.size + b.spare then
      some { b with size := sz, spare := b.spare - (sz - b.size) }
    else
      some { size := sz, spare := 7 * sz / 4 - sz, bytes := 7 * sz / 4,
             mem := fun off => if off < 7 * sz / 4 ∧ off < b.bytes then b.mem off else none }

/-- The macro `array_count(t)` for elements of `s` bytes. -/
def array_count {α : Type} (s : Nat) (t : Option (vblock α)) : Nat := vsize t / s

/-- The macro `array_append(t, x)` for elements of `s` bytes: the new value of
`t`.  The store `t[array_count(t) - 1] = x` must lie inside the block. -/
def array_append {α : Type} (s : Nat) (t : Option (vblock α)) (x : α) :
    Run (Option (vblock α)) :=
  if s = 0 then ub
  else
    match vrealloc t ((array_count s t + 1) * s) with
    | none => ub
    | some b =>
      if array_count s (some b) = 0 then ub
      else if (array_count s (some b) - 1) * s + s ≤ b.bytes then
        pure (some { b with
          mem := fun off => if off = (array_count s (some b) - 1) * s then some x else b.mem off })
      else ub

/-- The read `t[i]` of an element of `s` bytes, `none` when it is not inside a
block or was never stored. -/
def array_get {α : Type} (s : Nat) (t : Option (vblock α)) (i : Nat) : Option α :=
  match t with
  | some b => if i * s + s ≤ b.bytes then b.mem (i * s) else none
  | none => none

/-- The macro `array_free(t)`: `REALLOC(t, 0)` and then `t = 0`. -/
def array_free {α : Type} (t : Option (vblock α)) : Option (vblock α) :=
  match vrealloc t 0 with
  | _ => none

/-- The macro `array_init(t)`. -/
def array_init {α : Type} : Option (vblock α) := none

/-! ## Definitions used by the statements -/

/-- A byte that line 400 copies into `buf`. -/
def is_numchar (x : Nat) : Prop := isxdigit x = true ∨ x = 'x'.toNat ∨ x = 'X'.toNat

instance (x : Nat) : Decidable (is_numchar x) := by unfold is_numchar; infer_instance

/-- Value of a string of decimal digits. -/
def dec_val (v : List Nat) : Nat := v.foldl (fun acc c => acc * 10 + (c - 48)) 0

/-- Value of one hexadecimal digit. -/
def hex_digit (c : Nat) : Nat :=
  if isdigit c then c - 48 else if 97 ≤ c then c - 87 else c - 55

/-- Value of a string of hexadecimal digits. -/
def hex_val (v : List Nat) : Nat := v.foldl (fun acc c => acc * 16 + hex_digit c) 0

/-- A decimal integer literal without a leading zero: digits only, at least
one, and a first digit `0` only when it is the whole literal. -/
def is_int_lit (v : List Nat) : Prop :=
  v ≠ [] ∧ (∀ x ∈ v, isdigit x = true) ∧ (v.head? = some 48 → v = [48])

/-- A byte of a plain name or string: not NUL, not a double quote, not a
backslash. -/
def is_plain (x : Nat) : Prop := x ≠ 0 ∧ x ≠ 34 ∧ x ≠ 92

instance (x : Nat) : Decidable (is_plain x) := by unfold is_plain; infer_instance

/-- The text `"k":v` of the member `(k, v)`. -/
def member_text (m : List Nat × List Nat) : List Nat := 34 :: (m.1 ++ 34 :: 58 :: m.2)

/-- The text of a member once parsed: the closing quote of the name has become
the terminator of the name. -/
def member_done (m : List Nat × List Nat) : List Nat := 34 :: (m.1 ++ 0 :: 58 :: m.2)

/-- The node of the member `(k, v)` whose text starts at `base`. -/
def member_node (base : Nat) (m : List Nat × List Nat) : json5_object :=
  { json5_object.zero with
    quote_style := json5_style_double_quote, name := some (base + 1),
    type := json5_type_integer, integer := strtol m.2 0 }

/-- Members each followed by a comma. -/
def members_comma : List (List Nat × List Nat) → List Nat
  | [] => []
  | m :: ms => member_text m ++ 44 :: members_comma ms

def members_comma_done : List (List Nat × List Nat) → List Nat
  | [] => []
  | m :: ms => member_done m ++ 44 :: members_comma_done ms

/-- The nodes of members each followed by a comma, the first at `base`. -/
def member_nodes : Nat → List (List Nat × List Nat) → List json5_object
  | _, [] => []
  | base, m :: ms => member_node base m :: member_nodes (base + (member_text m).length + 1) ms

/-- What the lemmas on the loop need of a member: a plain name and a value of
at most 15 bytes that line 400 copies, the first one a digit. -/
def member_ok (m : List Nat × List Nat) : Prop :=
  (∀ x ∈ m.1, is_plain x) ∧ (∃ d r, m.2 = d :: r ∧ isdigit d = true) ∧
    (∀ x ∈ m.2, is_numchar x) ∧ m.2.length ≤ 15

/-- What a reader sees of a node: its name and string payload as the C
strings they point to in the buffer, its tags, the number of its children and
its integer payload.  A payload field that the type tag does not select shows
the zero of the model's separate field. -/
structure node_view where
  name : Option (List Nat)
  type : json5_type
  quote_style : json5_style
  count : Nat
  integer : Int
  string : Option (List Nat)
  deriving DecidableEq

def view (s : List Nat) (o : json5_object) : node_view :=
  { name := o.name.map (cstr s), type := o.type, quote_style := o.quote_style,
    count := o.nodes.length, integer := o.integer, string := o.string.map (cstr s) }

/-- The view a parsed member `"k":v` is expected to have. -/
def member_view (m : List Nat × List Nat) : node_view :=
  { name := some m.1, type := json5_type_integer, quote_style := json5_style_double_quote,
    count := 0, integer := strtol m.2 0, string := none }

/-- A member name of letters: one or more ASCII letters. -/
def is_key (k : List Nat) : Prop := k ≠ [] ∧ ∀ x ∈ k, isalpha x = true

/-- A member `(k, v)`: `k` one or more ASCII letters, `v` a decimal integer
literal without a leading zero, at most 15 characters long. -/
def is_member (m : List Nat × List Nat) : Prop :=
  is_key m.1 ∧ is_int_lit m.2 ∧ m.2.length ≤ 15

instance (k : List Nat) : Decidable (is_key k) := by unfold is_key; infer_instance

instance (v : List Nat) : Decidable (is_int_lit v) := by unfold is_int_lit; infer_instance

instance (m : List Nat × List Nat) : Decidable (is_member m) := by
  unfold is_member; infer_instance

/-- The members `"k_1":v_1,...,"k_n":v_n`, separated by commas. -/
def join_members : List (List Nat × List Nat) → List Nat
  | [] => []
  | [m] => member_text m
  | m :: m' :: ms => member_text m ++ 44 :: join_members (m' :: ms)

/-- The text `{"k_1":v_1,...,"k_n":v_n}`. -/
def object_text (ms : List (List Nat × List Nat)) : List Nat :=
  123 :: (join_members ms ++ [125])

/-- The view of the member `(k, v)` of an object: name `k`, type integer,
value the decimal value of `v`. -/
def int_member_view (m : List Nat × List Nat) : node_view :=
  { name := some m.1, type := json5_type_integer, quote_style := json5_style_double_quote,
    count := 0, integer := dec_val m.2, string := none }

/-- A byte that may follow the first one in an identifier: a letter, a digit
or `_`. -/
def is_ident_char (x : Nat) : Prop := isalpha x = true ∨ isdigit x = true ∨ x = '_'.toNat

/-- An identifier: a letter, `_` or `$`, then letters, digits or `_`. -/
def is_ident : List Nat → Prop
  | [] => False
  | c :: r => (isalpha c = true ∨ c = '_'.toNat ∨ c = '$'.toNat) ∧ ∀ x ∈ r, is_ident_char x

instance (x : Nat) : Decidable (is_ident_char x) := by unfold is_ident_char; infer_instance

instance (n : List Nat) : Decidable (is_ident n) := by
  cases n with
  | nil => exact isFalse (fun h => h)
  | cons c r => unfold is_ident; infer_instance

/-- The node of a member with the identifier at `base` as name and the
integer literal `v` as value. -/
def ident_node (base : Nat) (v : List Nat) : json5_object :=
  { json5_object.zero with
    quote_style := json5_style_no_quotes, name := some base,
    type := json5_type_integer, integer := strtol v 0 }

/-- What ends a real literal without exponent: not a digit, not `e` or `E`,
not the terminating NUL. -/
def is_real_stop (t : Nat) : Prop :=
  isdigit t = false ∧ t ≠ 'e'.toNat ∧ t ≠ 'E'.toNat ∧ t ≠ 0

instance (t : Nat) : Decidable (is_real_stop t) := by unfold is_real_stop; infer_instance

/-- The element texts of an array: integer, string and real literals and the
keywords `true`, `false`, `null`. -/
inductive elem where
  | integer (v : List Nat)
  | string (t : List Nat)
  | real (i f : List Nat)
  | ktrue
  | kfalse
  | knull

/-- The text of an element. -/
def elem_text : elem → List Nat
  | elem.integer v => v
  | elem.string t => 34 :: (t ++ [34])
  | elem.real i f => i ++ 46 :: f
  | elem.ktrue => [116, 114, 117, 101]
  | elem.kfalse => [102, 97, 108, 115, 101]
  | elem.knull => [110, 117, 108, 108]

/-- The text of an element once parsed: the closing quote of a string has
become its terminator. -/
def elem_done : elem → List Nat
  | elem.string t => 34 :: (t ++ [0])
  | e => elem_text e

/-- The type of the node an element is expected to give. -/
def elem_type : elem → json5_type
  | elem.integer _ => json5_type_integer
  | elem.string _ => json5_type_string
  | elem.real _ _ => json5_type_real
  | elem.ktrue => json5_type_true
  | elem.kfalse => json5_type_false
  | elem.knull => json5_type_null

/-- A well-formed element, with numeric literals of at most 15 bytes: a
decimal integer literal without leading zero, a double-quoted string without
NUL, double quote and backslash, a real literal `digits.digits`, or one of
`true`, `false`, `null`. -/
def elem_ok : elem → Prop
  | elem.integer v => is_int_lit v ∧ v.length ≤ 15
  | elem.string t => ∀ x ∈ t, is_plain x
  | elem.real i f =>
    i ≠ [] ∧ (∀ x ∈ i, isdigit x = true) ∧ f ≠ [] ∧ (∀ x ∈ f, isdigit x = true) ∧
      i.length + 1 + f.length ≤ 15
  | _ => True

instance (e : elem) : Decidable (elem_ok e) := by
  cases e <;> unfold elem_ok <;> infer_instance

/-- Elements each followed by a comma. -/
def elems_comma : List elem → List Nat
  | [] => []
  | e :: es => elem_text e ++ 44 :: elems_comma es

def elems_comma_done : List elem → List Nat
  | [] => []
  | e :: es => elem_done e ++ 44 :: elems_comma_done es

/-- The elements `e_1,...,e_n`, separated by commas. -/
def join_elems : List elem → List Nat
  | [] => []
  | [e] => elem_text e
  | e :: e' :: es => elem_text e ++ 44 :: join_elems (e' :: es)

/-- The text `[e_1,...,e_n]`. -/
def array_text (es : List elem) : List Nat := 91 :: (join_elems es ++ [93])

/-- Node `b` of `{"a":{"b":1 ...`: the name at offset 7, the integer 1. -/
def teardown_node_b : json5_object :=
  { json5_object.zero with
    name := some 7
    type := json5_type_integer
    integer := 1 }

/-- Node `a` of `{"a":{"b":1 ...`: the name at offset 2, an object that owns a
children sequence holding `b`. -/
def teardown_node_a : json5_object :=
  { json5_object.zero with
    name := some 2
    nodes := [teardown_node_b] }

/-- One item of the text between the quotes of a string value: a byte that
is not the NUL, the backslash or the delimiter; a backslash followed by the
delimiter; a backslash followed by a line break; a backslash followed by a
byte that is none of NUL, backslash, delimiter, CR, LF (see `item_ok`).  A
backslash followed by a backslash is not an item: the scan pairs the second
backslash with the byte behind it. -/
inductive str_item where
  | chr (x : Nat)
  | esc_quote
  | esc_break (l : Nat)
  | esc_other (y : Nat)

def item_ok (c : Nat) : str_item → Prop
  | str_item.chr x => x ≠ 0 ∧ x ≠ 92 ∧ x ≠ c
  | str_item.esc_quote => True
  | str_item.esc_break l => l = 13 ∨ l = 10
  | str_item.esc_other y => y ≠ 0 ∧ y ≠ 92 ∧ y ≠ c ∧ y ≠ 13 ∧ y ≠ 10

instance (c : Nat) (i : str_item) : Decidable (item_ok c i) := by
  cases i <;> unfold item_ok <;> infer_instance

/-- The bytes of an item in the document. -/
def item_text (c : Nat) : str_item → List Nat
  | str_item.chr x => [x]
  | str_item.esc_quote => [92, c]
  | str_item.esc_break l => [92, l]
  | str_item.esc_other y => [92, y]

/-- The bytes that the scan of lines 311-323 leaves in the buffer for an item. -/
def item_stored (c : Nat) : str_item → List Nat
  | str_item.chr x => [x]
  | str_item.esc_quote => [92, c]
  | str_item.esc_break l => [32, l]
  | str_item.esc_other y => [92, y]

def str_text (c : Nat) : List str_item → List Nat
  | [] => []
  | i :: l => item_text c i ++ str_text c l

def str_stored (c : Nat) : List str_item → List Nat
  | [] => []
  | i :: l => item_stored c i ++ str_stored c l

/-- The text `{"a":<c>...<c>}` of a document whose member `a` is the string
with delimiter `c` and the given items, with the terminating NUL. -/
def string_doc (c : Nat) (items : List str_item) : List Nat :=
  bytes "\x7b\"a\":" ++ c :: (str_text c items ++ c :: 125 :: [0])

/-- The number of payload bytes behind a pointer, none behind null. -/
def vbytes {α : Type} (p : Option (vblock α)) : Nat :=
  match p with
  | some b => b.bytes
  | none => 0

/-- The calls `array_append(t, x)` for the values `x` of a list, in order. -/
def append_all {α : Type} (s : Nat) : List α → Option (vblock α) → Run (Option (vblock α))
  | [], t => pure t
  | x :: xs, t => do
    let t ← array_append s t x
    append_all s xs t

/-- The state of an array that holds the elements `ys` of `s` bytes each:
null when there is none, else a block whose recorded size is that of the
elements, whose recorded size and spare lie inside the allocated bytes, and
which holds the elements at their offsets. -/
def vec_inv {α : Type} (s : Nat) (ys : List α) (t : Option (vblock α)) : Prop :=
  match t with
  | none => ys = []
  | some b =>
    ys ≠ [] ∧ b.size = ys.length * s ∧ b.size + b.spare ≤ b.bytes ∧
      ∀ i, i < ys.length → b.mem (i * s) = ys[i]?

/-! ## Running the code: basic facts -/

@[simp] theorem run_bind_ok {α β : Type} (x : α) (f : α → Run β) :
    (Except.ok x >>= f) = f x := rfl

@[simp] theorem run_bind_error {α β : Type} (e : Fault) (f : α → Run β) :
    ((Except.error e : Run α) >>= f) = Except.error e := rfl

@[simp] theorem run_pure {α : Type} (x : α) : (pure x : Run α) = Except.ok x := rfl

@[simp] theorem run_ub_bind {α β : Type} (f : α → Run β) :
    ((ub : Run α) >>= f) = ub := rfl

theorem drop_at {src a b : List Nat} {p : Nat} (hs : src = a ++ b) (hp : p = a.length) :
    src.drop p = b := by
  subst hs hp; simp

theorem rd_at {src a b : List Nat} {c p : Nat} (hs : src = a ++ c :: b) (hp : p = a.length) :
    rd src p = Except.ok c := by
  subst hs hp
  have h : (a ++ c :: b)[a.length]? = some c := by
    rw [List.getElem?_append_right (le_refl _)]; simp
  simp only [rd, h]; rfl

theorem wr_at {src a b : List Nat} {c p : Nat} (x : Nat) (hs : src = a ++ c :: b)
    (hp : p = a.length) : wr src p x = Except.ok (a ++ x :: b) := by
  subst hs hp; simp [wr]

/-- Function `json5__trim` stays where it is on a byte that is not white space. -/
theorem trim_stay {src a b : List Nat} {c p : Nat} (hs : src = a ++ c :: b)
    (hp : p = a.length) (hc : isspace c = false) : json5__trim src p = Except.ok p := by
  unfold json5__trim
  rw [drop_at hs hp]
  simp [json5__trim_go, hc]

/-- Function `json5__trim` skips a run of white space. -/
theorem trim_go_run (ws : List Nat) (c : Nat) (b : List Nat) (p : Nat)
    (hws : ∀ x ∈ ws, isspace x = true) (hc : isspace c = false) :
    json5__trim_go (ws ++ c :: b) p = Except.ok (p + ws.length) := by
  induction ws generalizing p with
  | nil => simp [json5__trim_go, hc]
  | cons x xs ih =>
    have hx : isspace x = true := hws x (by simp)
    have hx0 : x ≠ 0 := by
      intro h; subst h; simp [isspace] at hx
    have ih' := ih (p + 1) (fun y hy => hws y (by simp [hy]))
    simp [json5__trim_go, hx, hx0, ih']
    omega

theorem trim_run {src a b : List Nat} {c p : Nat} (ws : List Nat)
    (hs : src = a ++ (ws ++ c :: b)) (hp : p = a.length)
    (hws : ∀ x ∈ ws, isspace x = true) (hc : isspace c = false) :
    json5__trim src p = Except.ok (p + ws.length) := by
  unfold json5__trim
  rw [drop_at hs hp, trim_go_run ws c b p hws hc]

/-! ## The numeric branch on integer literals -/

theorem scan_xdigits_run (v : List Nat) (t : Nat) (b : List Nat) :
    ∀ (buf : List Nat) (e : Nat), (∀ x ∈ v, is_numchar x) → ¬ is_numchar t →
      buf.length + v.length ≤ 16 →
      json5__scan_xdigits (v ++ t :: b) buf e = Except.ok (buf ++ v, e + v.length) := by
  induction v with
  | nil =>
    intro buf e _ ht _
    have ht' : ¬ (isxdigit t = true ∨ t = 'x'.toNat ∨ t = 'X'.toNat) := ht
    simp only [List.nil_append, json5__scan_xdigits, if_neg ht']
    simp
  | cons x xs ih =>
    intro buf e hv ht hlen
    have hx : isxdigit x = true ∨ x = 'x'.toNat ∨ x = 'X'.toNat := hv x (by simp)
    have hl : buf.length < 16 := by simp at hlen; omega
    have ih' := ih (buf ++ [x]) (e + 1) (fun y hy => hv y (by simp [hy])) ht
      (by simp at hlen ⊢; omega)
    simp only [List.cons_append, json5__scan_xdigits, if_pos hx, buf_push, if_pos hl,
      run_pure, run_bind_ok]
    exact ih'.trans (by simp; omega)

/-- The numeric branch on a literal made of bytes that line 400 copies: no
sign, no fraction, no exponent; the value is what `strtol` makes of it, and a
literal that runs into the terminating NUL sets `json5_error_invalid_value`. -/
theorem parse_number_int_any {src a b : List Nat} {p t : Nat} (v : List Nat)
    (err : json5_error) (obj : json5_object)
    (hs : src = a ++ (v ++ t :: b)) (hp : p = a.length)
    (hv : ∀ x ∈ v, is_numchar x) (hne : v ≠ []) (hlen : v.length ≤ 15)
    (ht : ¬ is_numchar t) (htdot : t ≠ '.'.toNat) :
    json5__parse_number src err obj p =
      Except.ok ⟨src, if t = 0 then json5_error_invalid_value else err,
        { obj with type := json5_type_integer, integer := strtol v 0 }, some (p + v.length)⟩ := by
  obtain ⟨d, v', rfl⟩ := List.exists_cons_of_ne_nil hne
  have hd : is_numchar d := hv d (by simp)
  have hd1 : d ≠ '+'.toNat := by
    rintro rfl; revert hd; decide
  have hd2 : d ≠ '-'.toNat := by
    rintro rfl; revert hd; decide
  have hd3 : d ≠ '.'.toNat := by
    rintro rfl; revert hd; decide
  have hte : ¬ (t = 'e'.toNat ∨ t = 'E'.toNat) := by
    rintro (rfl | rfl) <;> exact ht (by decide)
  have hr0 : rd src p = Except.ok d := rd_at (by simpa using hs) hp
  have hs1 : src = (a ++ d :: v') ++ t :: b := by simp [hs]
  have hp1 : p + (d :: v').length = (a ++ d :: v').length := by simp [hp]
  have hr1 : rd src (p + (d :: v').length) = Except.ok t := rd_at hs1 hp1
  have hscan := scan_xdigits_run (d :: v') t b [] p hv ht (by simp at hlen ⊢; omega)
  unfold json5__parse_number
  simp only [hr0, run_bind_ok, if_neg hd1, if_neg hd2, if_neg hd3, run_pure, drop_at hs hp,
    hscan, List.nil_append, hr1, if_neg htdot, if_neg hte]
  have h16 : ¬ (15 ≤ v'.length) := by simp at hlen; omega
  simp [h16, json5__scale_integer]

theorem parse_number_int {src a b : List Nat} {p t : Nat} (v : List Nat)
    (err : json5_error) (obj : json5_object)
    (hs : src = a ++ (v ++ t :: b)) (hp : p = a.length)
    (hv : ∀ x ∈ v, is_numchar x) (hne : v ≠ []) (hlen : v.length ≤ 15)
    (ht : ¬ is_numchar t) (htdot : t ≠ '.'.toNat) (ht0 : t ≠ 0) :
    json5__parse_number src err obj p =
      Except.ok ⟨src, err,
        { obj with type := json5_type_integer, integer := strtol v 0 }, some (p + v.length)⟩ := by
  rw [parse_number_int_any v err obj hs hp hv hne hlen ht htdot, if_neg ht0]

/-! ## `strtol` on decimal and hexadecimal literals -/

theorem isdigit_iff (c : Nat) : isdigit c = true ↔ 48 ≤ c ∧ c ≤ 57 := by
  simp [isdigit]

theorem isxdigit_iff (c : Nat) :
    isxdigit c = true ↔ (48 ≤ c ∧ c ≤ 57) ∨ (65 ≤ c ∧ c ≤ 70) ∨ (97 ≤ c ∧ c ≤ 102) := by
  simp [isxdigit, isdigit, or_assoc]

theorem isspace_iff (c : Nat) : isspace c = true ↔ c = 32 ∨ (9 ≤ c ∧ c ≤ 13) := by
  simp [isspace]

theorem isalpha_iff (c : Nat) :
    isalpha c = true ↔ (65 ≤ c ∧ c ≤ 90) ∨ (97 ≤ c ∧ c ≤ 122) := by
  simp [isalpha]

theorem digit_val_dec {c : Nat} (h : isdigit c = true) : digit_val c = some (c - 48) := by
  simp [digit_val, h]

theorem digit_val_hex {c : Nat} (h : isxdigit c = true) : digit_val c = some (hex_digit c) := by
  rw [isxdigit_iff] at h
  unfold digit_val hex_digit
  by_cases hd : isdigit c = true
  · simp [hd]
  · have hd' := hd
    rw [isdigit_iff] at hd'
    simp only [hd, Bool.false_eq_true, if_false]
    by_cases h97 : 97 ≤ c
    · have : 97 ≤ c ∧ c ≤ 122 := by omega
      simp [this, h97]
    · have h1 : ¬ (97 ≤ c ∧ c ≤ 122) := by omega
      have h2 : 65 ≤ c ∧ c ≤ 90 := by omega
      simp [h1, h2, h97]

theorem hex_digit_lt {c : Nat} (h : isxdigit c = true) : hex_digit c < 16 := by
  rw [isxdigit_iff] at h
  unfold hex_digit
  by_cases hd : isdigit c = true
  · rw [isdigit_iff] at hd; simp [isdigit, hd]; omega
  · have hd' := hd
    rw [isdigit_iff] at hd'
    simp only [hd, Bool.false_eq_true, if_false]
    split <;> omega

theorem scan_digits_dec (v : List Nat) (hv : ∀ x ∈ v, isdigit x = true) :
    ∀ acc n, scan_digits 10 v acc n =
      (v.foldl (fun acc c => acc * 10 + (c - 48)) acc, n + v.length, []) := by
  induction v with
  | nil => intro acc n; simp [scan_digits]
  | cons x xs ih =>
    intro acc n
    have hx : isdigit x = true := hv x (by simp)
    have hlt : x - 48 < 10 := by rw [isdigit_iff] at hx; omega
    simp only [scan_digits, digit_val_dec hx, if_pos hlt, List.foldl_cons, List.length_cons]
    rw [ih (fun y hy => hv y (by simp [hy]))]
    simp; omega

theorem scan_digits_hex (v : List Nat) (hv : ∀ x ∈ v, isxdigit x = true) :
    ∀ acc n, scan_digits 16 v acc n =
      (v.foldl (fun acc c => acc * 16 + hex_digit c) acc, n + v.length, []) := by
  induction v with
  | nil => intro acc n; simp [scan_digits]
  | cons x xs ih =>
    intro acc n
    have hx : isxdigit x = true := hv x (by simp)
    simp only [scan_digits, digit_val_hex hx, if_pos (hex_digit_lt hx), List.foldl_cons,
      List.length_cons]
    rw [ih (fun y hy => hv y (by simp [hy]))]
    simp; omega

theorem foldl_dec_lt (v : List Nat) (hv : ∀ x ∈ v, isdigit x = true) :
    ∀ acc, v.foldl (fun acc c => acc * 10 + (c - 48)) acc < (acc + 1) * 10 ^ v.length := by
  induction v with
  | nil => intro acc; simp
  | cons x xs ih =>
    intro acc
    have hx : isdigit x = true := hv x (by simp)
    have hlt : x - 48 < 10 := by rw [isdigit_iff] at hx; omega
    have h := ih (fun y hy => hv y (by simp [hy])) (acc * 10 + (x - 48))
    simp only [List.foldl_cons, List.length_cons]
    calc _ < (acc * 10 + (x - 48) + 1) * 10 ^ xs.length := h
      _ ≤ ((acc + 1) * 10) * 10 ^ xs.length := Nat.mul_le_mul_right _ (by omega)
      _ = (acc + 1) * 10 ^ (xs.length + 1) := by ring

theorem foldl_hex_lt (v : List Nat) (hv : ∀ x ∈ v, isxdigit x = true) :
    ∀ acc, v.foldl (fun acc c => acc * 16 + hex_digit c) acc < (acc + 1) * 16 ^ v.length := by
  induction v with
  | nil => intro acc; simp
  | cons x xs ih =>
    intro acc
    have hlt : hex_digit x < 16 := hex_digit_lt (hv x (by simp))
    have h := ih (fun y hy => hv y (by simp [hy])) (acc * 16 + hex_digit x)
    simp only [List.foldl_cons, List.length_cons]
    calc _ < (acc * 16 + hex_digit x + 1) * 16 ^ xs.length := h
      _ ≤ ((acc + 1) * 16) * 16 ^ xs.length := Nat.mul_le_mul_right _ (by omega)
      _ = (acc + 1) * 16 ^ (xs.length + 1) := by ring

theorem dec_val_lt (v : List Nat) (hv : ∀ x ∈ v, isdigit x = true) :
    dec_val v < 10 ^ v.length := by
  have h := foldl_dec_lt v hv 0
  simpa [dec_val] using h

theorem hex_val_lt (v : List Nat) (hv : ∀ x ∈ v, isxdigit x = true) :
    hex_val v < 16 ^ v.length := by
  have h := foldl_hex_lt v hv 0
  simpa [hex_val] using h

theorem scan_sign_digit (d : Nat) (r : List Nat) (hd : d ≠ 45) (hd' : d ≠ 43) :
    scan_sign (d :: r) = (false, d :: r) := by
  unfold scan_sign
  split
  · next h => simp at h; omega
  · next h => simp at h; omega
  · rfl

theorem dropWhile_isspace_stay (d : Nat) (r : List Nat) (hd : isspace d = false) :
    (d :: r).dropWhile isspace = d :: r := by
  simp [List.dropWhile, hd]

/-- Function `strtol` with base 0 reads a decimal literal of at most 18 digits as its
decimal value. -/
theorem strtol_dec (v : List Nat) (hv : is_int_lit v) (hlen : v.length ≤ 18) :
    strtol v 0 = (dec_val v : Int) := by
  obtain ⟨hne, hdig, hzero⟩ := hv
  obtain ⟨d, r, rfl⟩ := List.exists_cons_of_ne_nil hne
  have hd : isdigit d = true := hdig d (by simp)
  have hd' := (isdigit_iff d).1 hd
  have hsp : isspace d = false := by
    cases h : isspace d
    · rfl
    · rw [isspace_iff] at h; omega
  have hbound : dec_val (d :: r) < 10 ^ 18 :=
    lt_of_lt_of_le (dec_val_lt _ hdig) (Nat.pow_le_pow_right (by norm_num) hlen)
  have hmin : min ((dec_val (d :: r) : Nat) : Int) ((2 : Int) ^ 63 - 1) = dec_val (d :: r) := by
    apply min_eq_left
    have : (dec_val (d :: r) : Int) < 10 ^ 18 := by exact_mod_cast hbound
    norm_num at this ⊢
    omega
  unfold strtol
  rw [dropWhile_isspace_stay d r hsp, scan_sign_digit d r (by omega) (by omega)]
  by_cases h48 : d = 48
  · have hr : r = [] := by
      have := hzero (by simp [h48])
      simp at this
      exact this.2
    subst h48 hr
    rfl
  · have hb : strtol_base 0 (d :: r) = (10, d :: r) := by
      unfold strtol_base
      split
      · next h => simp at h; omega
      · next h => simp at h; omega
      · simp
    simp only [hb, scan_digits_dec (d :: r) hdig 0 0]
    simpa [dec_val] using hmin

/-- Function `strtol` with base 0 reads `0x` or `0X` followed by 1 to 15 hexadecimal
digits as their base-16 value. -/
theorem strtol_hex (x : Nat) (h : List Nat) (hx : x = 'x'.toNat ∨ x = 'X'.toNat)
    (hne : h ≠ []) (hh : ∀ c ∈ h, isxdigit c = true) (hlen : h.length ≤ 15) :
    strtol (48 :: x :: h) 0 = (hex_val h : Int) := by
  obtain ⟨d, r, rfl⟩ := List.exists_cons_of_ne_nil hne
  have hd : isxdigit d = true := hh d (by simp)
  have hbound : hex_val (d :: r) < 16 ^ 15 :=
    lt_of_lt_of_le (hex_val_lt _ hh) (Nat.pow_le_pow_right (by norm_num) hlen)
  have hmin : min ((hex_val (d :: r) : Nat) : Int) ((2 : Int) ^ 63 - 1) = hex_val (d :: r) := by
    apply min_eq_left
    have : (hex_val (d :: r) : Int) < 16 ^ 15 := by exact_mod_cast hbound
    norm_num at this ⊢
    omega
  have hx' : x = 120 ∨ x = 88 := by simpa using hx
  unfold strtol
  rw [dropWhile_isspace_stay 48 _ (by decide), scan_sign_digit 48 _ (by decide) (by decide)]
  have hb : strtol_base 0 (48 :: x :: d :: r) = (16, d :: r) := by
    simp [strtol_base, hx', hd]
  simp only [hb, scan_digits_hex (d :: r) hh 0 0]
  simpa [hex_val] using hmin

/-! ## Dispatch of `json5__parse_value` and the member name -/

/-- On a digit `json5__parse_value` takes the numeric branch. -/
theorem parse_value_digit {src : List Nat} {p c : Nat} (fuel : Nat) (err : json5_error)
    (obj : json5_object) (hr : rd src p = Except.ok c) (hc : isdigit c = true) :
    json5__parse_value (fuel + 1) src err obj p = json5__parse_number src err obj p := by
  have h := (isdigit_iff c).1 hc
  have ha : isalpha c = false := by
    cases h' : isalpha c
    · rfl
    · rw [isalpha_iff] at h'; omega
  have h1 : c ≠ '['.toNat := by simp; omega
  have h2 : c ≠ '{'.toNat := by simp; omega
  have h3 : ¬ (c = 34 ∨ c = 39) := by omega
  have h4 : c ≠ 96 := by omega
  have h5 : c ≠ '-'.toNat := by simp; omega
  rw [json5__parse_value]
  simp only [hr, run_bind_ok, if_neg h1, if_neg h2, if_neg h3, if_neg h4,
    json5__is_keyword_start, ha, if_neg h5, run_pure, hc]
  simp

theorem skip_go_plain (k : List Nat) (b : List Nat) :
    ∀ (q p : Nat), q ≠ 92 → (∀ x ∈ k, is_plain x) →
      json5__skip_go 34 (some q) (k ++ 34 :: b) p = Except.ok (p + k.length) := by
  induction k with
  | nil =>
    intro q p hq _
    simp [json5__skip_go, hq]
  | cons x xs ih =>
    intro q p _ hk
    obtain ⟨h0, h34, h92⟩ := hk x (by simp)
    have ih' := ih x (p + 1) h92 (fun y hy => hk y (by simp [hy]))
    simp only [List.cons_append, json5__skip_go, ne_eq, h0, h34, not_false_eq_true, and_self,
      if_true]
    exact ih'.trans (by simp; omega)

/-- The name part on a double-quoted plain name directly followed by `:`. -/
theorem parse_name_quoted {src a b : List Nat} {p : Nat} (k : List Nat)
    (obj node : json5_object)
    (hs : src = a ++ (34 :: (k ++ 34 :: 58 :: b))) (hp : p = a.length)
    (hk : ∀ x ∈ k, is_plain x) :
    json5__parse_name src obj node p 34 =
      Except.ok (NameOut.named (a ++ (34 :: (k ++ 0 :: 58 :: b)))
        { node with quote_style := json5_style_double_quote, name := some (p + 1) }
        (p + k.length + 2)) := by
  have hprev : src[p]? = some 34 := by
    subst hs hp
    rw [List.getElem?_append_right (le_refl _)]; simp
  have hdrop : src.drop (p + 1) = k ++ 34 :: 58 :: b :=
    drop_at (a := a ++ [34]) (by simp [hs]) (by simp [hp])
  have hskip : json5__skip src (p + 1) 34 = Except.ok (p + 1 + k.length) := by
    unfold json5__skip
    simp only [Nat.add_one_ne_zero, if_false, Nat.add_sub_cancel, hprev, hdrop]
    exact skip_go_plain k _ 34 (p + 1) (by decide) hk
  have hs2 : src = (a ++ 34 :: k) ++ 34 :: (58 :: b) := by simp [hs]
  have hp2 : p + 1 + k.length = (a ++ 34 :: k).length := by simp [hp]; omega
  have hwr := wr_at 0 hs2 hp2
  have hs3 : (a ++ 34 :: k) ++ 0 :: (58 :: b) = (a ++ 34 :: k ++ [0]) ++ 58 :: b := by simp
  have hp3 : p + 1 + k.length + 1 = (a ++ 34 :: k ++ [0]).length := by simp [hp]; omega
  have htrim := trim_stay hs3 hp3 (by decide)
  have hrd := rd_at hs3 hp3
  unfold json5__parse_name
  simp only [true_or, if_true, hskip, run_bind_ok, hwr, htrim, hrd]
  simp
  omega

theorem validate_name_go_plain (k : List Nat) (b : List Nat) (hk : ∀ x ∈ k, is_plain x) :
    json5__validate_name_go (k ++ 0 :: b) = Except.ok true := by
  induction k with
  | nil => simp [json5__validate_name_go]
  | cons x xs ih =>
    obtain ⟨h0, _, h92⟩ := hk x (by simp)
    have ih' := ih (fun y hy => hk y (by simp [hy]))
    simp only [List.cons_append, json5__validate_name_go, if_neg h0, json5__validate_name_bad,
      ne_eq, h92, not_false_eq_true, if_true, run_pure, run_bind_ok]
    simpa using ih'

/-- A plain name passes `json5__validate_name`. -/
theorem validate_name_plain {src a b : List Nat} {p : Nat} (k : List Nat)
    (hs : src = a ++ (k ++ 0 :: b)) (hp : p = a.length) (hk : ∀ x ∈ k, is_plain x) :
    json5__validate_name src (some p) = Except.ok true := by
  unfold json5__validate_name
  simp only [drop_at hs hp]
  exact validate_name_go_plain k b hk

/-! ## One pass of the member loop -/

/-- The part of the loop body before `l_parsed`, on a member with a
double-quoted plain name, `:` and a value that `pv` parses without error. -/
theorem member_quoted {src a : List Nat} {p : Nat} (k : List Nat) (c0 : Nat) (rest : List Nat)
    (pv : List Nat → json5_error → json5_object → Nat → Run Out) (obj : json5_object) (r : Out)
    (hs : src = a ++ (34 :: (k ++ 34 :: 58 :: c0 :: rest))) (hp : p = a.length)
    (hk : ∀ x ∈ k, is_plain x) (hc0 : isspace c0 = false)
    (hpv : pv (a ++ (34 :: (k ++ 0 :: 58 :: c0 :: rest))) json5_error_none
      { json5_object.zero with quote_style := json5_style_double_quote, name := some (p + 1) }
      (p + k.length + 3) = Except.ok r)
    (hr : r.err = json5_error_none) :
    json5__member pv src json5_error_none obj p 34 = Except.ok (Sum.inr r) := by
  have hname := parse_name_quoted k obj json5_object.zero hs hp hk
  have hval : json5__validate_name (a ++ (34 :: (k ++ 0 :: 58 :: c0 :: rest))) (some (p + 1)) =
      Except.ok true :=
    validate_name_plain (a := a ++ [34]) (b := 58 :: c0 :: rest) k (by simp) (by simp [hp]) hk
  have htrim : json5__trim (a ++ (34 :: (k ++ 0 :: 58 :: c0 :: rest))) (p + k.length + 2 + 1) =
      Except.ok (p + k.length + 2 + 1) :=
    trim_stay (a := a ++ 34 :: k ++ [0, 58]) (b := rest) (by simp) (by simp [hp]; omega) hc0
  unfold json5__member
  simp only [show ¬ (34 = '['.toNat) by decide, if_false, hname, run_bind_ok, hval, htrim,
    if_true, hpv, hr]
  simp

/-- After `l_parsed`, a `,` right at the returned position continues the loop
behind it. -/
theorem l_parsed_comma {a b : List Nat} {q : Nat} (obj : json5_object) (r : Out)
    (hret : r.ret = some q) (hs : r.src = a ++ 44 :: b) (hq : q = a.length) :
    json5__l_parsed obj r = Except.ok (Sum.inr
      ⟨r.src, r.err, { obj with nodes := obj.nodes ++ [r.obj] }, some (q + 1)⟩) := by
  unfold json5__l_parsed
  simp only [hret, trim_stay hs hq (by decide), run_bind_ok, rd_at hs hq]
  simp

/-- After `l_parsed`, a `}` right at the returned position ends the function
with the pointer on it. -/
theorem l_parsed_close {a b : List Nat} {q : Nat} (obj : json5_object) (r : Out)
    (hret : r.ret = some q) (hs : r.src = a ++ 125 :: b) (hq : q = a.length) :
    json5__l_parsed obj r = Except.ok (Sum.inl
      ⟨r.src, r.err, { obj with nodes := obj.nodes ++ [r.obj] }, some q⟩) := by
  unfold json5__l_parsed
  simp only [hret, trim_stay hs hq (by decide), run_bind_ok, rd_at hs hq]
  simp

/-- One pass of the member loop on a member that starts with the byte `c`. -/
theorem object_loop_step {src a b : List Nat} {p c : Nat} (fuel : Nat) (err : json5_error)
    (obj : json5_object) (hs : src = a ++ c :: b) (hp : p = a.length)
    (hc0 : c ≠ 0) (hsp : isspace c = false) (hcl : c ≠ 125) :
    json5__parse_object_loop (fuel + 1) src err obj p =
      (do
        match ← json5__member (json5__parse_value fuel) src err obj p c with
        | Sum.inl out => pure out
        | Sum.inr r =>
          match ← json5__l_parsed obj r with
          | Sum.inl out => pure out
          | Sum.inr next =>
            match next.ret with
            | none => ub
            | some q => json5__parse_object_loop fuel next.src next.err next.obj q) := by
  have hcl' : c ≠ '}'.toNat := by simpa using hcl
  rw [json5__parse_object_loop]
  simp only [rd_at hs hp, run_bind_ok, trim_stay hs hp hsp, if_neg hc0, if_neg hcl']

/-! ## Lists of members `"k":v` with integer values -/

theorem member_done_length (m : List Nat × List Nat) :
    (member_done m).length = (member_text m).length := by
  simp [member_done, member_text]

theorem members_comma_done_length (ms : List (List Nat × List Nat)) :
    (members_comma_done ms).length = (members_comma ms).length := by
  induction ms with
  | nil => rfl
  | cons m ms ih => simp [members_comma_done, members_comma, ih, member_done_length]

theorem is_numchar_of_isdigit {x : Nat} (h : isdigit x = true) : is_numchar x := by
  left
  simp [isxdigit, h]

theorem isspace_of_isdigit {x : Nat} (h : isdigit x = true) : isspace x = false := by
  rw [isdigit_iff] at h
  cases h' : isspace x
  · rfl
  · rw [isspace_iff] at h'; omega

/-- The part of the loop body before `l_parsed` on a member `"k":v` that is
followed by a byte `t` which ends the number. -/
theorem member_int {src a b : List Nat} {p t : Nat} (m : List Nat × List Nat) (fuel : Nat)
    (obj : json5_object) (hs : src = a ++ (member_text m ++ t :: b)) (hp : p = a.length)
    (hm : member_ok m) (ht : ¬ is_numchar t) (htdot : t ≠ '.'.toNat) (ht0 : t ≠ 0) :
    json5__member (json5__parse_value (fuel + 1)) src json5_error_none obj p 34 =
      Except.ok (Sum.inr ⟨a ++ (member_done m ++ t :: b), json5_error_none, member_node p m,
        some (p + (member_text m).length)⟩) := by
  obtain ⟨k, v⟩ := m
  obtain ⟨hk, ⟨d, v', hv, hd⟩, hdig, hlen⟩ := hm
  simp only at hk hv hdig hlen
  subst hv
  have hs' : src = a ++ (34 :: (k ++ 34 :: 58 :: d :: (v' ++ t :: b))) := by
    simp [hs, member_text]
  have hsrc2 : a ++ (34 :: (k ++ 0 :: 58 :: d :: (v' ++ t :: b))) =
      (a ++ 34 :: k ++ [0, 58]) ++ ((d :: v') ++ t :: b) := by simp
  have hp2 : p + k.length + 3 = (a ++ 34 :: k ++ [0, 58]).length := by simp [hp]; omega
  have hrd : rd (a ++ (34 :: (k ++ 0 :: 58 :: d :: (v' ++ t :: b)))) (p + k.length + 3) =
      Except.ok d :=
    rd_at (a := a ++ 34 :: k ++ [0, 58]) (b := v' ++ t :: b) (by simp) hp2
  have hnum := parse_number_int (d :: v') json5_error_none
    { json5_object.zero with quote_style := json5_style_double_quote, name := some (p + 1) }
    hsrc2 hp2 hdig (by simp) hlen ht htdot ht0
  have hpv := (parse_value_digit fuel json5_error_none
    { json5_object.zero with quote_style := json5_style_double_quote, name := some (p + 1) }
    hrd hd).trans hnum
  rw [member_quoted k d (v' ++ t :: b) _ obj _ hs' hp hk (isspace_of_isdigit hd) hpv rfl]
  simp [member_done, member_node, member_text]
  omega

theorem not_numchar_comma : ¬ is_numchar 44 := by decide

theorem not_numchar_close : ¬ is_numchar 125 := by decide

/-- The member loop over members each followed by a comma: it appends their
nodes and goes on behind the last comma. -/
theorem object_loop_commas (ms : List (List Nat × List Nat)) :
    ∀ (a b : List Nat) (obj : json5_object) (fuel : Nat) (src : List Nat) (p : Nat),
      (∀ m ∈ ms, member_ok m) → src = a ++ (members_comma ms ++ b) → p = a.length →
      json5__parse_object_loop (fuel + 1 + ms.length) src json5_error_none obj p =
        json5__parse_object_loop (fuel + 1) (a ++ (members_comma_done ms ++ b)) json5_error_none
          { obj with nodes := obj.nodes ++ member_nodes p ms } (p + (members_comma ms).length) := by
  induction ms with
  | nil =>
    intro a b obj fuel src p _ hs hp
    subst hs
    cases obj
    simp [members_comma, members_comma_done, member_nodes]
  | cons m ms ih =>
    intro a b obj fuel src p hms hs hp
    have hm : member_ok m := hms m (by simp)
    have hs1 : src = a ++ (member_text m ++ 44 :: (members_comma ms ++ b)) := by
      simp [hs, members_comma]
    have hfuel : fuel + 1 + (m :: ms).length = (fuel + ms.length + 1) + 1 := by
      simp; omega
    have hmem := member_int m (fuel + ms.length) obj hs1 hp hm not_numchar_comma
      (by decide) (by decide)
    have hl := l_parsed_comma (a := a ++ member_done m) (b := members_comma ms ++ b)
      (q := p + (member_text m).length) obj
      ⟨a ++ (member_done m ++ 44 :: (members_comma ms ++ b)), json5_error_none, member_node p m,
        some (p + (member_text m).length)⟩ rfl (by simp) (by simp [hp, member_done_length])
    have hih := ih (a ++ member_done m ++ [44]) b
      { obj with nodes := obj.nodes ++ [member_node p m] } fuel
      (a ++ (member_done m ++ 44 :: (members_comma ms ++ b))) (p + (member_text m).length + 1)
      (fun x hx => hms x (by simp [hx])) (by simp)
      (by simp [hp, member_done_length]; omega)
    rw [hfuel, object_loop_step (fuel + ms.length + 1) json5_error_none obj
      (c := 34) (b := m.1 ++ 34 :: 58 :: m.2 ++ 44 :: (members_comma ms ++ b))
      (by simp [hs1, member_text]) hp (by decide) (by decide) (by decide), hmem]
    simp only [run_bind_ok, hl]
    rw [show fuel + ms.length + 1 = fuel + 1 + ms.length by omega, hih]
    simp [members_comma, members_comma_done, member_nodes, Nat.add_assoc]
    congr 1
    omega

/-! ## What a reader of the tree sees -/

theorem cstr_go_plain (k : List Nat) (b : List Nat) (hk : ∀ x ∈ k, x ≠ 0) :
    cstr_go (k ++ 0 :: b) = k := by
  induction k with
  | nil => simp [cstr_go]
  | cons x xs ih =>
    have hx : x ≠ 0 := hk x (by simp)
    simp [cstr_go, hx, ih (fun y hy => hk y (by simp [hy]))]

/-- The C string at `p` when the buffer holds `k` and a NUL there. -/
theorem cstr_at {src a b : List Nat} {p : Nat} (k : List Nat)
    (hs : src = a ++ (k ++ 0 :: b)) (hp : p = a.length) (hk : ∀ x ∈ k, x ≠ 0) :
    cstr src p = k := by
  unfold cstr
  rw [drop_at hs hp, cstr_go_plain k b hk]

theorem view_member_node {src a b : List Nat} {p : Nat} (m : List Nat × List Nat)
    (hs : src = a ++ (member_done m ++ b)) (hp : p = a.length) (hm : member_ok m) :
    view src (member_node p m) = member_view m := by
  have hc : cstr src (p + 1) = m.1 :=
    cstr_at (a := a ++ [34]) (b := 58 :: (m.2 ++ b)) m.1 (by simp [hs, member_done])
      (by simp [hp]) (fun x hx => (hm.1 x hx).1)
  simp [view, member_node, member_view, hc, json5_object.zero]

theorem view_member_nodes (ms : List (List Nat × List Nat)) :
    ∀ (a b src : List Nat) (p : Nat), (∀ m ∈ ms, member_ok m) →
      src = a ++ (members_comma_done ms ++ b) → p = a.length →
      (member_nodes p ms).map (view src) = ms.map member_view := by
  induction ms with
  | nil => intros; rfl
  | cons m ms ih =>
    intro a b src p hms hs hp
    have h1 := view_member_node (a := a) (b := 44 :: (members_comma_done ms ++ b)) m
      (hs.trans (by simp [members_comma_done])) hp (hms m (by simp))
    have h2 := ih (a ++ member_done m ++ [44]) b src (p + (member_text m).length + 1)
      (fun x hx => hms x (by simp [hx])) (hs.trans (by simp [members_comma_done]))
      (by simp [hp, member_done_length]; omega)
    simp [member_nodes, h1, h2]

/-! ## The member loop up to its return -/

/-- On `}` the member loop returns at once. -/
theorem object_loop_close {src a b : List Nat} {p : Nat} (fuel : Nat) (err : json5_error)
    (obj : json5_object) (hs : src = a ++ 125 :: b) (hp : p = a.length) :
    json5__parse_object_loop (fuel + 1) src err obj p = Except.ok ⟨src, err, obj, some p⟩ := by
  rw [json5__parse_object_loop]
  simp only [rd_at hs hp, run_bind_ok, trim_stay hs hp (by decide)]
  simp

/-- The member loop on a last member `"k":v` followed by `}`. -/
theorem object_loop_last {src a b : List Nat} {p : Nat} (m : List Nat × List Nat)
    (fuel : Nat) (obj : json5_object)
    (hs : src = a ++ (member_text m ++ 125 :: b)) (hp : p = a.length) (hm : member_ok m) :
    json5__parse_object_loop (fuel + 2) src json5_error_none obj p =
      Except.ok ⟨a ++ (member_done m ++ 125 :: b), json5_error_none,
        { obj with nodes := obj.nodes ++ [member_node p m] },
        some (p + (member_text m).length)⟩ := by
  have hmem := member_int m fuel obj hs hp hm not_numchar_close (by decide) (by decide)
  have hl := l_parsed_close (a := a ++ member_done m) (b := b)
    (q := p + (member_text m).length) obj
    ⟨a ++ (member_done m ++ 125 :: b), json5_error_none, member_node p m,
      some (p + (member_text m).length)⟩ rfl (by simp) (by simp [hp, member_done_length])
  rw [object_loop_step (fuel + 1) json5_error_none obj
    (c := 34) (b := m.1 ++ 34 :: 58 :: m.2 ++ 125 :: b) (by simp [hs, member_text]) hp
    (by decide) (by decide) (by decide), hmem]
  simp only [run_bind_ok, hl]
  simp

/-- Run of `json5__parse_object` on a buffer that starts with `{` enters the member
loop behind it. -/
theorem parse_object_open {src b : List Nat} (fuel : Nat) (err : json5_error)
    (obj : json5_object) (hs : src = 123 :: b) :
    json5__parse_object (fuel + 1) src err obj 0 =
      json5__parse_object_loop fuel src err { obj with nodes := [] } 1 := by
  have hs' : src = [] ++ 123 :: b := by simp [hs]
  rw [json5__parse_object]
  simp only [trim_stay (p := 0) hs' rfl (by decide), run_bind_ok, rd_at (p := 0) hs' rfl]
  simp

/-! ## Objects of members with integer values -/

theorem is_plain_of_isalpha {x : Nat} (h : isalpha x = true) : is_plain x := by
  rw [isalpha_iff] at h
  unfold is_plain
  omega

theorem member_ok_of_is_member {m : List Nat × List Nat} (h : is_member m) : member_ok m := by
  obtain ⟨hk, ⟨hne, hdig, _⟩, hlen⟩ := h
  obtain ⟨d, r, hv⟩ := List.exists_cons_of_ne_nil hne
  exact ⟨fun x hx => is_plain_of_isalpha (hk.2 x hx), ⟨d, r, hv, hdig d (by simp [hv])⟩,
    fun x hx => is_numchar_of_isdigit (hdig x hx), hlen⟩

theorem member_view_of_is_member {m : List Nat × List Nat} (h : is_member m) :
    member_view m = int_member_view m := by
  simp [member_view, int_member_view, strtol_dec m.2 h.2.1 (by have := h.2.2; omega)]

theorem join_members_snoc (init : List (List Nat × List Nat)) (last : List Nat × List Nat) :
    join_members (init ++ [last]) = members_comma init ++ member_text last := by
  induction init with
  | nil => simp [join_members, members_comma]
  | cons m ms ih =>
    cases ms with
    | nil => simp [join_members, members_comma]
    | cons m' ms' =>
      have ih' : join_members (m' :: (ms' ++ [last])) =
          members_comma (m' :: ms') ++ member_text last := by simpa using ih
      show join_members (m :: m' :: (ms' ++ [last])) = _
      rw [join_members, ih']
      simp [members_comma]

theorem length_le_members_comma (ms : List (List Nat × List Nat)) :
    ms.length ≤ (members_comma ms).length := by
  induction ms with
  | nil => simp
  | cons m ms ih => simp [members_comma, member_text]; omega

/-- The member loop over the members of `ms`, separated by commas and
followed by `}`: it returns on the `}` without error, having appended one node
per member, which a reader sees as `member_view` says. -/
theorem object_loop_members (ms : List (List Nat × List Nat)) (hne : ms ≠ [])
    (hms : ∀ m ∈ ms, member_ok m) (a b : List Nat) (obj : json5_object) (fuel : Nat)
    (hfuel : ms.length + 2 ≤ fuel) :
    ∃ s ns, json5__parse_object_loop fuel (a ++ (join_members ms ++ 125 :: b))
        json5_error_none obj a.length =
        Except.ok ⟨s, json5_error_none, { obj with nodes := obj.nodes ++ ns },
          some (a.length + (join_members ms).length)⟩ ∧
      ns.map (view s) = ms.map member_view := by
  obtain ⟨init, last, rfl⟩ : ∃ init last, ms = init ++ [last] :=
    ⟨ms.dropLast, ms.getLast hne, (List.dropLast_append_getLast hne).symm⟩
  have hinit : ∀ m ∈ init, member_ok m := fun m hm => hms m (by simp [hm])
  have hlast : member_ok last := hms last (by simp)
  obtain ⟨f, rfl⟩ : ∃ f, fuel = (f + 2) + 1 + init.length :=
    ⟨fuel - init.length - 3, by simp at hfuel; omega⟩
  refine ⟨a ++ (members_comma_done init ++ (member_done last ++ 125 :: b)),
    member_nodes a.length init ++ [member_node (a.length + (members_comma init).length) last],
    ?_, ?_⟩
  · rw [object_loop_commas init a (member_text last ++ 125 :: b) obj (f + 2) _ a.length hinit
      (by simp [join_members_snoc]) rfl]
    rw [show f + 2 + 1 = (f + 1) + 2 by omega]
    rw [object_loop_last (a := a ++ members_comma_done init) (b := b) last (f + 1) _ (by simp)
      (by simp [members_comma_done_length]) hlast]
    simp [join_members_snoc, Nat.add_assoc]
  · have h1 := view_member_nodes init a (member_done last ++ 125 :: b) _ a.length hinit rfl rfl
    have h2 := view_member_node (a := a ++ members_comma_done init) (b := 125 :: b)
      (p := a.length + (members_comma init).length) last
      (show a ++ (members_comma_done init ++ (member_done last ++ 125 :: b)) =
        (a ++ members_comma_done init) ++ (member_done last ++ 125 :: b) by simp)
      (by simp [members_comma_done_length]) hlast
    simp [h1, h2]

/-- Without comment stripping, `json5_parse` on a buffer that starts with `{`
runs the member loop behind it. -/
theorem json5_parse_open {src b : List Nat} (hs : src = 123 :: b) :
    json5_parse src false =
      (do
        let r ← json5__parse_object_loop (3 * src.length + 3) src json5_error_none
          { json5_object.zero with nodes := [] } 1
        pure (r.src, r.obj, r.err)) := by
  have h := parse_object_open (3 * src.length + 3) json5_error_none json5_object.zero hs
  unfold json5_parse
  simp only [Bool.false_eq_true, if_false, run_pure, run_bind_ok]
  rw [← h]

/-- Run of `json5_parse` on the text `{"k_1":v_1,...,"k_n":v_n}`, for plain names and
values that the numeric branch reads as integers. -/
theorem parse_object_text (ms : List (List Nat × List Nat)) (hne : ms ≠ [])
    (hok : ∀ m ∈ ms, member_ok m) :
    ∃ s root, json5_parse (object_text ms ++ [0]) false =
        Except.ok (s, root, json5_error_none) ∧
      root.type = json5_type_object ∧ root.nodes.map (view s) = ms.map member_view := by
  have hlen : ms.length + 2 ≤ 3 * (object_text ms ++ [0]).length + 3 := by
    obtain ⟨init, last, rfl⟩ : ∃ init last, ms = init ++ [last] :=
      ⟨ms.dropLast, ms.getLast hne, (List.dropLast_append_getLast hne).symm⟩
    have := length_le_members_comma init
    simp [object_text, join_members_snoc]
    omega
  obtain ⟨s, ns, hrun, hview⟩ := object_loop_members ms hne hok [123] [0]
    { json5_object.zero with nodes := [] } _ hlen
  have hsrc : object_text ms ++ [0] = [123] ++ (join_members ms ++ 125 :: [0]) := by
    simp [object_text]
  refine ⟨s, { json5_object.zero with nodes := [] ++ ns }, ?_, rfl, ?_⟩
  · rw [json5_parse_open (b := join_members ms ++ [125, 0]) (by simp [object_text])]
    rw [← hsrc] at hrun
    have h1 : ([123] : List Nat).length = 1 := rfl
    rw [h1] at hrun
    rw [hrun]
    rfl
  · simpa using hview

/-- C1: for every non-empty list of members `(k_i, v_i)`, each `k_i` one or
more ASCII letters and each `v_i` a decimal integer literal without a leading
zero of at most 15 characters, `json5_parse` on the text
`{"k_1":v_1,...,"k_n":v_n}` (no comment stripping) returns `json5_error_none`
and a root of type object with exactly `n` children; the i-th child has name
`k_i`, type integer and integer value `v_i`, in document order. -/
theorem C1_object_of_integer_members (ms : List (List Nat × List Nat)) (hne : ms ≠ [])
    (hms : ∀ m ∈ ms, is_member m) :
    ∃ s root, json5_parse (object_text ms ++ [0]) false =
        Except.ok (s, root, json5_error_none) ∧
      root.type = json5_type_object ∧ root.nodes.length = ms.length ∧
      root.nodes.map (view s) = ms.map int_member_view := by
  obtain ⟨s, root, hrun, htype, hview⟩ :=
    parse_object_text ms hne (fun m hm => member_ok_of_is_member (hms m hm))
  have hviews : root.nodes.map (view s) = ms.map int_member_view := by
    rw [hview]
    exact List.map_congr_left (fun m hm => member_view_of_is_member (hms m hm))
  refine ⟨s, root, hrun, htype, ?_, hviews⟩
  have := congrArg List.length hviews
  simpa using this

/-- Instance of C1: `{"a":1,"b":2}` gives two members, `a` = integer 1 and
`b` = integer 2. -/
theorem C1_witness :
    ([(bytes "a", bytes "1"), (bytes "b", bytes "2")] ≠ [] ∧
      ∀ m ∈ [(bytes "a", bytes "1"), (bytes "b", bytes "2")], is_member m) ∧
    ∃ s root, json5_parse (cbuf "\x7b\"a\":1,\"b\":2\x7d") false =
        Except.ok (s, root, json5_error_none) ∧
      root.type = json5_type_object ∧ root.nodes.length = 2 ∧
      root.nodes.map (view s) =
        [⟨some (bytes "a"), json5_type_integer, json5_style_double_quote, 0, 1, none⟩,
         ⟨some (bytes "b"), json5_type_integer, json5_style_double_quote, 0, 2, none⟩] :=
  ⟨⟨by decide, by decide⟩,
    C1_object_of_integer_members [(bytes "a", bytes "1"), (bytes "b", bytes "2")]
      (by decide) (by decide)⟩

/-! ## A trailing comma -/

theorem members_comma_eq_join (ms : List (List Nat × List Nat)) (hne : ms ≠ []) :
    members_comma ms = join_members ms ++ [44] := by
  obtain ⟨init, last, rfl⟩ : ∃ init last, ms = init ++ [last] :=
    ⟨ms.dropLast, ms.getLast hne, (List.dropLast_append_getLast hne).symm⟩
  rw [join_members_snoc]
  induction init with
  | nil => simp [members_comma]
  | cons m ms ih => simp [members_comma, ih]

/-- Run of `json5_parse` on the text `{"k_1":v_1,...,"k_n":v_n,}`. -/
theorem parse_object_text_comma (ms : List (List Nat × List Nat)) (hne : ms ≠ [])
    (hok : ∀ m ∈ ms, member_ok m) :
    ∃ s root, json5_parse (123 :: (join_members ms ++ [44, 125]) ++ [0]) false =
        Except.ok (s, root, json5_error_none) ∧
      root.type = json5_type_object ∧ root.nodes.map (view s) = ms.map member_view := by
  have hsrc : 123 :: (join_members ms ++ [44, 125]) ++ [0] =
      [123] ++ (members_comma ms ++ [125, 0]) := by
    simp [members_comma_eq_join ms hne]
  have hlen := length_le_members_comma ms
  obtain ⟨f, hf⟩ : ∃ f, 3 * (123 :: (join_members ms ++ [44, 125]) ++ [0]).length + 3 =
      (f + 1) + 1 + ms.length :=
    ⟨3 * (123 :: (join_members ms ++ [44, 125]) ++ [0]).length + 1 - ms.length, by
      rw [hsrc]; simp; omega⟩
  refine ⟨[123] ++ (members_comma_done ms ++ [125, 0]),
    { json5_object.zero with nodes := [] ++ member_nodes 1 ms }, ?_, rfl, ?_⟩
  · rw [json5_parse_open (b := join_members ms ++ [44, 125, 0]) (by simp), hf]
    rw [object_loop_commas ms [123] [125, 0] _ (f + 1) _ 1 hok hsrc rfl]
    rw [object_loop_close (a := [123] ++ members_comma_done ms) (b := [0]) (f + 1) _ _ (by simp)
      (by simp [members_comma_done_length]; omega)]
    rfl
  · simpa using view_member_nodes ms [123] [125, 0] _ 1 hok rfl rfl

/-- C4: for every member list as in C1, a single trailing comma right before
the closing `}` does not change the result of `json5_parse`: the error code is
`json5_error_none` and the children (count, names, types, values, order) are
those of the text without the comma. -/
theorem C4_trailing_comma_in_object (ms : List (List Nat × List Nat)) (hne : ms ≠ [])
    (hms : ∀ m ∈ ms, is_member m) :
    ∃ s root s0 root0,
      json5_parse (123 :: (join_members ms ++ [44, 125]) ++ [0]) false =
        Except.ok (s, root, json5_error_none) ∧
      json5_parse (object_text ms ++ [0]) false = Except.ok (s0, root0, json5_error_none) ∧
      root.nodes.map (view s) = root0.nodes.map (view s0) ∧
      root.nodes.map (view s) = ms.map int_member_view := by
  have hok : ∀ m ∈ ms, member_ok m := fun m hm => member_ok_of_is_member (hms m hm)
  obtain ⟨s, root, hrun, _, hview⟩ := parse_object_text_comma ms hne hok
  obtain ⟨s0, root0, hrun0, _, hview0⟩ := parse_object_text ms hne hok
  refine ⟨s, root, s0, root0, hrun, hrun0, hview.trans hview0.symm, ?_⟩
  rw [hview]
  exact List.map_congr_left (fun m hm => member_view_of_is_member (hms m hm))

/-- Instance of C4: `{"a":1,}` gives exactly one member, `a` = integer 1. -/
theorem C4_witness :
    ([(bytes "a", bytes "1")] ≠ [] ∧ ∀ m ∈ [(bytes "a", bytes "1")], is_member m) ∧
    ∃ s root s0 root0,
      json5_parse (cbuf "\x7b\"a\":1,\x7d") false = Except.ok (s, root, json5_error_none) ∧
      json5_parse (cbuf "\x7b\"a\":1\x7d") false = Except.ok (s0, root0, json5_error_none) ∧
      root.nodes.map (view s) = root0.nodes.map (view s0) ∧
      root.nodes.map (view s) =
        [⟨some (bytes "a"), json5_type_integer, json5_style_double_quote, 0, 1, none⟩] :=
  ⟨⟨by decide, by decide⟩,
    C4_trailing_comma_in_object [(bytes "a", bytes "1")] (by decide) (by decide)⟩

/-- C5: for every hexadecimal literal, `0x` or `0X` followed by 1 to 13
hexadecimal digits `h`, `json5_parse` on `{"a":0xh}` returns
`json5_error_none` and member `a` has type integer with the base-16 value of
the digits. -/
theorem C5_hex_literal (x : Nat) (h : List Nat) (hx : x = 'x'.toNat ∨ x = 'X'.toNat)
    (hh : ∀ c ∈ h, isxdigit c = true) (h1 : 1 ≤ h.length) (h13 : h.length ≤ 13) :
    ∃ s root, json5_parse (object_text [(bytes "a", 48 :: x :: h)] ++ [0]) false =
        Except.ok (s, root, json5_error_none) ∧
      root.nodes.map (view s) =
        [⟨some (bytes "a"), json5_type_integer, json5_style_double_quote, 0, hex_val h, none⟩] := by
  have hne : h ≠ [] := by
    intro h0; subst h0; simp at h1
  have hok : ∀ m ∈ [(bytes "a", 48 :: x :: h)], member_ok m := by
    intro m hm
    simp only [List.mem_singleton] at hm
    subst hm
    have hname : ∀ c ∈ bytes "a", is_plain c := by decide
    refine ⟨hname, ⟨48, x :: h, rfl, by decide⟩, ?_, by simp; omega⟩
    intro c hc
    simp only [List.mem_cons] at hc
    rcases hc with rfl | rfl | hc
    · decide
    · right; exact hx
    · left; exact hh c hc
  obtain ⟨s, root, hrun, _, hview⟩ := parse_object_text _ (by simp) hok
  refine ⟨s, root, hrun, ?_⟩
  rw [hview]
  simp [member_view, strtol_hex x h hx hne hh (by omega)]

/-- Instance of C5: `{"a":0x1F}` gives integer 31. -/
theorem C5_witness :
    (('x'.toNat = 'x'.toNat ∨ 'x'.toNat = 'X'.toNat) ∧ (∀ c ∈ bytes "1F", isxdigit c = true) ∧
      1 ≤ (bytes "1F").length ∧ (bytes "1F").length ≤ 13) ∧
    ∃ s root, json5_parse (cbuf "\x7b\"a\":0x1F\x7d") false =
        Except.ok (s, root, json5_error_none) ∧
      root.nodes.map (view s) =
        [⟨some (bytes "a"), json5_type_integer, json5_style_double_quote, 0, 31, none⟩] :=
  ⟨⟨by decide, by decide, by decide, by decide⟩,
    C5_hex_literal 'x'.toNat (bytes "1F") (by decide) (by decide) (by decide) (by decide)⟩

/-! ## Unquoted member names -/

theorem is_plain_of_ident_char {x : Nat} (h : is_ident_char x) : is_plain x := by
  unfold is_ident_char at h
  rw [isalpha_iff, isdigit_iff] at h
  simp at h
  unfold is_plain
  omega

theorem isspace_of_ident_char {x : Nat} (h : is_ident_char x) : isspace x = false := by
  unfold is_ident_char at h
  rw [isalpha_iff, isdigit_iff] at h
  simp at h
  cases h' : isspace x
  · rfl
  · rw [isspace_iff] at h'; omega

theorem ident_scan_run (r : List Nat) (b : List Nat) :
    ∀ e, (∀ x ∈ r, is_ident_char x) →
      json5__ident_scan (r ++ 58 :: b) e = Except.ok (e + 1 + r.length) := by
  induction r with
  | nil => intro e _; simp [json5__ident_scan]
  | cons x xs ih =>
    intro e hr
    have hx : is_ident_char x := hr x (by simp)
    have hpl := is_plain_of_ident_char hx
    have hsp := isspace_of_ident_char hx
    have hcolon : x ≠ ':'.toNat := by
      unfold is_ident_char at hx
      rw [isalpha_iff, isdigit_iff] at hx
      simp at hx ⊢
      omega
    have hcond : x ≠ 0 ∧ (x = '_'.toNat ∨ isalpha x = true ∨ isdigit x = true) ∧
        ¬ (isspace x = true) ∧ x ≠ ':'.toNat := by
      refine ⟨hpl.1, ?_, by simp [hsp], hcolon⟩
      rcases hx with h | h | h
      · exact Or.inr (Or.inl h)
      · exact Or.inr (Or.inr h)
      · exact Or.inl h
    have ih' := ih (e + 1) (fun y hy => hr y (by simp [hy]))
    simp only [List.cons_append, json5__ident_scan, if_pos hcond]
    exact ih'.trans (by simp; omega)

/-- The name part on an identifier directly followed by `:`. -/
theorem parse_name_ident {src a b : List Nat} {p : Nat} (c : Nat) (r : List Nat)
    (obj node : json5_object) (hs : src = a ++ (c :: r ++ 58 :: b)) (hp : p = a.length)
    (hn : is_ident (c :: r)) :
    json5__parse_name src obj node p c =
      Except.ok (NameOut.named (a ++ (c :: r ++ 0 :: b))
        { node with name := some p, quote_style := json5_style_no_quotes }
        (p + 1 + r.length)) := by
  obtain ⟨hc, hr⟩ := hn
  have hq : ¬ (c = 34 ∨ c = 39) := by
    rw [isalpha_iff] at hc
    simp at hc
    omega
  have hscan : json5__ident_scan (src.drop (p + 1)) p = Except.ok (p + 1 + r.length) := by
    rw [drop_at (a := a ++ [c]) (b := r ++ 58 :: b) (by simp [hs]) (by simp [hp])]
    exact ident_scan_run r b p hr
  have hs2 : src = (a ++ c :: r) ++ 58 :: b := by simp [hs]
  have hp2 : p + 1 + r.length = (a ++ c :: r).length := by simp [hp]; omega
  unfold json5__parse_name
  simp only [if_neg hq, if_pos hc, hscan, run_bind_ok, rd_at hs2 hp2, wr_at 0 hs2 hp2]
  simp

/-- The part of the loop body before `l_parsed`, on a member with an
identifier as name, `:` and a value that `pv` parses without error. -/
theorem member_ident {src a : List Nat} {p : Nat} (c : Nat) (r : List Nat) (c0 : Nat)
    (rest : List Nat) (pv : List Nat → json5_error → json5_object → Nat → Run Out)
    (obj : json5_object) (out : Out)
    (hs : src = a ++ (c :: r ++ 58 :: c0 :: rest)) (hp : p = a.length)
    (hn : is_ident (c :: r)) (hc0 : isspace c0 = false)
    (hpv : pv (a ++ (c :: r ++ 0 :: c0 :: rest)) json5_error_none
      { json5_object.zero with name := some p, quote_style := json5_style_no_quotes }
      (p + 1 + r.length + 1) = Except.ok out)
    (hout : out.err = json5_error_none) :
    json5__member pv src json5_error_none obj p c = Except.ok (Sum.inr out) := by
  have hname := parse_name_ident c r obj json5_object.zero hs hp hn
  have hplain : ∀ x ∈ c :: r, is_plain x := by
    intro x hx
    simp only [List.mem_cons] at hx
    rcases hx with rfl | hx
    · have := hn.1
      rw [isalpha_iff] at this
      simp at this
      unfold is_plain
      omega
    · exact is_plain_of_ident_char (hn.2 x hx)
  have hval : json5__validate_name (a ++ (c :: r ++ 0 :: c0 :: rest)) (some p) =
      Except.ok true :=
    validate_name_plain (a := a) (b := c0 :: rest) (c :: r) (by simp) hp hplain
  have htrim : json5__trim (a ++ (c :: r ++ 0 :: c0 :: rest)) (p + 1 + r.length + 1) =
      Except.ok (p + 1 + r.length + 1) :=
    trim_stay (a := a ++ c :: r ++ [0]) (b := rest) (by simp) (by simp [hp]; omega) hc0
  have hbr : c ≠ '['.toNat := by
    have := hn.1
    rw [isalpha_iff] at this
    simp at this ⊢
    omega
  unfold json5__member
  simp only [if_neg hbr, hname, run_bind_ok, hval, htrim, if_true, hpv, hout]
  simp

/-- The member loop on a last member `n:v` followed by `}`, `n` being an
identifier. -/
theorem object_loop_ident_last {src a b : List Nat} {p : Nat} (c : Nat) (r v : List Nat)
    (fuel : Nat) (obj : json5_object)
    (hs : src = a ++ (c :: r ++ 58 :: (v ++ 125 :: b))) (hp : p = a.length)
    (hn : is_ident (c :: r)) (hv : member_ok ([], v)) :
    json5__parse_object_loop (fuel + 2) src json5_error_none obj p =
      Except.ok ⟨a ++ (c :: r ++ 0 :: (v ++ 125 :: b)), json5_error_none,
        { obj with nodes := obj.nodes ++ [ident_node p v] },
        some (p + 1 + r.length + 1 + v.length)⟩ := by
  obtain ⟨_, ⟨d, v', hvd, hd⟩, hnum, hlen⟩ := hv
  simp only at hvd hnum hlen
  subst hvd
  have hc := hn.1
  have hc' : c ≠ 0 ∧ isspace c = false ∧ c ≠ 125 := by
    rw [isalpha_iff] at hc
    simp at hc
    refine ⟨by omega, ?_, by omega⟩
    cases h' : isspace c
    · rfl
    · rw [isspace_iff] at h'; omega
  have hp2 : p + 1 + r.length + 1 = (a ++ (c :: r ++ [0])).length := by simp [hp]; omega
  have hrd : rd (a ++ (c :: r ++ 0 :: d :: (v' ++ 125 :: b))) (p + 1 + r.length + 1) =
      Except.ok d :=
    rd_at (a := a ++ (c :: r ++ [0])) (b := v' ++ 125 :: b) (by simp) hp2
  have hnumr := parse_number_int (a := a ++ (c :: r ++ [0])) (b := b) (t := 125) (d :: v')
    json5_error_none
    { json5_object.zero with name := some p, quote_style := json5_style_no_quotes }
    (show a ++ (c :: r ++ 0 :: d :: (v' ++ 125 :: b)) =
      (a ++ (c :: r ++ [0])) ++ ((d :: v') ++ 125 :: b) by simp)
    hp2 hnum (by simp) hlen not_numchar_close (by decide) (by decide)
  have hpv := (parse_value_digit fuel json5_error_none
    { json5_object.zero with name := some p, quote_style := json5_style_no_quotes }
    hrd hd).trans hnumr
  have hmem := member_ident c r d (v' ++ 125 :: b) _ obj _ (hs.trans (by simp)) hp hn
    (isspace_of_isdigit hd) hpv rfl
  have hl := l_parsed_close (a := a ++ (c :: r ++ 0 :: d :: v')) (b := b)
    (q := p + 1 + r.length + 1 + (d :: v').length) obj
    ⟨a ++ (c :: r ++ 0 :: d :: (v' ++ 125 :: b)), json5_error_none,
      ident_node p (d :: v'), some (p + 1 + r.length + 1 + (d :: v').length)⟩ rfl (by simp)
    (by simp [hp]; omega)
  rw [object_loop_step (a := a) (b := r ++ 58 :: d :: (v' ++ 125 :: b)) (c := c) (fuel + 1)
    json5_error_none obj (hs.trans (by simp)) hp hc'.1 hc'.2.1 hc'.2.2, hmem]
  simp only [run_bind_ok]
  rw [show (⟨a ++ (c :: r ++ 0 :: d :: (v' ++ 125 :: b)), json5_error_none,
      { json5_object.zero with
        name := some p, quote_style := json5_style_no_quotes,
        type := json5_type_integer, integer := strtol (d :: v') 0 },
      some (p + 1 + r.length + 1 + (d :: v').length)⟩ : Out) =
    ⟨a ++ (c :: r ++ 0 :: d :: (v' ++ 125 :: b)), json5_error_none,
      ident_node p (d :: v'), some (p + 1 + r.length + 1 + (d :: v').length)⟩ from rfl, hl]
  simp

/-- Run of `json5_parse` on `{n:1}` for an identifier `n`. -/
theorem parse_ident_member (n : List Nat) (hn : is_ident n) :
    ∃ s root, json5_parse (123 :: (n ++ [58, 49, 125]) ++ [0]) false =
        Except.ok (s, root, json5_error_none) ∧
      root.nodes.map (view s) =
        [⟨some n, json5_type_integer, json5_style_no_quotes, 0, 1, none⟩] := by
  cases n with
  | nil => exact absurd hn (fun h => h)
  | cons c r =>
    have hplain : ∀ x ∈ c :: r, x ≠ 0 := by
      intro x hx
      simp only [List.mem_cons] at hx
      rcases hx with rfl | hx
      · have hc := hn.1
        rw [isalpha_iff] at hc
        simp at hc
        omega
      · exact (is_plain_of_ident_char (hn.2 x hx)).1
    have hv : member_ok ([], [49]) := by
      refine ⟨by simp, ⟨49, [], rfl, by decide⟩, by decide, by decide⟩
    obtain ⟨f, hf⟩ : ∃ f, 3 * (123 :: (c :: r ++ [58, 49, 125]) ++ [0]).length + 3 = f + 2 :=
      ⟨3 * (123 :: (c :: r ++ [58, 49, 125]) ++ [0]).length + 1, by omega⟩
    have hloop := object_loop_ident_last (a := [123]) (b := [0]) (p := 1) c r [49] f
      { json5_object.zero with nodes := [] }
      (show 123 :: (c :: r ++ [58, 49, 125]) ++ [0] = [123] ++ (c :: r ++ 58 :: ([49] ++ 125 :: [0]))
        by simp) rfl hn hv
    refine ⟨[123] ++ (c :: r ++ 0 :: ([49] ++ 125 :: [0])),
      { json5_object.zero with nodes := [] ++ [ident_node 1 [49]] }, ?_, ?_⟩
    · rw [json5_parse_open (b := c :: r ++ [58, 49, 125, 0]) (by simp), hf, hloop]
      rfl
    · have hcs : cstr ([123] ++ (c :: r ++ 0 :: ([49] ++ 125 :: [0]))) 1 = c :: r :=
        cstr_at (a := [123]) (b := 49 :: 125 :: [0]) (c :: r) (by simp) rfl hplain
      have hv : strtol [49] 0 = 1 := by decide
      simp at hcs
      simp [view, ident_node, hcs, hv, json5_object.zero]

theorem is_plain_of_is_ident {n : List Nat} (hn : is_ident n) : ∀ x ∈ n, is_plain x := by
  cases n with
  | nil => exact absurd hn (fun h => h)
  | cons c r =>
    intro x hx
    simp only [List.mem_cons] at hx
    rcases hx with rfl | hx
    · have hc := hn.1
      rw [isalpha_iff] at hc
      simp at hc
      unfold is_plain
      omega
    · exact is_plain_of_ident_char (hn.2 x hx)

/-- C3: for every identifier `n` (a letter, `_` or `$`, then letters, digits
or `_`), `json5_parse` on `{n:1}` and on `{"n":1}` return the same error code
and the same member structure, one child with name `n`, type integer and
value 1; the two results differ only in the recorded quote style, `no_quotes`
against `double_quote`. -/
theorem C3_unquoted_name (n : List Nat) (hn : is_ident n) :
    ∃ s root s0 root0,
      json5_parse (123 :: (n ++ [58, 49, 125]) ++ [0]) false =
        Except.ok (s, root, json5_error_none) ∧
      json5_parse (object_text [(n, [49])] ++ [0]) false =
        Except.ok (s0, root0, json5_error_none) ∧
      root.nodes.map (view s) =
        [⟨some n, json5_type_integer, json5_style_no_quotes, 0, 1, none⟩] ∧
      root0.nodes.map (view s0) =
        [⟨some n, json5_type_integer, json5_style_double_quote, 0, 1, none⟩] ∧
      (root.nodes.map (view s)).map
          (fun v => { v with quote_style := json5_style_double_quote }) =
        root0.nodes.map (view s0) := by
  obtain ⟨s, root, hrun, hview⟩ := parse_ident_member n hn
  have hok : ∀ m ∈ [(n, [49])], member_ok m := by
    intro m hm
    simp only [List.mem_singleton] at hm
    subst hm
    have h1 : ∀ x ∈ [49], is_numchar x := by decide
    exact ⟨is_plain_of_is_ident hn, ⟨49, [], rfl, by decide⟩, h1, by simp⟩
  obtain ⟨s0, root0, hrun0, _, hview0⟩ := parse_object_text [(n, [49])] (by simp) hok
  have hv : strtol [49] 0 = 1 := by decide
  have hview0' : root0.nodes.map (view s0) =
      [⟨some n, json5_type_integer, json5_style_double_quote, 0, 1, none⟩] := by
    rw [hview0]
    simp [member_view, hv]
  refine ⟨s, root, s0, root0, hrun, hrun0, hview, hview0', ?_⟩
  rw [hview, hview0']
  rfl

/-- Instance of C3: `{a:1}` against `{"a":1}`. -/
theorem C3_witness :
    is_ident (bytes "a") ∧
    ∃ s root s0 root0,
      json5_parse (cbuf "\x7ba:1\x7d") false = Except.ok (s, root, json5_error_none) ∧
      json5_parse (cbuf "\x7b\"a\":1\x7d") false = Except.ok (s0, root0, json5_error_none) ∧
      root.nodes.map (view s) =
        [⟨some (bytes "a"), json5_type_integer, json5_style_no_quotes, 0, 1, none⟩] ∧
      root0.nodes.map (view s0) =
        [⟨some (bytes "a"), json5_type_integer, json5_style_double_quote, 0, 1, none⟩] ∧
      (root.nodes.map (view s)).map
          (fun v => { v with quote_style := json5_style_double_quote }) =
        root0.nodes.map (view s0) :=
  ⟨by decide, C3_unquoted_name (bytes "a") (by decide)⟩

/-! ## Runs on single documents -/

/-- C6: on `{"a":1e2}` the letter `e` is taken by the loop of line 400 as a
hexadecimal digit, so that the exponent branch is never entered: member `a`
comes out with type integer and value 1 (what `strtol` reads of `1e2`), not
real 100; the same happens on `{"a":1e0}`, and `{"a":1e-1}` returns
`json5_error_invalid_value`. -/
theorem C6_exponent_after_integer_mantissa :
    (∃ s root, json5_parse (cbuf "\x7b\"a\":1e2\x7d") false =
        Except.ok (s, root, json5_error_none) ∧
      root.nodes.map (view s) =
        [⟨some (bytes "a"), json5_type_integer, json5_style_double_quote, 0, 1, none⟩]) ∧
    (∃ s root, json5_parse (cbuf "\x7b\"a\":1e0\x7d") false =
        Except.ok (s, root, json5_error_none) ∧
      root.nodes.map (view s) =
        [⟨some (bytes "a"), json5_type_integer, json5_style_double_quote, 0, 1, none⟩]) ∧
    (∃ s root, json5_parse (cbuf "\x7b\"a\":1e-1\x7d") false =
        Except.ok (s, root, json5_error_invalid_value)) :=
  ⟨⟨_, _, rfl, rfl⟩, ⟨_, _, rfl, rfl⟩, ⟨_, _, rfl⟩⟩

/-- C7: on `{@bad:1}` the member starts with a byte that opens no name form,
`node.name` stays the null pointer and `json5__validate_name` dereferences it:
the run has no defined result, it does not return
`json5_error_invalid_name`. -/
theorem C7_name_start_outside_grammar :
    json5_parse (cbuf "\x7b@bad:1\x7d") false = Except.error Fault.undefined := rfl

/-- C10: on `{"a":[]}` the `[` branch returns on the `]` without stepping over
it and without setting the type: `json5_parse` returns
`json5_error_invalid_value`, and the member appended for `a` has the type
object of a zero-initialised node. -/
theorem C10_empty_array_value :
    ∃ s root, json5_parse (cbuf "\x7b\"a\":[]\x7d") false =
        Except.ok (s, root, json5_error_invalid_value) ∧
      root.nodes.map (view s) =
        [⟨some (bytes "a"), json5_type_object, json5_style_double_quote, 0, 0, none⟩] :=
  ⟨_, _, rfl, rfl⟩

/-! ## The top level without braces -/

/-- The part of the loop body before `l_parsed`, on a member with a
double-quoted plain name, `:` and a value on which `pv` sets an error: the
function returns `NULL`. -/
theorem member_quoted_err {src a : List Nat} {p : Nat} (k : List Nat) (c0 : Nat)
    (rest : List Nat) (pv : List Nat → json5_error → json5_object → Nat → Run Out)
    (obj : json5_object) (r : Out)
    (hs : src = a ++ (34 :: (k ++ 34 :: 58 :: c0 :: rest))) (hp : p = a.length)
    (hk : ∀ x ∈ k, is_plain x) (hc0 : isspace c0 = false)
    (hpv : pv (a ++ (34 :: (k ++ 0 :: 58 :: c0 :: rest))) json5_error_none
      { json5_object.zero with quote_style := json5_style_double_quote, name := some (p + 1) }
      (p + k.length + 3) = Except.ok r)
    (hr : r.err ≠ json5_error_none) :
    json5__member pv src json5_error_none obj p 34 =
      Except.ok (Sum.inl ⟨r.src, r.err, obj, none⟩) := by
  have hname := parse_name_quoted k obj json5_object.zero hs hp hk
  have hval : json5__validate_name (a ++ (34 :: (k ++ 0 :: 58 :: c0 :: rest))) (some (p + 1)) =
      Except.ok true :=
    validate_name_plain (a := a ++ [34]) (b := 58 :: c0 :: rest) k (by simp) (by simp [hp]) hk
  have htrim : json5__trim (a ++ (34 :: (k ++ 0 :: 58 :: c0 :: rest))) (p + k.length + 2 + 1) =
      Except.ok (p + k.length + 2 + 1) :=
    trim_stay (a := a ++ 34 :: k ++ [0, 58]) (b := rest) (by simp) (by simp [hp]; omega) hc0
  unfold json5__member
  simp only [show ¬ (34 = '['.toNat) by decide, if_false, hname, run_bind_ok, hval, htrim,
    if_true, hpv]
  simp [hr]

/-- The member loop on a last member `"k":v` whose value runs into the
terminating NUL: line 442 sets `json5_error_invalid_value` and the function
returns `NULL` without appending the member. -/
theorem object_loop_last_eof {src a b : List Nat} {p : Nat} (m : List Nat × List Nat)
    (fuel : Nat) (obj : json5_object)
    (hs : src = a ++ (member_text m ++ 0 :: b)) (hp : p = a.length) (hm : member_ok m) :
    json5__parse_object_loop (fuel + 2) src json5_error_none obj p =
      Except.ok ⟨a ++ (member_done m ++ 0 :: b), json5_error_invalid_value, obj, none⟩ := by
  obtain ⟨k, v⟩ := m
  obtain ⟨hk, ⟨d, v', hv, hd⟩, hdig, hlen⟩ := hm
  simp only at hk hv hdig hlen
  subst hv
  have hs' : src = a ++ (34 :: (k ++ 34 :: 58 :: d :: (v' ++ 0 :: b))) := by
    simp [hs, member_text]
  have hsrc2 : a ++ (34 :: (k ++ 0 :: 58 :: d :: (v' ++ 0 :: b))) =
      (a ++ 34 :: k ++ [0, 58]) ++ ((d :: v') ++ 0 :: b) := by simp
  have hp2 : p + k.length + 3 = (a ++ 34 :: k ++ [0, 58]).length := by simp [hp]; omega
  have hrd : rd (a ++ (34 :: (k ++ 0 :: 58 :: d :: (v' ++ 0 :: b)))) (p + k.length + 3) =
      Except.ok d :=
    rd_at (a := a ++ 34 :: k ++ [0, 58]) (b := v' ++ 0 :: b) (by simp) hp2
  have hnum := parse_number_int_any (t := 0) (d :: v') json5_error_none
    { json5_object.zero with quote_style := json5_style_double_quote, name := some (p + 1) }
    hsrc2 hp2 hdig (by simp) hlen (by decide) (by decide)
  have hpv := (parse_value_digit fuel json5_error_none
    { json5_object.zero with quote_style := json5_style_double_quote, name := some (p + 1) }
    hrd hd).trans hnum
  have hmem := member_quoted_err k d (v' ++ 0 :: b) _ obj _ hs' hp hk (isspace_of_isdigit hd)
    hpv (by simp)
  rw [object_loop_step (c := 34) (b := k ++ 34 :: 58 :: d :: (v' ++ 0 :: b)) (fuel + 1)
    json5_error_none obj hs' hp (by decide) (by decide) (by decide), hmem]
  simp [member_done]

/-- After `l_parsed`, a space and then the terminating NUL end the function
without error. -/
theorem l_parsed_space_eof {a b : List Nat} {q : Nat} (obj : json5_object) (r : Out)
    (hret : r.ret = some q) (hs : r.src = a ++ 32 :: 0 :: b) (hq : q = a.length) :
    json5__l_parsed obj r = Except.ok (Sum.inl
      ⟨r.src, r.err, { obj with nodes := obj.nodes ++ [r.obj] }, some (q + 1)⟩) := by
  have htrim : json5__trim r.src q = Except.ok (q + [32].length) :=
    trim_run (a := a) (b := b) (c := 0) [32] (by simp [hs]) hq (by decide) (by decide)
  have hrd : rd r.src (q + [32].length) = Except.ok 0 :=
    rd_at (a := a ++ [32]) (b := b) (by simp [hs]) (by simp [hq])
  unfold json5__l_parsed
  simp only [hret, htrim, run_bind_ok, hrd]
  simp

/-- The member loop on a last member `"k":v` followed by a space and the
terminating NUL. -/
theorem object_loop_last_space {src a b : List Nat} {p : Nat} (m : List Nat × List Nat)
    (fuel : Nat) (obj : json5_object)
    (hs : src = a ++ (member_text m ++ 32 :: 0 :: b)) (hp : p = a.length) (hm : member_ok m) :
    json5__parse_object_loop (fuel + 2) src json5_error_none obj p =
      Except.ok ⟨a ++ (member_done m ++ 32 :: 0 :: b), json5_error_none,
        { obj with nodes := obj.nodes ++ [member_node p m] },
        some (p + (member_text m).length + 1)⟩ := by
  have hmem := member_int (t := 32) (b := 0 :: b) m fuel obj hs hp hm (by decide) (by decide)
    (by decide)
  have hl := l_parsed_space_eof (a := a ++ member_done m) (b := b)
    (q := p + (member_text m).length) obj
    ⟨a ++ (member_done m ++ 32 :: 0 :: b), json5_error_none, member_node p m,
      some (p + (member_text m).length)⟩ rfl (by simp) (by simp [hp, member_done_length])
  rw [object_loop_step (fuel + 1) json5_error_none obj
    (c := 34) (b := m.1 ++ 34 :: 58 :: m.2 ++ 32 :: 0 :: b) (by simp [hs, member_text]) hp
    (by decide) (by decide) (by decide), hmem]
  simp only [run_bind_ok, hl]
  simp

/-- Without comment stripping, `json5_parse` on a buffer that starts with a
double quote runs the member loop from the start. -/
theorem json5_parse_bare {src b : List Nat} (hs : src = 34 :: b) :
    json5_parse src false =
      (do
        let r ← json5__parse_object_loop (3 * src.length + 3) src json5_error_none
          { json5_object.zero with nodes := [] } 0
        pure (r.src, r.obj, r.err)) := by
  have hs' : src = [] ++ 34 :: b := by simp [hs]
  unfold json5_parse
  simp only [Bool.false_eq_true, if_false, run_pure, run_bind_ok]
  rw [json5__parse_object]
  simp only [trim_stay (p := 0) hs' rfl (by decide), run_bind_ok, rd_at (p := 0) hs' rfl]
  simp

theorem join_members_head (ms : List (List Nat × List Nat)) (hne : ms ≠ []) :
    ∃ b, join_members ms = 34 :: b := by
  cases ms with
  | nil => exact absurd rfl hne
  | cons m ms =>
    cases ms with
    | nil => exact ⟨_, rfl⟩
    | cons m' ms' => exact ⟨_, rfl⟩

/-- Run of `json5_parse` on the members alone, followed by a space. -/
theorem parse_bare_space (ms : List (List Nat × List Nat)) (hne : ms ≠ [])
    (hok : ∀ m ∈ ms, member_ok m) :
    ∃ s root, json5_parse (join_members ms ++ [32] ++ [0]) false =
        Except.ok (s, root, json5_error_none) ∧
      root.nodes.map (view s) = ms.map member_view := by
  obtain ⟨b0, hb0⟩ := join_members_head ms hne
  obtain ⟨init, last, rfl⟩ : ∃ init last, ms = init ++ [last] :=
    ⟨ms.dropLast, ms.getLast hne, (List.dropLast_append_getLast hne).symm⟩
  have hinit : ∀ m ∈ init, member_ok m := fun m hm => hok m (by simp [hm])
  have hlast : member_ok last := hok last (by simp)
  have hlen := length_le_members_comma init
  have hsrc : join_members (init ++ [last]) ++ [32] ++ [0] =
      [] ++ (members_comma init ++ (member_text last ++ 32 :: 0 :: [])) := by
    simp [join_members_snoc]
  obtain ⟨f, hf⟩ : ∃ f, 3 * (join_members (init ++ [last]) ++ [32] ++ [0]).length + 3 =
      (f + 2) + 1 + init.length :=
    ⟨3 * (join_members (init ++ [last]) ++ [32] ++ [0]).length - init.length, by
      rw [hsrc]; simp; omega⟩
  refine ⟨[] ++ (members_comma_done init ++ (member_done last ++ 32 :: 0 :: [])),
    { json5_object.zero with
      nodes := [] ++ member_nodes 0 init ++
        [member_node (0 + (members_comma init).length) last] }, ?_, ?_⟩
  · rw [json5_parse_bare (b := b0 ++ [32, 0]) (by simp [hb0]), hf]
    rw [object_loop_commas init [] (member_text last ++ 32 :: 0 :: []) _ (f + 2) _ 0 hinit
      hsrc rfl]
    rw [show f + 2 + 1 = (f + 1) + 2 by omega]
    rw [object_loop_last_space (a := [] ++ members_comma_done init) (b := []) last (f + 1) _
      (by simp) (by simp [members_comma_done_length]) hlast]
    rfl
  · have h1 := view_member_nodes init [] (member_done last ++ 32 :: 0 :: []) _ 0 hinit rfl rfl
    have h2 := view_member_node (a := [] ++ members_comma_done init) (b := 32 :: 0 :: [])
      (p := 0 + (members_comma init).length) last
      (show [] ++ (members_comma_done init ++ (member_done last ++ 32 :: 0 :: [])) =
        ([] ++ members_comma_done init) ++ (member_done last ++ 32 :: 0 :: []) by simp)
      (by simp [members_comma_done_length]) hlast
    simp only [List.nil_append, Nat.zero_add] at h1 h2
    simp [h1, h2]

/-- Run of `json5_parse` on the members alone: the last value runs into the
terminating NUL. -/
theorem parse_bare_eof (init : List (List Nat × List Nat)) (last : List Nat × List Nat)
    (hok : ∀ m ∈ init ++ [last], member_ok m) :
    ∃ s root, json5_parse (join_members (init ++ [last]) ++ [0]) false =
        Except.ok (s, root, json5_error_invalid_value) ∧
      root.nodes.map (view s) = init.map member_view := by
  obtain ⟨b0, hb0⟩ := join_members_head (init ++ [last]) (by simp)
  have hinit : ∀ m ∈ init, member_ok m := fun m hm => hok m (by simp [hm])
  have hlast : member_ok last := hok last (by simp)
  have hlen := length_le_members_comma init
  have hsrc : join_members (init ++ [last]) ++ [0] =
      [] ++ (members_comma init ++ (member_text last ++ 0 :: [])) := by
    simp [join_members_snoc]
  obtain ⟨f, hf⟩ : ∃ f, 3 * (join_members (init ++ [last]) ++ [0]).length + 3 =
      (f + 2) + 1 + init.length :=
    ⟨3 * (join_members (init ++ [last]) ++ [0]).length - init.length, by
      rw [hsrc]; simp; omega⟩
  refine ⟨[] ++ (members_comma_done init ++ (member_done last ++ 0 :: [])),
    { json5_object.zero with nodes := [] ++ member_nodes 0 init }, ?_, ?_⟩
  · rw [json5_parse_bare (b := b0 ++ [0]) (by simp [hb0]), hf]
    rw [object_loop_commas init [] (member_text last ++ 0 :: []) _ (f + 2) _ 0 hinit hsrc rfl]
    rw [show f + 2 + 1 = (f + 1) + 2 by omega]
    rw [object_loop_last_eof (a := [] ++ members_comma_done init) (b := []) last (f + 1) _
      (by simp) (by simp [members_comma_done_length]) hlast]
    rfl
  · have h1 := view_member_nodes init [] (member_done last ++ 0 :: []) _ 0 hinit rfl rfl
    simpa using h1

/-- C9, as the code has it: for every member list `M` as in C1,
`json5_parse` on `M` followed by one space, without the enclosing braces,
returns `json5_error_none` and the same children as on `{M}`; on `M` alone the
last integer literal runs into the terminating NUL, and `json5_parse` returns
`json5_error_invalid_value` with only the members before the last one as
children. -/
theorem C9_top_level_without_braces (ms : List (List Nat × List Nat)) (hne : ms ≠ [])
    (hms : ∀ m ∈ ms, is_member m) :
    (∃ s root s0 root0,
      json5_parse (join_members ms ++ [32] ++ [0]) false =
        Except.ok (s, root, json5_error_none) ∧
      json5_parse (object_text ms ++ [0]) false = Except.ok (s0, root0, json5_error_none) ∧
      root.nodes.map (view s) = root0.nodes.map (view s0) ∧
      root.nodes.map (view s) = ms.map int_member_view) ∧
    (∃ s root,
      json5_parse (join_members ms ++ [0]) false =
        Except.ok (s, root, json5_error_invalid_value) ∧
      root.nodes.map (view s) = ms.dropLast.map int_member_view) := by
  have hok : ∀ m ∈ ms, member_ok m := fun m hm => member_ok_of_is_member (hms m hm)
  have hviews : ∀ l : List (List Nat × List Nat), (∀ m ∈ l, m ∈ ms) →
      l.map member_view = l.map int_member_view := fun l hl =>
    List.map_congr_left (fun m hm => member_view_of_is_member (hms m (hl m hm)))
  constructor
  · obtain ⟨s, root, hrun, hview⟩ := parse_bare_space ms hne hok
    obtain ⟨s0, root0, hrun0, _, hview0⟩ := parse_object_text ms hne hok
    exact ⟨s, root, s0, root0, hrun, hrun0, hview.trans hview0.symm,
      hview.trans (hviews ms (fun _ h => h))⟩
  · have hsplit := List.dropLast_append_getLast hne
    have hok' : ∀ m ∈ ms.dropLast ++ [ms.getLast hne], member_ok m := by
      rw [hsplit]; exact hok
    obtain ⟨s, root, hrun, hview⟩ := parse_bare_eof ms.dropLast (ms.getLast hne) hok'
    rw [hsplit] at hrun
    exact ⟨s, root, hrun, hview.trans (hviews _ (fun m hm => List.mem_of_mem_dropLast hm))⟩

/-- Instance of C9: `"a":1,"b":2` followed by a space against
`{"a":1,"b":2}`, and `"a":1,"b":2` alone. -/
theorem C9_witness :
    ([(bytes "a", bytes "1"), (bytes "b", bytes "2")] ≠ [] ∧
      ∀ m ∈ [(bytes "a", bytes "1"), (bytes "b", bytes "2")], is_member m) ∧
    (∃ s root s0 root0,
      json5_parse (cbuf "\"a\":1,\"b\":2 ") false = Except.ok (s, root, json5_error_none) ∧
      json5_parse (cbuf "\x7b\"a\":1,\"b\":2\x7d") false =
        Except.ok (s0, root0, json5_error_none) ∧
      root.nodes.map (view s) = root0.nodes.map (view s0) ∧
      root.nodes.map (view s) =
        [⟨some (bytes "a"), json5_type_integer, json5_style_double_quote, 0, 1, none⟩,
         ⟨some (bytes "b"), json5_type_integer, json5_style_double_quote, 0, 2, none⟩]) ∧
    (∃ s root,
      json5_parse (cbuf "\"a\":1,\"b\":2") false =
        Except.ok (s, root, json5_error_invalid_value) ∧
      root.nodes.map (view s) =
        [⟨some (bytes "a"), json5_type_integer, json5_style_double_quote, 0, 1, none⟩]) :=
  ⟨⟨by decide, by decide⟩,
    C9_top_level_without_braces [(bytes "a", bytes "1"), (bytes "b", bytes "2")]
      (by decide) (by decide)⟩

/-- C9 as stated fails: `"a":1,"b":2` without braces returns
`json5_error_invalid_value` and one child, while `{"a":1,"b":2}` returns
`json5_error_none` and two children. -/
theorem C9_counterexample :
    (∃ s root, json5_parse (cbuf "\"a\":1,\"b\":2") false =
        Except.ok (s, root, json5_error_invalid_value) ∧ root.nodes.length = 1) ∧
    (∃ s root, json5_parse (cbuf "\x7b\"a\":1,\"b\":2\x7d") false =
        Except.ok (s, root, json5_error_none) ∧ root.nodes.length = 2) :=
  ⟨⟨_, _, rfl, rfl⟩, ⟨_, _, rfl, rfl⟩⟩

/-! ## The comment pre-pass -/

theorem line_scan_run (c : List Nat) (b : List Nat) :
    ∀ p, (∀ x ∈ c, x ≠ 10) → json5__line_scan (c ++ 10 :: b) p = Except.ok (p + c.length) := by
  induction c with
  | nil => intro p _; simp [json5__line_scan]
  | cons x xs ih =>
    intro p hc
    have hx : x ≠ 10 := hc x (by simp)
    have ih' := ih (p + 1) (fun y hy => hc y (by simp [hy]))
    simp only [List.cons_append, json5__line_scan, ne_eq, hx, not_false_eq_true, if_true]
    exact ih'.trans (by simp; omega)

/-- Run of `memset` over a run inside the buffer. -/
theorem memset_run (xs : List Nat) (c : Nat) :
    ∀ (a b : List Nat), memset (a ++ (xs ++ b)) a.length c xs.length =
      Except.ok (a ++ (List.replicate xs.length c ++ b)) := by
  induction xs with
  | nil => intro a b; simp [memset]
  | cons x xs ih =>
    intro a b
    have hw := wr_at (a := a) (b := xs ++ b) (c := x) c
      (show a ++ (x :: xs ++ b) = a ++ x :: (xs ++ b) by simp) rfl
    have ih' := ih (a ++ [c]) b
    simp only [List.length_cons, memset, hw, run_bind_ok]
    simp only [List.length_append, List.length_singleton, List.append_assoc,
      List.singleton_append] at ih'
    rw [ih']
    simp [List.replicate_succ]

/-- One pass of the pre-pass on the terminating NUL. -/
theorem strip_loop_end {s a b : List Nat} {p : Nat} (fuel : Nat) (is_lit : Bool) (lit_c : Nat)
    (hs : s = a ++ 0 :: b) (hp : p = a.length) :
    json5__strip_loop (fuel + 1) s is_lit lit_c p = Except.ok s := by
  rw [json5__strip_loop]
  simp [rd_at hs hp]

/-- One pass of the pre-pass outside a literal, on a byte that is neither a
quote nor `/`. -/
theorem strip_loop_plain {s a b : List Nat} {p c : Nat} (fuel : Nat) (lit_c : Nat)
    (hs : s = a ++ c :: b) (hp : p = a.length)
    (h0 : c ≠ 0) (h34 : c ≠ 34) (h39 : c ≠ 39) (h47 : c ≠ 47) :
    json5__strip_loop (fuel + 1) s false lit_c p = json5__strip_loop fuel s false lit_c (p + 1) := by
  have hq : ¬ (c = 34 ∨ c = 39) := by omega
  have hsl : c ≠ '/'.toNat := by simpa using h47
  rw [json5__strip_loop]
  simp [rd_at hs hp, h0, hq, h47]

/-- One pass of the pre-pass outside a literal, on a double quote. -/
theorem strip_loop_open {s a b : List Nat} {p : Nat} (fuel : Nat) (lit_c : Nat)
    (hs : s = a ++ 34 :: b) (hp : p = a.length) :
    json5__strip_loop (fuel + 1) s false lit_c p = json5__strip_loop fuel s true 34 (p + 1) := by
  rw [json5__strip_loop]
  simp [rd_at hs hp]

/-- One pass of the pre-pass inside a literal, on a byte that is neither the
closing quote nor a backslash. -/
theorem strip_loop_inside {s a b : List Nat} {p c : Nat} (fuel : Nat) (lit_c : Nat)
    (hs : s = a ++ c :: b) (hp : p = a.length)
    (h0 : c ≠ 0) (h92 : c ≠ 92) (hl : c ≠ lit_c) :
    json5__strip_loop (fuel + 1) s true lit_c p = json5__strip_loop fuel s true lit_c (p + 1) := by
  rw [json5__strip_loop]
  simp [rd_at hs hp, h0, h92, hl]

/-- One pass of the pre-pass inside a literal, on the closing quote. -/
theorem strip_loop_shut {s a b : List Nat} {p : Nat} (fuel : Nat) (lit_c : Nat)
    (hs : s = a ++ lit_c :: b) (hp : p = a.length) (h0 : lit_c ≠ 0) (h92 : lit_c ≠ 92) :
    json5__strip_loop (fuel + 1) s true lit_c p = json5__strip_loop fuel s false lit_c (p + 1) := by
  rw [json5__strip_loop]
  simp [rd_at hs hp, h0, h92]

/-- One pass of the pre-pass outside a literal, on a `//` comment that ends
with a line feed: everything from the `//` through the line feed is blanked. -/
theorem strip_loop_line {s a b : List Nat} {p : Nat} (c : List Nat) (fuel : Nat) (lit_c : Nat)
    (hs : s = a ++ (47 :: 47 :: c ++ 10 :: b)) (hp : p = a.length) (hc : ∀ x ∈ c, x ≠ 10) :
    json5__strip_loop (fuel + 1) s false lit_c p =
      json5__strip_loop fuel (a ++ (List.replicate (c.length + 3) 32 ++ b)) false lit_c
        (p + c.length + 3) := by
  have hr0 : rd s p = Except.ok 47 := rd_at (b := 47 :: c ++ 10 :: b) (by simp [hs]) hp
  have hr1 : rd s (p + 1) = Except.ok 47 :=
    rd_at (a := a ++ [47]) (b := c ++ 10 :: b) (by simp [hs]) (by simp [hp])
  have hdrop : s.drop (p + 2) = c ++ 10 :: b :=
    drop_at (a := a ++ [47, 47]) (by simp [hs]) (by simp [hp])
  have hscan := line_scan_run c b (p + 2) hc
  have hmem : memset s p 32 (p + 2 + c.length - p + 1) =
      Except.ok (a ++ (List.replicate (c.length + 3) 32 ++ b)) := by
    have h := memset_run (47 :: 47 :: c ++ [10]) 32 a b
    have hl : (47 :: 47 :: c ++ [10]).length = c.length + 3 := by simp
    rw [hl] at h
    rw [show p + 2 + c.length - p + 1 = c.length + 3 by omega, hp, ← h, hs]
    simp
  rw [json5__strip_loop]
  simp only [hr0, run_bind_ok, show (47 : Nat) ≠ 0 by decide, if_false, Bool.false_eq_true,
    show ¬ ((47 : Nat) = 34 ∨ (47 : Nat) = 39) by decide,
    show (47 : Nat) = '/'.toNat by decide, if_true, hr1,
    show ¬ ('/'.toNat = '/'.toNat ∧ (47 : Nat) = '*'.toNat) by decide, run_pure,
    show ('/'.toNat = '/'.toNat ∧ (47 : Nat) = '/'.toNat) by decide, hdrop, hscan, hmem]
  simp only [show ('/'.toNat : Nat) = 47 by decide] at *
  simp [hr0, hr1, hdrop, hscan, hmem, Nat.add_assoc]
  congr 1
  omega

/-- The pre-pass leaves the text `{"a":1}` and its terminator as they are. -/
theorem strip_loop_member_text (pre : List Nat) (fuel : Nat) (lit_c : Nat) :
    json5__strip_loop (fuel + 8) (pre ++ ([123, 34, 97, 34, 58, 49, 125] ++ [0])) false lit_c
        pre.length =
      Except.ok (pre ++ ([123, 34, 97, 34, 58, 49, 125] ++ [0])) := by
  rw [strip_loop_plain (a := pre) (b := [34, 97, 34, 58, 49, 125, 0]) (c := 123) (fuel + 7) lit_c
    (by simp) rfl (by decide) (by decide) (by decide) (by decide)]
  rw [strip_loop_open (a := pre ++ [123]) (b := [97, 34, 58, 49, 125, 0]) (fuel + 6) lit_c
    (by simp) (by simp)]
  rw [strip_loop_inside (a := pre ++ [123, 34]) (b := [34, 58, 49, 125, 0]) (c := 97) (fuel + 5)
    34 (by simp) (by simp) (by decide) (by decide) (by decide)]
  rw [strip_loop_shut (a := pre ++ [123, 34, 97]) (b := [58, 49, 125, 0]) (fuel + 4) 34
    (by simp) (by simp) (by decide) (by decide)]
  rw [strip_loop_plain (a := pre ++ [123, 34, 97, 34]) (b := [49, 125, 0]) (c := 58) (fuel + 3)
    34 (by simp) (by simp) (by decide) (by decide) (by decide) (by decide)]
  rw [strip_loop_plain (a := pre ++ [123, 34, 97, 34, 58]) (b := [125, 0]) (c := 49) (fuel + 2)
    34 (by simp) (by simp) (by decide) (by decide) (by decide) (by decide)]
  rw [strip_loop_plain (a := pre ++ [123, 34, 97, 34, 58, 49]) (b := [0]) (c := 125) (fuel + 1)
    34 (by simp) (by simp) (by decide) (by decide) (by decide) (by decide)]
  rw [strip_loop_end (a := pre ++ [123, 34, 97, 34, 58, 49, 125]) (b := []) fuel false 34
    (by simp) (by simp)]

/-- The pre-pass on a `//` comment line followed by `{"a":1}`. -/
theorem strip_comment_line (c : List Nat) (hc : ∀ x ∈ c, x ≠ 10) :
    json5__strip_comments (47 :: 47 :: c ++ 10 :: ([123, 34, 97, 34, 58, 49, 125] ++ [0])) =
      Except.ok (List.replicate (c.length + 3) 32 ++ ([123, 34, 97, 34, 58, 49, 125] ++ [0])) := by
  unfold json5__strip_comments
  have hlen : (47 :: 47 :: c ++ 10 :: ([123, 34, 97, 34, 58, 49, 125] ++ [0])).length + 1 =
      (c.length + 3 + 8) + 1 := by simp
  rw [hlen, strip_loop_line (a := []) (b := [123, 34, 97, 34, 58, 49, 125] ++ [0]) (p := 0) c
    (c.length + 3 + 8) 0 (by simp) rfl hc]
  have h := strip_loop_member_text (List.replicate (c.length + 3) 32) (c.length + 3) 0
  simp only [List.length_replicate, List.nil_append, Nat.zero_add] at h ⊢
  exact h

/-- Run of `json5__parse_object` on white space and `{` enters the member loop
behind the `{`. -/
theorem parse_object_open_ws {src : List Nat} (ws b : List Nat) (fuel : Nat)
    (err : json5_error) (obj : json5_object) (hs : src = ws ++ 123 :: b)
    (hws : ∀ x ∈ ws, isspace x = true) :
    json5__parse_object (fuel + 1) src err obj 0 =
      json5__parse_object_loop fuel src err { obj with nodes := [] } (ws.length + 1) := by
  have htrim : json5__trim src 0 = Except.ok (0 + ws.length) :=
    trim_run (a := []) (b := b) (c := 123) ws (by simp [hs]) rfl hws (by decide)
  have hrd : rd src (0 + ws.length) = Except.ok 123 :=
    rd_at (a := ws) (b := b) hs (by simp)
  rw [json5__parse_object]
  simp only [htrim, run_bind_ok, hrd]
  simp

/-- C8: for every comment text `c` without line feed and NUL, the pre-pass on
the buffer `//`, `c`, line feed, `{"a":1}` overwrites exactly the bytes from
the `//` through the line feed that ends the line with spaces and leaves the
rest as it is, and `json5_parse` with `strip_comments = true` returns
`json5_error_none` with exactly one member, `a` = integer 1. -/
theorem C8_line_comment_stripped (c : List Nat) (hc : ∀ x ∈ c, x ≠ 10 ∧ x ≠ 0) :
    json5__strip_comments (47 :: 47 :: c ++ 10 :: (bytes "\x7b\"a\":1\x7d" ++ [0])) =
      Except.ok (List.replicate (c.length + 3) 32 ++ (bytes "\x7b\"a\":1\x7d" ++ [0])) ∧
    ∃ s root,
      json5_parse (47 :: 47 :: c ++ 10 :: (bytes "\x7b\"a\":1\x7d" ++ [0])) true =
        Except.ok (s, root, json5_error_none) ∧
      root.nodes.map (view s) =
        [⟨some (bytes "a"), json5_type_integer, json5_style_double_quote, 0, 1, none⟩] := by
  have ht : bytes "\x7b\"a\":1\x7d" = [123, 34, 97, 34, 58, 49, 125] := by decide
  have hstrip := strip_comment_line c (fun x hx => (hc x hx).1)
  rw [ht]
  refine ⟨hstrip, ?_⟩
  have hok : ∀ m ∈ [(([97] : List Nat), ([49] : List Nat))], member_ok m := by
    intro m hm
    simp only [List.mem_singleton] at hm
    subst hm
    exact ⟨by decide, ⟨49, [], rfl, by decide⟩, by decide, by decide⟩
  have hws : ∀ x ∈ List.replicate (c.length + 3) 32, isspace x = true := by
    intro x hx
    rw [List.eq_of_mem_replicate hx]
    decide
  obtain ⟨s, ns, hrun, hview⟩ := object_loop_members [([97], [49])] (by simp) hok
    (List.replicate (c.length + 3) 32 ++ [123]) [0] { json5_object.zero with nodes := [] }
    (3 * (List.replicate (c.length + 3) 32 ++ ([123, 34, 97, 34, 58, 49, 125] ++ [0])).length + 3)
    (by simp)
  have hsrc : List.replicate (c.length + 3) 32 ++ [123] ++
      (join_members [([97], [49])] ++ 125 :: [0]) =
      List.replicate (c.length + 3) 32 ++ ([123, 34, 97, 34, 58, 49, 125] ++ [0]) := by
    simp [join_members, member_text]
  rw [hsrc] at hrun
  refine ⟨s, { json5_object.zero with nodes := [] ++ ns }, ?_, ?_⟩
  · unfold json5_parse
    simp only [if_true, hstrip, run_bind_ok]
    rw [parse_object_open_ws (List.replicate (c.length + 3) 32) [34, 97, 34, 58, 49, 125, 0] _ _ _
      (by simp) hws]
    have ha : (List.replicate (c.length + 3) 32 ++ [123]).length =
        (List.replicate (c.length + 3) 32).length + 1 := by simp
    rw [ha] at hrun
    rw [hrun]
    rfl
  · have hv : member_view ([97], [49]) =
        ⟨some (bytes "a"), json5_type_integer, json5_style_double_quote, 0, 1, none⟩ := by
      decide
    simpa [hv] using hview

/-- Instance of C8: the comment text ` c`. -/
theorem C8_witness :
    (∀ x ∈ bytes " c", x ≠ 10 ∧ x ≠ 0) ∧
    json5__strip_comments (cbuf "// c\n\x7b\"a\":1\x7d") =
      Except.ok (cbuf "     \x7b\"a\":1\x7d") ∧
    ∃ s root, json5_parse (cbuf "// c\n\x7b\"a\":1\x7d") true =
        Except.ok (s, root, json5_error_none) ∧
      root.nodes.map (view s) =
        [⟨some (bytes "a"), json5_type_integer, json5_style_double_quote, 0, 1, none⟩] :=
  ⟨by decide, C8_line_comment_stripped (bytes " c") (by decide)⟩

/-! ## The values of an array: strings, reals and keywords -/

theorem string_scan_plain (t : List Nat) (b : List Nat) (nl : Bool) :
    ∀ (s : List Nat) (e : Nat), (∀ x ∈ t, is_plain x) →
      json5__string_scan 34 nl (t ++ 34 :: b) s e = Except.ok (s, e + t.length) := by
  induction t with
  | nil =>
    intro s e _
    rw [json5__string_scan.eq_def]
    simp
  | cons x xs ih =>
    intro s e ht
    obtain ⟨h0, h34, h92⟩ := ht x (by simp)
    have ih' := ih s (e + 1) (fun y hy => ht y (by simp [hy]))
    rw [List.cons_append, json5__string_scan.eq_def]
    simp [h0, h92, h34, ih']
    omega

/-- Run of `json5__parse_value` on a double-quoted plain string. -/
theorem parse_value_string {src a b : List Nat} {p : Nat} (t : List Nat) (fuel : Nat)
    (err : json5_error) (obj : json5_object)
    (hs : src = a ++ (34 :: (t ++ 34 :: b))) (hp : p = a.length) (ht : ∀ x ∈ t, is_plain x) :
    json5__parse_value (fuel + 1) src err obj p =
      Except.ok ⟨a ++ (34 :: (t ++ 0 :: b)), err,
        { obj with type := json5_type_string, string := some (p + 1) },
        some (p + t.length + 2)⟩ := by
  have hrd : rd src p = Except.ok 34 := rd_at (b := t ++ 34 :: b) hs hp
  have hdrop : src.drop (p + 1) = t ++ 34 :: b :=
    drop_at (a := a ++ [34]) (by simp [hs]) (by simp [hp])
  have hscan := string_scan_plain t b true src (p + 1) ht
  have hwr : wr src (p + 1 + t.length) 0 = Except.ok ((a ++ 34 :: t) ++ 0 :: b) :=
    wr_at (a := a ++ 34 :: t) (b := b) (c := 34) 0 (by simp [hs]) (by simp [hp]; omega)
  rw [json5__parse_value]
  simp only [hrd, run_bind_ok, show ¬ ((34 : Nat) = '['.toNat) by decide,
    show ¬ ((34 : Nat) = '{'.toNat) by decide, if_false, true_or, if_true,
    json5__parse_string, hdrop, hscan, hwr]
  simp
  omega

theorem scan_fraction_loop_run (f : List Nat) (t : Nat) (b : List Nat) :
    ∀ (buf : List Nat) (e step : Nat), (∀ x ∈ f, isdigit x = true) → isdigit t = false →
      buf.length + f.length ≤ 16 →
      json5__scan_fraction_loop (f ++ t :: b) buf e step =
        Except.ok (buf ++ f, e + f.length, step + f.length) := by
  induction f with
  | nil => intro buf e step _ ht _; simp [json5__scan_fraction_loop, ht]
  | cons x xs ih =>
    intro buf e step hf ht hlen
    have hx : isdigit x = true := hf x (by simp)
    have hl : buf.length < 16 := by simp at hlen; omega
    have ih' := ih (buf ++ [x]) (e + 1) (step + 1) (fun y hy => hf y (by simp [hy])) ht
      (by simp at hlen ⊢; omega)
    simp only [List.cons_append, json5__scan_fraction_loop, hx, if_true, buf_push, if_pos hl,
      run_pure, run_bind_ok]
    exact ih'.trans (by simp; omega)

/-- The numeric branch on a real literal `digits.digits` of at most 15 bytes:
the type becomes real and the value is what `atof` makes of the literal. -/
theorem parse_number_real {src a b : List Nat} {p t : Nat} (i f : List Nat)
    (err : json5_error) (obj : json5_object)
    (hs : src = a ++ (i ++ 46 :: (f ++ t :: b))) (hp : p = a.length)
    (hi : ∀ x ∈ i, isdigit x = true) (hine : i ≠ []) (hf : ∀ x ∈ f, isdigit x = true)
    (hfne : f ≠ []) (hlen : i.length + 1 + f.length ≤ 15) (ht : is_real_stop t) :
    json5__parse_number src err obj p =
      Except.ok ⟨src, err,
        { obj with type := json5_type_real, real := json5_real.finite (atof (i ++ 46 :: f)) },
        some (p + i.length + 1 + f.length)⟩ := by
  obtain ⟨d, i', rfl⟩ := List.exists_cons_of_ne_nil hine
  obtain ⟨ht1, ht2, ht3, ht4⟩ := ht
  have hd : isdigit d = true := hi d (by simp)
  have hd' := (isdigit_iff d).1 hd
  have hd1 : d ≠ '+'.toNat := by simp; omega
  have hd2 : d ≠ '-'.toNat := by simp; omega
  have hd3 : d ≠ '.'.toNat := by simp; omega
  have hte : ¬ (t = 'e'.toNat ∨ t = 'E'.toNat) := by
    rintro (h | h)
    · exact ht2 h
    · exact ht3 h
  have hr0 : rd src p = Except.ok d := rd_at (b := i' ++ 46 :: (f ++ t :: b)) (by simp [hs]) hp
  have hscan := scan_xdigits_run (d :: i') 46 (f ++ t :: b) [] p
    (fun x hx => is_numchar_of_isdigit (hi x hx)) (by decide) (by simp at hlen ⊢; omega)
  have hs1 : src = (a ++ d :: i') ++ 46 :: (f ++ t :: b) := by simp [hs]
  have hp1 : p + (d :: i').length = (a ++ d :: i').length := by simp [hp]
  have hr1 : rd src (p + (d :: i').length) = Except.ok 46 := rd_at hs1 hp1
  have hfl := scan_fraction_loop_run f t b ([] ++ (d :: i') ++ [46]) (p + (d :: i').length + 1) 1
    hf ht1 (by simp at hlen ⊢; omega)
  have hpush : buf_push ([] ++ (d :: i')) 46 = Except.ok ([] ++ (d :: i') ++ [46]) := by
    have : ([] ++ (d :: i')).length < 16 := by simp at hlen ⊢; omega
    simp only [buf_push, if_pos this, run_pure]
  have hs2 : src = (a ++ d :: i' ++ 46 :: f) ++ t :: b := by simp [hs]
  have hp2 : p + (d :: i').length + 1 + f.length = (a ++ d :: i' ++ 46 :: f).length := by
    simp [hp]; omega
  have hr2 : rd src (p + (d :: i').length + 1 + f.length) = Except.ok t := rd_at hs2 hp2
  have hstep : ¬ (1 + f.length < 2) := by
    have : f.length ≠ 0 := fun h => hfne (List.length_eq_zero.mp h)
    omega
  unfold json5__parse_number
  simp only [hr0, run_bind_ok, if_neg hd1, if_neg hd2, if_neg hd3, run_pure, drop_at hs hp,
    hscan, hr1, if_true, drop_at hs1 hp1, json5__scan_fraction, hpush, hfl, if_neg hstep,
    hr2, if_neg hte, if_neg ht4]
  have h16 : ¬ (16 ≤ ([] ++ (d :: i') ++ [46] ++ f).length) := by simp at hlen ⊢; omega
  simp only [if_neg h16]
  simp [json5__scale_real]

theorem bytes_true : bytes "true" = [116, 114, 117, 101] := by decide

theorem bytes_false : bytes "false" = [102, 97, 108, 115, 101] := by decide

theorem bytes_null : bytes "null" = [110, 117, 108, 108] := by decide

/-- On a letter `json5__parse_value` takes the keyword branch. -/
theorem parse_value_alpha {src : List Nat} {p c : Nat} (fuel : Nat) (err : json5_error)
    (obj : json5_object) (hr : rd src p = Except.ok c) (hc : isalpha c = true) :
    json5__parse_value (fuel + 1) src err obj p = json5__parse_keyword src err obj p := by
  have h := (isalpha_iff c).1 hc
  have h1 : c ≠ '['.toNat := by simp; omega
  have h2 : c ≠ '{'.toNat := by simp; omega
  have h3 : ¬ (c = 34 ∨ c = 39) := by omega
  have h4 : c ≠ 96 := by omega
  rw [json5__parse_value]
  simp only [hr, run_bind_ok, if_neg h1, if_neg h2, if_neg h3, if_neg h4,
    json5__is_keyword_start, hc, if_true, run_pure]

/-- Run of `json5__parse_value` on the keyword `true`. -/
theorem parse_value_true {src a b : List Nat} {p : Nat} (fuel : Nat) (err : json5_error)
    (obj : json5_object) (hs : src = a ++ ([116, 114, 117, 101] ++ b)) (hp : p = a.length) :
    json5__parse_value (fuel + 1) src err obj p =
      Except.ok ⟨src, err, { obj with type := json5_type_true }, some (p + 4)⟩ := by
  have hr : rd src p = Except.ok 116 := rd_at (b := [114, 117, 101] ++ b) (by simp [hs]) hp
  rw [parse_value_alpha fuel err obj hr (by decide)]
  unfold json5__parse_keyword
  rw [drop_at hs hp]
  simp [bytes_true, strncmp_eq]

/-- Run of `json5__parse_value` on the keyword `false`. -/
theorem parse_value_false {src a b : List Nat} {p : Nat} (fuel : Nat) (err : json5_error)
    (obj : json5_object) (hs : src = a ++ ([102, 97, 108, 115, 101] ++ b)) (hp : p = a.length) :
    json5__parse_value (fuel + 1) src err obj p =
      Except.ok ⟨src, err, { obj with type := json5_type_false }, some (p + 5)⟩ := by
  have hr : rd src p = Except.ok 102 := rd_at (b := [97, 108, 115, 101] ++ b) (by simp [hs]) hp
  rw [parse_value_alpha fuel err obj hr (by decide)]
  unfold json5__parse_keyword
  rw [drop_at hs hp]
  simp [bytes_true, bytes_false, strncmp_eq]

/-- Run of `json5__parse_value` on the keyword `null`. -/
theorem parse_value_null {src a b : List Nat} {p : Nat} (fuel : Nat) (err : json5_error)
    (obj : json5_object) (hs : src = a ++ ([110, 117, 108, 108] ++ b)) (hp : p = a.length) :
    json5__parse_value (fuel + 1) src err obj p =
      Except.ok ⟨src, err, { obj with type := json5_type_null }, some (p + 4)⟩ := by
  have hr : rd src p = Except.ok 110 := rd_at (b := [117, 108, 108] ++ b) (by simp [hs]) hp
  rw [parse_value_alpha fuel err obj hr (by decide)]
  unfold json5__parse_keyword
  rw [drop_at hs hp]
  simp [bytes_true, bytes_false, bytes_null, strncmp_eq]

/-! ## Arrays -/

theorem elem_done_length (e : elem) : (elem_done e).length = (elem_text e).length := by
  cases e <;> simp [elem_done, elem_text]

/-- The first byte of an element: not NUL, not white space, not `]`. -/
theorem elem_text_head (e : elem) (he : elem_ok e) :
    ∃ c r, elem_text e = c :: r ∧ c ≠ 0 ∧ isspace c = false ∧ c ≠ 93 := by
  cases e with
  | integer v =>
    obtain ⟨⟨hne, hdig, _⟩, _⟩ := he
    obtain ⟨d, r, rfl⟩ := List.exists_cons_of_ne_nil hne
    have hd := hdig d (by simp)
    refine ⟨d, r, rfl, ?_, isspace_of_isdigit hd, ?_⟩ <;>
      (rw [isdigit_iff] at hd; omega)
  | string t => exact ⟨34, t ++ [34], rfl, by decide, by decide, by decide⟩
  | real i f =>
    obtain ⟨hne, hdig, _⟩ := he
    obtain ⟨d, r, rfl⟩ := List.exists_cons_of_ne_nil hne
    have hd := hdig d (by simp)
    refine ⟨d, r ++ 46 :: f, rfl, ?_, isspace_of_isdigit hd, ?_⟩ <;>
      (rw [isdigit_iff] at hd; omega)
  | ktrue => exact ⟨116, _, rfl, by decide, by decide, by decide⟩
  | kfalse => exact ⟨102, _, rfl, by decide, by decide, by decide⟩
  | knull => exact ⟨110, _, rfl, by decide, by decide, by decide⟩

/-- Run of `json5__parse_value` on an element that is followed by `,` or `]`: no
error, a node of the element's type, and the position behind the element. -/
theorem parse_value_elem {src a b : List Nat} {p t : Nat} (e : elem) (fuel : Nat)
    (hs : src = a ++ (elem_text e ++ t :: b)) (hp : p = a.length) (he : elem_ok e)
    (ht : t = 44 ∨ t = 93) :
    ∃ node, json5__parse_value (fuel + 1) src json5_error_none json5_object.zero p =
        Except.ok ⟨a ++ (elem_done e ++ t :: b), json5_error_none, node,
          some (p + (elem_text e).length)⟩ ∧
      node.type = elem_type e := by
  have htn : ¬ is_numchar t := by rcases ht with rfl | rfl <;> decide
  have htd : t ≠ '.'.toNat := by rcases ht with rfl | rfl <;> decide
  have ht0 : t ≠ 0 := by rcases ht with rfl | rfl <;> decide
  have htr : is_real_stop t := by rcases ht with rfl | rfl <;> decide
  cases e with
  | integer v =>
    obtain ⟨⟨hne, hdig, _⟩, hlen⟩ := he
    obtain ⟨d, r, rfl⟩ := List.exists_cons_of_ne_nil hne
    have hr : rd src p = Except.ok d :=
      rd_at (b := r ++ t :: b) (by simp [hs, elem_text]) hp
    refine ⟨{ json5_object.zero with
      type := json5_type_integer, integer := strtol (d :: r) 0 }, ?_, rfl⟩
    rw [parse_value_digit fuel _ _ hr (hdig d (by simp)),
      parse_number_int (d :: r) _ _ hs hp (fun x hx => is_numchar_of_isdigit (hdig x hx))
        (by simp) hlen htn htd ht0]
    simp [hs, elem_done, elem_text]
  | string s =>
    refine ⟨{ json5_object.zero with
      type := json5_type_string, string := some (p + 1) }, ?_, rfl⟩
    rw [parse_value_string (b := t :: b) s fuel _ _ (by simp [hs, elem_text]) hp he]
    simp [elem_done, elem_text]
    omega
  | real i f =>
    obtain ⟨hine, hi, hfne, hf, hlen⟩ := he
    obtain ⟨d, r, rfl⟩ := List.exists_cons_of_ne_nil hine
    have hr : rd src p = Except.ok d :=
      rd_at (b := r ++ 46 :: f ++ t :: b) (by simp [hs, elem_text]) hp
    refine ⟨{ json5_object.zero with
      type := json5_type_real, real := json5_real.finite (atof ((d :: r) ++ 46 :: f)) }, ?_, rfl⟩
    rw [parse_value_digit fuel _ _ hr (hi d (by simp)),
      parse_number_real (b := b) (d :: r) f _ _ (by simp [hs, elem_text]) hp hi (by simp) hf
        hfne hlen htr]
    simp [hs, elem_done, elem_text]
    omega
  | ktrue =>
    refine ⟨{ json5_object.zero with type := json5_type_true }, ?_, rfl⟩
    rw [parse_value_true (b := t :: b) fuel _ _ (by simp [hs, elem_text]) hp]
    simp [hs, elem_done, elem_text]
  | kfalse =>
    refine ⟨{ json5_object.zero with type := json5_type_false }, ?_, rfl⟩
    rw [parse_value_false (b := t :: b) fuel _ _ (by simp [hs, elem_text]) hp]
    simp [hs, elem_done, elem_text]
  | knull =>
    refine ⟨{ json5_object.zero with type := json5_type_null }, ?_, rfl⟩
    rw [parse_value_null (b := t :: b) fuel _ _ (by simp [hs, elem_text]) hp]
    simp [hs, elem_done, elem_text]

theorem elems_comma_done_length (es : List elem) :
    (elems_comma_done es).length = (elems_comma es).length := by
  induction es with
  | nil => rfl
  | cons e es ih => simp [elems_comma_done, elems_comma, ih, elem_done_length]

theorem join_elems_snoc (init : List elem) (last : elem) :
    join_elems (init ++ [last]) = elems_comma init ++ elem_text last := by
  induction init with
  | nil => simp [join_elems, elems_comma]
  | cons e es ih =>
    cases es with
    | nil => simp [join_elems, elems_comma]
    | cons e' es' =>
      have ih' : join_elems (e' :: (es' ++ [last])) =
          elems_comma (e' :: es') ++ elem_text last := by simpa using ih
      show join_elems (e :: e' :: (es' ++ [last])) = _
      rw [join_elems, ih']
      simp [elems_comma]

theorem length_le_elems_comma (es : List elem) : es.length ≤ (elems_comma es).length := by
  induction es with
  | nil => simp
  | cons e es ih => simp [elems_comma]; omega

/-- One pass of the element loop on an element followed by a comma. -/
theorem array_loop_elem_comma {src a b : List Nat} {p : Nat} (e : elem) (fuel : Nat)
    (obj : json5_object) (hs : src = a ++ (elem_text e ++ 44 :: b)) (hp : p = a.length)
    (he : elem_ok e) :
    ∃ node, json5__parse_array_loop (fuel + 2) src json5_error_none obj p =
        json5__parse_array_loop (fuel + 1) (a ++ (elem_done e ++ 44 :: b)) json5_error_none
          { obj with nodes := obj.nodes ++ [node] } (p + (elem_text e).length + 1) ∧
      node.type = elem_type e := by
  obtain ⟨c, r, hc, hc0, hsp, _⟩ := elem_text_head e he
  obtain ⟨node, hpv, hty⟩ := parse_value_elem e fuel hs hp he (Or.inl rfl)
  have hs0 : src = a ++ c :: (r ++ 44 :: b) := by simp [hs, hc]
  have hs1 : a ++ (elem_done e ++ 44 :: b) = (a ++ elem_done e) ++ 44 :: b := by simp
  have hp1 : p + (elem_text e).length = (a ++ elem_done e).length := by
    simp [hp, elem_done_length]
  refine ⟨node, ?_, hty⟩
  rw [json5__parse_array_loop]
  simp only [rd_at hs0 hp, run_bind_ok, if_neg hc0, trim_stay hs0 hp hsp, hpv, json5__element,
    ne_eq, not_true_eq_false, if_false, trim_stay hs1 hp1 (show isspace 44 = false by decide),
    rd_at hs1 hp1]
  simp

/-- One pass of the element loop on an element followed by `]`. -/
theorem array_loop_elem_close {src a b : List Nat} {p : Nat} (e : elem) (fuel : Nat)
    (obj : json5_object) (hs : src = a ++ (elem_text e ++ 93 :: b)) (hp : p = a.length)
    (he : elem_ok e) :
    ∃ node, json5__parse_array_loop (fuel + 2) src json5_error_none obj p =
        Except.ok ⟨a ++ (elem_done e ++ 93 :: b), json5_error_none,
          { obj with nodes := obj.nodes ++ [node] }, some (p + (elem_text e).length)⟩ ∧
      node.type = elem_type e := by
  obtain ⟨c, r, hc, hc0, hsp, _⟩ := elem_text_head e he
  obtain ⟨node, hpv, hty⟩ := parse_value_elem e fuel hs hp he (Or.inr rfl)
  have hs0 : src = a ++ c :: (r ++ 93 :: b) := by simp [hs, hc]
  have hs1 : a ++ (elem_done e ++ 93 :: b) = (a ++ elem_done e) ++ 93 :: b := by simp
  have hp1 : p + (elem_text e).length = (a ++ elem_done e).length := by
    simp [hp, elem_done_length]
  refine ⟨node, ?_, hty⟩
  rw [json5__parse_array_loop]
  simp only [rd_at hs0 hp, run_bind_ok, if_neg hc0, trim_stay hs0 hp hsp, hpv, json5__element,
    ne_eq, not_true_eq_false, if_false, trim_stay hs1 hp1 (show isspace 93 = false by decide),
    rd_at hs1 hp1]
  simp

/-- The element loop over elements each followed by a comma. -/
theorem array_loop_commas (es : List elem) :
    ∀ (a b : List Nat) (obj : json5_object) (fuel : Nat) (src : List Nat) (p : Nat),
      (∀ e ∈ es, elem_ok e) → src = a ++ (elems_comma es ++ b) → p = a.length →
      ∃ ns, json5__parse_array_loop (fuel + 1 + es.length) src json5_error_none obj p =
          json5__parse_array_loop (fuel + 1) (a ++ (elems_comma_done es ++ b)) json5_error_none
            { obj with nodes := obj.nodes ++ ns } (p + (elems_comma es).length) ∧
        ns.map (fun n => n.type) = es.map elem_type := by
  induction es with
  | nil =>
    intro a b obj fuel src p _ hs hp
    subst hs
    refine ⟨[], ?_, rfl⟩
    cases obj
    simp [elems_comma, elems_comma_done]
  | cons e es ih =>
    intro a b obj fuel src p hes hs hp
    obtain ⟨node, hstep, hty⟩ := array_loop_elem_comma (b := elems_comma es ++ b) e
      (fuel + es.length) obj (hs.trans (by simp [elems_comma])) hp (hes e (by simp))
    obtain ⟨ns, hrest, htys⟩ := ih (a ++ elem_done e ++ [44]) b
      { obj with nodes := obj.nodes ++ [node] } fuel
      (a ++ (elem_done e ++ 44 :: (elems_comma es ++ b))) (p + (elem_text e).length + 1)
      (fun x hx => hes x (by simp [hx])) (by simp)
      (by simp [hp, elem_done_length]; omega)
    refine ⟨node :: ns, ?_, by simp [hty, htys]⟩
    rw [show fuel + 1 + (e :: es).length = (fuel + es.length) + 2 by simp; omega, hstep,
      show fuel + es.length + 1 = fuel + 1 + es.length by omega, hrest]
    simp [elems_comma, elems_comma_done, Nat.add_assoc]
    congr 1
    omega

/-- The element loop over the elements of `es`, separated by commas and
followed by `]`: it returns on the `]` without error, having appended one node
per element, of the element's type. -/
theorem array_loop_elems (es : List elem) (hne : es ≠ []) (hes : ∀ e ∈ es, elem_ok e)
    (a b : List Nat) (obj : json5_object) (fuel : Nat) (hfuel : es.length + 1 ≤ fuel) :
    ∃ s ns, json5__parse_array_loop fuel (a ++ (join_elems es ++ 93 :: b))
        json5_error_none obj a.length =
        Except.ok ⟨s, json5_error_none, { obj with nodes := obj.nodes ++ ns },
          some (a.length + (join_elems es).length)⟩ ∧
      ns.map (fun n => n.type) = es.map elem_type ∧
      ∃ d, s = a ++ (d ++ 93 :: b) ∧ d.length = (join_elems es).length := by
  obtain ⟨init, last, rfl⟩ : ∃ init last, es = init ++ [last] :=
    ⟨es.dropLast, es.getLast hne, (List.dropLast_append_getLast hne).symm⟩
  obtain ⟨f, rfl⟩ : ∃ f, fuel = (f + 1) + 1 + init.length :=
    ⟨fuel - init.length - 2, by simp at hfuel; omega⟩
  obtain ⟨ns, hcommas, htys⟩ := array_loop_commas init a (elem_text last ++ 93 :: b) obj (f + 1)
    (a ++ (join_elems (init ++ [last]) ++ 93 :: b)) a.length
    (fun e he => hes e (by simp [he])) (by simp [join_elems_snoc]) rfl
  obtain ⟨node, hlast, hty⟩ := array_loop_elem_close (a := a ++ elems_comma_done init) (b := b)
    (p := a.length + (elems_comma init).length) last f
    { obj with nodes := obj.nodes ++ ns }
    (show a ++ (elems_comma_done init ++ (elem_text last ++ 93 :: b)) =
      (a ++ elems_comma_done init) ++ (elem_text last ++ 93 :: b) by simp)
    (by simp [elems_comma_done_length]) (hes last (by simp))
  refine ⟨a ++ (elems_comma_done init ++ (elem_done last ++ 93 :: b)), ns ++ [node], ?_,
    by simp [htys, hty], elems_comma_done init ++ elem_done last, by simp,
    by simp [join_elems_snoc, elems_comma_done_length, elem_done_length]⟩
  rw [hcommas, hlast]
  simp [join_elems_snoc, Nat.add_assoc]

theorem join_elems_head (es : List elem) (hne : es ≠ []) (hes : ∀ e ∈ es, elem_ok e) :
    ∃ c r, join_elems es = c :: r ∧ c ≠ 0 ∧ isspace c = false ∧ c ≠ 93 := by
  cases es with
  | nil => exact absurd rfl hne
  | cons e es =>
    obtain ⟨c, r, hc, h⟩ := elem_text_head e (hes e (by simp))
    cases es with
    | nil => exact ⟨c, r, by simp [join_elems, hc], h⟩
    | cons e' es' => exact ⟨c, r ++ 44 :: join_elems (e' :: es'), by simp [join_elems, hc], h⟩

/-- Run of `json5__parse_value` on the text `[e_1,...,e_n]`: no error, a node of type
array with one child per element, of the element's type, and the position
behind the `]`. -/
theorem parse_value_array {src a b : List Nat} {p : Nat} (es : List elem) (hne : es ≠ [])
    (hes : ∀ e ∈ es, elem_ok e) (fuel : Nat) (obj : json5_object)
    (hs : src = a ++ (91 :: (join_elems es ++ 93 :: b))) (hp : p = a.length)
    (hfuel : es.length + 1 ≤ fuel) :
    ∃ s ns, json5__parse_value (fuel + 2) src json5_error_none obj p =
        Except.ok ⟨s, json5_error_none,
          { obj with type := json5_type_array, nodes := [] ++ ns },
          some (p + 1 + (join_elems es).length + 1)⟩ ∧
      ns.map (fun n => n.type) = es.map elem_type ∧
      ∃ d, s = a ++ (91 :: (d ++ 93 :: b)) ∧ d.length = (join_elems es).length := by
  obtain ⟨c, r, hc, hc0, hsp, hc93⟩ := join_elems_head es hne hes
  obtain ⟨s, ns, hloop, htys, d, hd, hdl⟩ := array_loop_elems es hne hes (a ++ [91]) b
    { obj with type := json5_type_array, nodes := [] } fuel hfuel
  have hs0 : src = a ++ 91 :: (join_elems es ++ 93 :: b) := hs
  have hs1 : src = (a ++ [91]) ++ c :: (r ++ 93 :: b) := by simp [hs, hc]
  have hp1 : p + 1 = (a ++ [91]).length := by simp [hp]
  have hsrc : (a ++ [91]) ++ (join_elems es ++ 93 :: b) = src := by simp [hs]
  have hc93' : c ≠ ']'.toNat := by simpa using hc93
  rw [hsrc, ← hp1] at hloop
  refine ⟨s, ns, ?_, htys, d, by simp [hd], hdl⟩
  rw [json5__parse_value]
  simp only [rd_at hs0 hp, run_bind_ok, show (91 : Nat) = '['.toNat by decide, if_true,
    trim_stay hs1 hp1 hsp, rd_at hs1 hp1, if_neg hc93', json5__parse_array, hloop]
  simp

/-- After `l_parsed`, the terminating NUL right at the returned position ends
the function with the pointer on it. -/
theorem l_parsed_eof {a b : List Nat} {q : Nat} (obj : json5_object) (r : Out)
    (hret : r.ret = some q) (hs : r.src = a ++ 0 :: b) (hq : q = a.length) :
    json5__l_parsed obj r = Except.ok (Sum.inl
      ⟨r.src, r.err, { obj with nodes := obj.nodes ++ [r.obj] }, some q⟩) := by
  unfold json5__l_parsed
  simp only [hret, trim_stay hs hq (by decide), run_bind_ok, rd_at hs hq]
  simp

/-- Without comment stripping, `json5_parse` on a buffer that starts with `[`
runs the member loop from the start. -/
theorem json5_parse_bracket {src b : List Nat} (hs : src = 91 :: b) :
    json5_parse src false =
      (do
        let r ← json5__parse_object_loop (3 * src.length + 3) src json5_error_none
          { json5_object.zero with nodes := [] } 0
        pure (r.src, r.obj, r.err)) := by
  have hs' : src = [] ++ 91 :: b := by simp [hs]
  unfold json5_parse
  simp only [Bool.false_eq_true, if_false, run_pure, run_bind_ok]
  rw [json5__parse_object]
  simp only [trim_stay (p := 0) hs' rfl (by decide), run_bind_ok, rd_at (p := 0) hs' rfl]
  simp

/-- Run of `json5_parse` on the text `[e_1,...,e_n]`: the root gets one unnamed child
of type array, with one child per element, of the element's type. -/
theorem parse_array_text (es : List elem) (hne : es ≠ []) (hes : ∀ e ∈ es, elem_ok e) :
    ∃ s root arr, json5_parse (array_text es ++ [0]) false =
        Except.ok (s, root, json5_error_none) ∧
      root.nodes = [arr] ∧ arr.name = none ∧ arr.type = json5_type_array ∧
      arr.nodes.map (fun n => n.type) = es.map elem_type := by
  have hlen : es.length ≤ (join_elems es).length := by
    obtain ⟨init, last, rfl⟩ : ∃ init last, es = init ++ [last] :=
      ⟨es.dropLast, es.getLast hne, (List.dropLast_append_getLast hne).symm⟩
    have h1 := length_le_elems_comma init
    obtain ⟨c, r, hc, _⟩ := elem_text_head last (hes last (by simp))
    simp [join_elems_snoc, hc]
    omega
  obtain ⟨f, hf⟩ : ∃ f, 3 * (array_text es ++ [0]).length + 3 = (f + 2) + 1 ∧
      es.length + 1 ≤ f :=
    ⟨3 * (array_text es ++ [0]).length, by simp [array_text]; omega⟩
  obtain ⟨s, ns, hpv, htys, d, hd, hdl⟩ := parse_value_array (a := []) (b := [0]) (p := 0) es hne
    hes f { json5_object.zero with name := none }
    (show array_text es ++ [0] = [] ++ (91 :: (join_elems es ++ 93 :: [0])) by simp [array_text])
    rfl hf.2
  have hl := l_parsed_eof (a := 91 :: (d ++ [93])) (b := [])
    (q := 0 + 1 + (join_elems es).length + 1) { json5_object.zero with nodes := [] }
    ⟨s, json5_error_none,
      { json5_object.zero with name := none, type := json5_type_array, nodes := [] ++ ns },
      some (0 + 1 + (join_elems es).length + 1)⟩ rfl (by simp [hd]) (by simp [hdl]; omega)
  refine ⟨s, { json5_object.zero with
      nodes := [] ++ [{ json5_object.zero with
        name := none, type := json5_type_array, nodes := [] ++ ns }] },
    { json5_object.zero with name := none, type := json5_type_array, nodes := [] ++ ns },
    ?_, rfl, rfl, rfl, by simpa using htys⟩
  rw [json5_parse_bracket (b := join_elems es ++ [93, 0]) (by simp [array_text]), hf.1]
  rw [object_loop_step (a := []) (b := join_elems es ++ [93, 0]) (c := 91) (p := 0) (f + 2)
    json5_error_none _ (by simp [array_text]) rfl (by decide) (by decide) (by decide)]
  simp only [json5__member, show (91 : Nat) = '['.toNat by decide, if_true, hpv, run_bind_ok,
    run_pure, hl]

/-- Run of `json5_parse` on an array of short values: for every non-empty list
of element texts `e_1..e_n`, each a decimal integer literal without leading
zero of at most 15 characters, a double-quoted string without quotes and
backslashes, a real literal `digits.digits` of at most 15 characters, or one
of `true`, `false`, `null`, `json5_parse` on `[e_1,...,e_n]` returns
`json5_error_none` and yields an array of exactly `n` elements, the single
unnamed child of the implicit root object, whose element types are, in order,
those of `e_1..e_n`. -/
theorem array_of_values_bounded (es : List elem) (hne : es ≠ [])
    (hes : ∀ e ∈ es, elem_ok e) :
    ∃ s root arr, json5_parse (array_text es ++ [0]) false =
        Except.ok (s, root, json5_error_none) ∧
      root.nodes = [arr] ∧ arr.name = none ∧ arr.type = json5_type_array ∧
      arr.nodes.length = es.length ∧
      arr.nodes.map (fun n => n.type) = es.map elem_type := by
  obtain ⟨s, root, arr, hrun, hroot, hname, htype, htys⟩ := parse_array_text es hne hes
  refine ⟨s, root, arr, hrun, hroot, hname, htype, ?_, htys⟩
  have := congrArg List.length htys
  simpa using this

/-- The array `[1,"two",3.0,true,null]` gives 5 elements of types integer,
string, real, true, null. -/
theorem array_of_values_mixed :
    ∃ s root arr, json5_parse (cbuf "[1,\"two\",3.0,true,null]") false =
        Except.ok (s, root, json5_error_none) ∧
      root.nodes = [arr] ∧ arr.name = none ∧ arr.type = json5_type_array ∧
      arr.nodes.length = 5 ∧
      arr.nodes.map (fun n => n.type) =
        [json5_type_integer, json5_type_string, json5_type_real, json5_type_true,
          json5_type_null] :=
  array_of_values_bounded [elem.integer (bytes "1"), elem.string (bytes "two"),
    elem.real (bytes "3") (bytes "0"), elem.ktrue, elem.knull] (by simp) (by decide)

/-- C2: the numeric branch copies a literal into `char buf[16]` without a
bound (lines 384-402).  The decimal literal `1234567890123456` has no leading
zero; its 16 digits fill `buf` and leave no terminator for `strtol`, which
reads behind the array.  Of `12345678901234567` the last digit is stored
behind the array.  The runs on `[1234567890123456]` and on
`[12345678901234567]` have no defined result, while `[123456789012345]` gives
`json5_error_none` and an array of one integer. -/
theorem C2_long_literal_overruns_buf :
    is_int_lit (bytes "1234567890123456") ∧
    array_text [elem.integer (bytes "1234567890123456")] ++ [0] = cbuf "[1234567890123456]" ∧
    json5__scan_xdigits (bytes "1234567890123456]" ++ [0]) [] 1 =
      Except.ok (bytes "1234567890123456", 17) ∧
    (bytes "1234567890123456").length = 16 ∧
    json5__parse_number (cbuf "[1234567890123456]") json5_error_none json5_object.zero 1 =
      Except.error Fault.undefined ∧
    json5_parse (cbuf "[1234567890123456]") false = Except.error Fault.undefined ∧
    json5__scan_xdigits (bytes "12345678901234567]" ++ [0]) [] 1 =
      Except.error Fault.undefined ∧
    json5_parse (cbuf "[12345678901234567]") false = Except.error Fault.undefined ∧
    (∃ s root arr, json5_parse (cbuf "[123456789012345]") false =
        Except.ok (s, root, json5_error_none) ∧
      root.nodes = [arr] ∧ arr.type = json5_type_array ∧
      arr.nodes.map (fun n => (n.type, n.integer)) =
        [(json5_type_integer, 123456789012345)]) :=
  ⟨by decide, by decide, rfl, rfl, rfl, rfl, rfl, rfl, ⟨_, _, _, rfl, rfl, rfl, rfl⟩⟩

/-! ## Runs on single documents: arrays, errors, comments, names -/

/-- C11: on `[1,2,]` the element loop, which has no test for `]` at its top,
calls `json5__parse_value` on the `]`; no branch matches, the call returns
without error and the zero-initialised element is appended: the array has 3
elements, the third of type object, while `[1,2]` gives 2. -/
theorem C11_trailing_comma_in_array :
    (∃ s root arr, json5_parse (cbuf "[1,2,]") false = Except.ok (s, root, json5_error_none) ∧
      root.nodes = [arr] ∧ arr.type = json5_type_array ∧
      arr.nodes.map (view s) =
        [⟨none, json5_type_integer, json5_style_double_quote, 0, 1, none⟩,
         ⟨none, json5_type_integer, json5_style_double_quote, 0, 2, none⟩,
         ⟨none, json5_type_object, json5_style_double_quote, 0, 0, none⟩]) ∧
    (∃ s root arr, json5_parse (cbuf "[1,2]") false = Except.ok (s, root, json5_error_none) ∧
      root.nodes = [arr] ∧ arr.type = json5_type_array ∧
      arr.nodes.map (view s) =
        [⟨none, json5_type_integer, json5_style_double_quote, 0, 1, none⟩,
         ⟨none, json5_type_integer, json5_style_double_quote, 0, 2, none⟩]) :=
  ⟨⟨_, _, _, rfl, rfl, rfl, rfl⟩, ⟨_, _, _, rfl, rfl, rfl, rfl⟩⟩

/-- C12: on the document `[tru]` the call of `json5__parse_value` for the bare
`[` at member position records `json5_error_invalid_value` and returns `NULL`,
but line 539 jumps to `l_parsed` past the test of the error code: the node is
appended and `json5__trim` is called on the null pointer.  The run has no
defined result; `json5_parse` does not return `json5_error_invalid_value`. -/
theorem C12_error_inside_bare_array :
    (∃ node, json5__member (json5__parse_value 20) (cbuf "[tru]") json5_error_none
        { json5_object.zero with nodes := [] } 0 91 =
      Except.ok (Sum.inr ⟨cbuf "[tru]", json5_error_invalid_value, node, none⟩) ∧
      json5__l_parsed { json5_object.zero with nodes := [] }
        ⟨cbuf "[tru]", json5_error_invalid_value, node, none⟩ = Except.error Fault.undefined) ∧
    json5_parse (cbuf "[tru]") false = Except.error Fault.undefined :=
  ⟨⟨_, rfl, rfl⟩, rfl⟩

/-- C14: the scan for the end of a block comment, `while (p[0] != '*' && p[1]
!= '/')`, stops on the first `*` and also on the byte before the first `/`:
of `/* a*b */` only `/* a*b` is blanked, of `/* a/b */` only `/* a/`, of
`/** doc */` only `/** `. -/
theorem C14_block_comment_with_lone_star_or_slash :
    json5__strip_comments (cbuf "/* a*b */") = Except.ok (cbuf "       */") ∧
    json5__strip_comments (cbuf "/* a/b */") = Except.ok (cbuf "     b */") ∧
    json5__strip_comments (cbuf "/** doc */") = Except.ok (cbuf "    doc */") :=
  ⟨rfl, rfl, rfl⟩

/-- C15: on the buffers `// c` and `/* c` the scans of lines 244 and 234 do
not test for the terminating NUL and run past the end of the buffer, so the
pre-pass has no defined result; when more bytes follow the terminator in
memory, as in `// c`, NUL, `x`, line feed, `y`, the pre-pass blanks the
terminator and the bytes behind it up to the line feed. -/
theorem C15_comment_without_end :
    json5__strip_comments (cbuf "// c") = Except.error Fault.undefined ∧
    json5__strip_comments (cbuf "/* c") = Except.error Fault.undefined ∧
    json5__strip_comments (bytes "// c" ++ [0] ++ bytes "x\ny" ++ [0]) =
      Except.ok (cbuf "       y") :=
  ⟨rfl, rfl, rfl⟩

/-- C17: on `{"a\qb":1}` the name passes `json5__validate_name`: its condition
rejects a backslash only when none of the four bytes behind it is a
hexadecimal digit, and `b` is one.  `json5_parse` returns `json5_error_none`
with the member named `a\qb`, not `json5_error_invalid_name`. -/
theorem C17_backslash_in_name :
    ∃ s root, json5_parse (cbuf "\x7b\"a\\qb\":1\x7d") false =
        Except.ok (s, root, json5_error_none) ∧
      root.nodes.map (view s) =
        [⟨some (bytes "a\\qb"), json5_type_integer, json5_style_double_quote, 0, 1, none⟩] :=
  ⟨_, _, rfl, rfl⟩

/-- C19: on `{a :1}` the terminator of the name is written where `e` stands
after `json5__trim`, on the `:`, not behind the identifier: the recorded name
is `a` followed by the space, while `{a:1}` gives the name `a`. -/
theorem C19_unquoted_name_before_space :
    (∃ s root, json5_parse (cbuf "\x7ba :1\x7d") false = Except.ok (s, root, json5_error_none) ∧
      root.nodes.map (view s) =
        [⟨some (bytes "a "), json5_type_integer, json5_style_no_quotes, 0, 1, none⟩]) ∧
    (∃ s root, json5_parse (cbuf "\x7ba:1\x7d") false = Except.ok (s, root, json5_error_none) ∧
      root.nodes.map (view s) =
        [⟨some (bytes "a"), json5_type_integer, json5_style_no_quotes, 0, 1, none⟩]) :=
  ⟨⟨_, _, rfl, rfl⟩, ⟨_, _, rfl, rfl⟩⟩

/-! ## Teardown after an error inside a nested object -/

set_option maxHeartbeats 2000000 in
/-- C13: on `{"a":{"b":1,"c":tru}}` the call of `json5__parse_value` for the
value of `a` comes back with `invalid_value`, a null position and the node `a`
owning a children sequence that holds `b` (one sequence for `json5_free` to
release); `json5__member` returns to its caller at line 584 without appending
that node, so `json5_parse` returns `invalid_value` with the zero root, on
which `json5_free` releases nothing: the sequence of `a` is never released.
On `{"a":{"b":1}}` both sequences are released and the root is left without
children. -/
theorem C13_children_dropped_on_error :
    (∃ s, json5__parse_value 68 ((cbuf "\x7b\"a\":\x7b\"b\":1,\"c\":tru\x7d\x7d").set 3 0)
          json5_error_none
          { json5_object.zero with
            name := some 2 } 5 =
        Except.ok ⟨s, json5_error_invalid_value, teardown_node_a, none⟩) ∧
    json5_free teardown_node_a = ({ teardown_node_a with nodes := [] }, 1) ∧
    (∃ s, json5__member (json5__parse_value 68) (cbuf "\x7b\"a\":\x7b\"b\":1,\"c\":tru\x7d\x7d")
          json5_error_none json5_object.zero 1 34 =
        Except.ok (Sum.inl ⟨s, json5_error_invalid_value, json5_object.zero, none⟩)) ∧
    (∃ s, json5_parse (cbuf "\x7b\"a\":\x7b\"b\":1,\"c\":tru\x7d\x7d") false =
          Except.ok (s, json5_object.zero, json5_error_invalid_value)) ∧
    json5_free json5_object.zero = (json5_object.zero, 0) ∧
    (∃ s, json5_parse (cbuf "\x7b\"a\":\x7b\"b\":1\x7d\x7d") false =
          Except.ok (s, { json5_object.zero with nodes := [teardown_node_a] },
            json5_error_none)) ∧
    json5_free { json5_object.zero with nodes := [teardown_node_a] } = (json5_object.zero, 2) :=
  ⟨⟨_, rfl⟩, rfl, ⟨_, rfl⟩, ⟨_, rfl⟩, rfl, ⟨_, rfl⟩, rfl⟩

/-! ## The exponent of a real literal -/

theorem atof_one_point_five : atof [49, 46, 53] = 3 / 2 := by
  simp [atof, scan_sign, atof_mantissa, scan_digits, digit_val, isdigit, atof_exponent,
    List.dropWhile, isspace]
  norm_num

/-- C18: `{"a":1.5e2}` gives the real 15 and `{"a":1.5e1}` gives the real 3/2:
the loop `while (--exp > 0)` multiplies the mantissa by 10 once less than the
exponent says. -/
theorem C18_exponent_applied_once_less :
    (∃ s root, json5_parse (cbuf "\x7b\"a\":1.5e2\x7d") false =
          Except.ok (s, root, json5_error_none) ∧
        root.nodes.map (fun n => (n.type, n.real)) =
          [(json5_type_real, json5_real.finite 15)]) ∧
    (∃ s root, json5_parse (cbuf "\x7b\"a\":1.5e1\x7d") false =
          Except.ok (s, root, json5_error_none) ∧
        root.nodes.map (fun n => (n.type, n.real)) =
          [(json5_type_real, json5_real.finite (3 / 2))]) := by
  refine ⟨⟨_, _, rfl, ?_⟩, ⟨_, _, rfl, ?_⟩⟩
  · show [(json5_type_real, json5_real.finite (json5__scale_real 10 1 (atof [49, 46, 53])))] = _
    rw [atof_one_point_five]
    norm_num [json5__scale_real]
  · show [(json5_type_real, json5_real.finite (json5__scale_real 10 0 (atof [49, 46, 53])))] = _
    rw [atof_one_point_five]
    norm_num [json5__scale_real]

/-! ## Quoted string values with escapes -/

theorem str_stored_length (c : Nat) (items : List str_item) :
    (str_stored c items).length = (str_text c items).length := by
  induction items with
  | nil => rfl
  | cons i l ih => cases i <;> simp [str_stored, str_text, item_stored, item_text, ih]

theorem str_stored_nonzero (c : Nat) (hc : c = 34 ∨ c = 39) (items : List str_item)
    (hok : ∀ i ∈ items, item_ok c i) : ∀ x ∈ str_stored c items, x ≠ 0 := by
  induction items with
  | nil => intro x hx; simp [str_stored] at hx
  | cons i l ih =>
    intro x hx
    have hi := hok i (by simp)
    have ih' := ih (fun j hj => hok j (by simp [hj]))
    simp only [str_stored, List.mem_append] at hx
    rcases hx with hx | hx
    · cases i with
      | chr y =>
        simp only [item_stored, List.mem_singleton] at hx
        subst hx
        exact hi.1
      | esc_quote =>
        simp only [item_stored, List.mem_cons, List.mem_singleton, List.not_mem_nil,
          or_false] at hx
        rcases hx with rfl | rfl
        · decide
        · rcases hc with rfl | rfl <;> decide
      | esc_break y =>
        simp only [item_stored, List.mem_cons, List.mem_singleton, List.not_mem_nil,
          or_false] at hx
        rcases hx with rfl | rfl
        · decide
        · rcases hi with rfl | rfl <;> decide
      | esc_other y =>
        simp only [item_stored, List.mem_cons, List.mem_singleton, List.not_mem_nil,
          or_false] at hx
        rcases hx with rfl | rfl
        · decide
        · exact hi.1
    · exact ih' x hx

/-- The scan of lines 311-323 over the items of a string runs up to the
closing delimiter and overwrites the backslash of each escaped line break. -/
theorem string_scan_items (c : Nat) (hc : c = 34 ∨ c = 39) (items : List str_item)
    (b : List Nat) :
    ∀ (pre s : List Nat) (e : Nat), (∀ i ∈ items, item_ok c i) →
      s = pre ++ (str_text c items ++ c :: b) → e = pre.length →
      json5__string_scan c true (str_text c items ++ c :: b) s e =
        Except.ok (pre ++ (str_stored c items ++ c :: b), e + (str_text c items).length) := by
  have hc0 : c ≠ 0 := by rcases hc with rfl | rfl <;> decide
  have hc92 : c ≠ 92 := by rcases hc with rfl | rfl <;> decide
  have hc13 : c ≠ 13 := by rcases hc with rfl | rfl <;> decide
  have hc10 : c ≠ 10 := by rcases hc with rfl | rfl <;> decide
  induction items with
  | nil =>
    intro pre s e _ hs he
    rw [json5__string_scan.eq_def]
    simp [str_text, str_stored, hc0, hc92, hs]
  | cons i l ih =>
    intro pre s e hok hs he
    have hi := hok i (by simp)
    have hl : ∀ j ∈ l, item_ok c j := fun j hj => hok j (by simp [hj])
    cases i with
    | chr x =>
      obtain ⟨h0, h92, hxc⟩ := hi
      have ih' := ih (pre ++ [x]) s (e + 1) hl (by simp [hs, str_text, item_text])
        (by simp [he])
      rw [json5__string_scan.eq_def]
      simp [str_text, str_stored, item_text, item_stored, h0, h92, hxc]
      rw [ih']
      simp
      omega
    | esc_quote =>
      have ih' := ih (pre ++ [92, c]) s (e + 2) hl (by simp [hs, str_text, item_text])
        (by simp [he])
      rw [json5__string_scan.eq_def]
      simp [str_text, str_stored, item_text, item_stored, rd]
      rw [ih']
      simp
      omega
    | esc_break y =>
      have hy0 : y ≠ 0 := by rcases hi with rfl | rfl <;> decide
      have hy92 : y ≠ 92 := by rcases hi with rfl | rfl <;> decide
      have hyc : y ≠ c := by
        rcases hi with rfl | rfl
        · exact fun h => hc13 h.symm
        · exact fun h => hc10 h.symm
      have hset : s.set e 32 = (pre ++ [32, y]) ++ (str_text c l ++ c :: b) := by
        subst hs he
        simp [str_text, item_text]
      have ih' := ih (pre ++ [32, y]) (s.set e 32) (e + 2) hl hset (by simp [he])
      rw [json5__string_scan.eq_def]
      have hi' : y = 13 ∨ y = 10 := hi
      simp [str_text, str_stored, item_text, item_stored, rd, hyc, hi']
      rw [json5__string_scan.eq_def]
      simp [hy0, hy92, hyc]
      rw [ih']
      simp
      omega
    | esc_other y =>
      obtain ⟨hy0, hy92, hyc, hy13, hy10⟩ := hi
      have ih' := ih (pre ++ [92, y]) s (e + 2) hl (by simp [hs, str_text, item_text])
        (by simp [he])
      rw [json5__string_scan.eq_def]
      simp [str_text, str_stored, item_text, item_stored, rd, hyc, hy13, hy10, hc92.symm]
      rw [json5__string_scan.eq_def]
      simp [hy0, hy92, hyc]
      rw [ih']
      simp
      omega

/-- Run of `json5__parse_value` on a quoted string with escapes. -/
theorem parse_value_quoted {src a b : List Nat} {p : Nat} (c : Nat) (items : List str_item)
    (fuel : Nat) (err : json5_error) (obj : json5_object) (hc : c = 34 ∨ c = 39)
    (hs : src = a ++ (c :: (str_text c items ++ c :: b))) (hp : p = a.length)
    (hok : ∀ i ∈ items, item_ok c i) :
    json5__parse_value (fuel + 1) src err obj p =
      Except.ok ⟨a ++ (c :: (str_stored c items ++ 0 :: b)), err,
        { obj with type := json5_type_string, string := some (p + 1) },
        some (p + (str_text c items).length + 2)⟩ := by
  have hrd : rd src p = Except.ok c := rd_at (b := str_text c items ++ c :: b) hs hp
  have hdrop : src.drop (p + 1) = str_text c items ++ c :: b :=
    drop_at (a := a ++ [c]) (by simp [hs]) (by simp [hp])
  have hscan := string_scan_items c hc items b (a ++ [c]) src (p + 1) hok (by simp [hs])
    (by simp [hp])
  have hwr : wr ((a ++ [c]) ++ (str_stored c items ++ c :: b)) (p + 1 + (str_text c items).length)
      0 = Except.ok ((a ++ c :: str_stored c items) ++ 0 :: b) :=
    wr_at (a := a ++ c :: str_stored c items) (b := b) (c := c) 0 (by simp)
      (by simp [hp, str_stored_length]; omega)
  have h1 : ¬ (c = '['.toNat) := by rcases hc with rfl | rfl <;> decide
  have h2 : ¬ (c = '{'.toNat) := by rcases hc with rfl | rfl <;> decide
  rw [json5__parse_value]
  simp only [hrd, run_bind_ok, h1, h2, if_false, if_pos hc, json5__parse_string, hdrop, hscan,
    hwr]
  simp
  omega

/-- Run of `json5_parse` on `{"a":<string>}`. -/
theorem parse_string_member (c : Nat) (items : List str_item) (hc : c = 34 ∨ c = 39)
    (hok : ∀ i ∈ items, item_ok c i) :
    ∃ s root, json5_parse (string_doc c items) false = Except.ok (s, root, json5_error_none) ∧
      root.nodes.map (view s) =
        [⟨some (bytes "a"), json5_type_string, json5_style_double_quote, 0, 0,
          some (str_stored c items)⟩] := by
  have hsp : isspace c = false := by rcases hc with rfl | rfl <;> decide
  have hdoc : string_doc c items =
      123 :: 34 :: 97 :: 34 :: 58 :: c :: (str_text c items ++ c :: 125 :: [0]) := rfl
  obtain ⟨f, hf⟩ : ∃ f, 3 * (string_doc c items).length + 3 = f + 2 :=
    ⟨3 * (string_doc c items).length + 1, by omega⟩
  have hpv := parse_value_quoted (a := [123, 34, 97, 0, 58]) (b := [125, 0]) (p := 5) c items f
    json5_error_none
    { json5_object.zero with quote_style := json5_style_double_quote, name := some 2 }
    hc rfl rfl hok
  obtain ⟨R, hR⟩ : ∃ R : Out, R =
      ⟨[123, 34, 97, 0, 58] ++ (c :: (str_stored c items ++ 0 :: [125, 0])), json5_error_none,
        { json5_object.zero with
          quote_style := json5_style_double_quote
          name := some 2
          type := json5_type_string
          string := some 6 },
        some (5 + (str_text c items).length + 2)⟩ := ⟨_, rfl⟩
  have hmem := member_quoted (a := [123]) (p := 1) [97] c (str_text c items ++ c :: [125, 0])
    (json5__parse_value (f + 1)) { json5_object.zero with nodes := [] } R
    (show string_doc c items = [123] ++ (34 :: ([97] ++ 34 :: 58 :: c ::
      (str_text c items ++ c :: [125, 0]))) by simp [hdoc]) rfl (by decide) hsp
    (by rw [hR]; simpa using hpv) (by rw [hR])
  have hl := l_parsed_close
    (a := [123, 34, 97, 0, 58] ++ c :: str_stored c items ++ [0]) (b := [0])
    (q := 5 + (str_text c items).length + 2) { json5_object.zero with nodes := [] } R
    (by rw [hR]) (by rw [hR]; simp) (by simp [str_stored_length]; omega)
  refine ⟨R.src, { json5_object.zero with nodes := [] ++ [R.obj] }, ?_, ?_⟩
  · rw [json5_parse_open (b := 34 :: 97 :: 34 :: 58 :: c :: (str_text c items ++ c :: 125 :: [0]))
      hdoc, hf]
    rw [object_loop_step (f + 1) json5_error_none { json5_object.zero with nodes := [] }
      (a := [123]) (c := 34) (p := 1)
      (b := 97 :: 34 :: 58 :: c :: (str_text c items ++ c :: 125 :: [0])) hdoc rfl
      (by decide) (by decide) (by decide), hmem]
    simp only [run_bind_ok, hl]
    subst hR
    rfl
  · have hname : cstr ([123, 34, 97, 0, 58] ++ (c :: (str_stored c items ++ 0 :: [125, 0]))) 2 =
        [97] :=
      cstr_at (a := [123, 34]) (b := 58 :: c :: (str_stored c items ++ 0 :: [125, 0])) [97]
        (by simp) rfl (by decide)
    have hstr : cstr ([123, 34, 97, 0, 58] ++ (c :: (str_stored c items ++ 0 :: [125, 0]))) 6 =
        str_stored c items :=
      cstr_at (a := [123, 34, 97, 0, 58, c]) (b := [125, 0]) (str_stored c items)
        (by simp) rfl (str_stored_nonzero c hc items hok)
    subst hR
    simp only [List.nil_append, List.map_cons, List.map_nil, view, Option.map_some', hname, hstr]
    rfl

/-- C16: on `{"a":"x\\"}` the scan of lines 311-323 takes the second backslash
and the closing quote for an escaped quote, runs on to the terminating NUL at
offset 11, and line 326 returns the position 12 behind the terminator, which
`json5__parse_object` then reads: the run has no defined result.  Where the
scan does find the closing quote it never removes a byte: on `{"a":"x\"y"}`
the payload is the four bytes `x`, backslash, quote, `y`, and on an escaped
line feed between `x` and `y` the payload is `x`, space, line feed, `y`. -/
theorem C16_escapes_in_string_value :
    json5__string_scan 34 true (bytes "x\\\\\"\x7d" ++ [0]) (cbuf "\x7b\"a\":\"x\\\\\"\x7d") 6 =
      Except.ok (cbuf "\x7b\"a\":\"x\\\\\"\x7d", 11) ∧
    (cbuf "\x7b\"a\":\"x\\\\\"\x7d").length = 12 ∧
    (∃ obj, json5__parse_value 38 ((cbuf "\x7b\"a\":\"x\\\\\"\x7d").set 3 0) json5_error_none
        { json5_object.zero with
          name := some 2 } 5 =
      Except.ok ⟨(cbuf "\x7b\"a\":\"x\\\\\"\x7d").set 3 0, json5_error_none, obj, some 12⟩) ∧
    json5_parse (cbuf "\x7b\"a\":\"x\\\\\"\x7d") false = Except.error Fault.undefined ∧
    (∃ s root, json5_parse (cbuf "\x7b\"a\":\"x\\\"y\"\x7d") false =
        Except.ok (s, root, json5_error_none) ∧
      root.nodes.map (view s) =
        [⟨some (bytes "a"), json5_type_string, json5_style_double_quote, 0, 0,
          some [120, 92, 34, 121]⟩]) ∧
    (∃ s root, json5_parse (cbuf "\x7b\"a\":\"x\\\ny\"\x7d") false =
        Except.ok (s, root, json5_error_none) ∧
      root.nodes.map (view s) =
        [⟨some (bytes "a"), json5_type_string, json5_style_double_quote, 0, 0,
          some [120, 32, 10, 121]⟩]) :=
  ⟨rfl, rfl, ⟨_, rfl⟩, rfl, ⟨_, _, rfl, rfl⟩, ⟨_, _, rfl, rfl⟩⟩

/-! ## The vector allocator under `array_append` -/

theorem offset_lt {s i n : Nat} (h : i < n) : i * s + s ≤ n * s := by
  have h1 : (i + 1) * s ≤ n * s := Nat.mul_le_mul_right s h
  have h2 : (i + 1) * s = i * s + s := by ring
  omega

theorem array_append_inv {α : Type} (s : Nat) (hs : 0 < s) (ys : List α)
    (t : Option (vblock α)) (x : α) (h : vec_inv s ys t) :
    ∃ t1, array_append s t x = Except.ok t1 ∧ vec_inv s (ys ++ [x]) t1 := by
  have hs0 : s ≠ 0 := by omega
  cases t with
  | none =>
    have hys : ys = [] := h
    subst hys
    refine ⟨some {
      size := s
      spare := 0
      bytes := s
      mem := fun off => if off = (s / s - 1) * s then some x else none }, ?_, ?_⟩
    · simp [array_append, hs0, array_count, vsize, vrealloc, Nat.div_self hs]
    · refine ⟨by simp, by simp, by simp, ?_⟩
      intro i hi
      have hi0 : i = 0 := by simpa using hi
      subst hi0
      simp [Nat.div_self hs]
  | some b =>
    obtain ⟨hne, hsize, hfit, hmem⟩ := h
    have hcount : b.size / s = ys.length := by rw [hsize]; exact Nat.mul_div_cancel _ hs
    have hsz : (ys.length + 1) * s = ys.length * s + s := by ring
    have hcount1 : (ys.length * s + s) / s = ys.length + 1 := by
      rw [← hsz]; exact Nat.mul_div_cancel _ hs
    have hget : ∀ i, i < (ys ++ [x]).length →
        (if i * s = ys.length * s then some x else ys[i]?) = (ys ++ [x])[i]? := by
      intro i hi
      simp only [List.length_append, List.length_singleton] at hi
      by_cases hin : i = ys.length
      · subst hin; simp
      · have hlt : i < ys.length := by omega
        have hoff : i * s + s ≤ ys.length * s := offset_lt hlt
        rw [if_neg (by omega), List.getElem?_append_left hlt]
    by_cases hA : ys.length * s + s ≤ b.size + b.spare
    · refine ⟨some { b with
        size := ys.length * s + s
        spare := b.spare - (ys.length * s + s - b.size)
        mem := fun off => if off = ys.length * s then some x else b.mem off }, ?_, ?_⟩
      · have h1 : ¬ (ys.length * s + s ≤ b.size) := by omega
        have h2 : ys.length * s + s ≤ b.bytes := by omega
        simp [array_append, hs0, array_count, vsize, vrealloc, hcount, hsz, h1, hA, hcount1, h2]
      · refine ⟨by simp, by simp [hsz], by simp only; omega, ?_⟩
        intro i hi
        have hi1 := hi
        simp only [List.length_append, List.length_singleton] at hi1
        rw [← hget i hi]
        by_cases hin : i = ys.length
        · subst hin; simp
        · have hlt : i < ys.length := by omega
          have hoff : i * s + s ≤ ys.length * s := offset_lt hlt
          have hne : ¬ (i * s = ys.length * s) := by omega
          simp only [if_neg hne]
          exact hmem i hlt
    · refine ⟨some {
        size := ys.length * s + s
        spare := 7 * (ys.length * s + s) / 4 - (ys.length * s + s)
        bytes := 7 * (ys.length * s + s) / 4
        mem := fun off => if off = ys.length * s then some x
          else if off < 7 * (ys.length * s + s) / 4 ∧ off < b.bytes then b.mem off
          else none }, ?_, ?_⟩
      · have h1 : ¬ (ys.length * s + s ≤ b.size) := by omega
        have h2 : ys.length * s + s ≤ 7 * (ys.length * s + s) / 4 := by omega
        simp [array_append, hs0, array_count, vsize, vrealloc, hcount, hsz, h1, hA, hcount1, h2]
      · refine ⟨by simp, by simp [hsz], by simp only; omega, ?_⟩
        intro i hi
        have hi1 := hi
        simp only [List.length_append, List.length_singleton] at hi1
        rw [← hget i hi]
        by_cases hin : i = ys.length
        · subst hin; simp
        · have hlt : i < ys.length := by omega
          have hoff : i * s + s ≤ ys.length * s := offset_lt hlt
          have hne : ¬ (i * s = ys.length * s) := by omega
          have hin2 : i * s < 7 * (ys.length * s + s) / 4 ∧ i * s < b.bytes :=
            ⟨by omega, by omega⟩
          simp only [if_neg hne, if_pos hin2]
          exact hmem i hlt

theorem append_all_inv {α : Type} (s : Nat) (hs : 0 < s) (xs : List α) :
    ∀ (ys : List α) (t : Option (vblock α)), vec_inv s ys t →
      ∃ t1, append_all s xs t = Except.ok t1 ∧ vec_inv s (ys ++ xs) t1 := by
  induction xs with
  | nil => intro ys t h; exact ⟨t, rfl, by simpa using h⟩
  | cons x xs ih =>
    intro ys t h
    obtain ⟨t1, h1, hinv1⟩ := array_append_inv s hs ys t x h
    obtain ⟨t2, h2, hinv2⟩ := ih (ys ++ [x]) t1 hinv1
    refine ⟨t2, ?_, by simpa using hinv2⟩
    simp only [append_all, h1, run_bind_ok, h2]

/-- C20: for every element size `s > 0` and every list `xs` of values, the
calls `array_append` for the values of `xs` in order, starting from the empty
array (null), all succeed; afterwards `array_count` is the length of `xs`,
the i-th element read back is the i-th value of `xs`, and the recorded size
plus the recorded spare capacity is at most the bytes allocated (as `xs` is
any list, this holds after every append); `array_free` then gives the empty
representation, whose count is 0. -/
theorem C20_vector_append {α : Type} (s : Nat) (xs : List α) (hs : 0 < s) :
    ∃ t, append_all s xs array_init = Except.ok t ∧
      array_count s t = xs.length ∧
      (∀ i, i < xs.length → array_get s t i = xs[i]?) ∧
      vsize t + vcapacity t ≤ vbytes t ∧
      array_free t = array_init ∧ array_count s (array_free t) = 0 := by
  obtain ⟨t, hrun, hinv⟩ := append_all_inv s hs xs [] array_init rfl
  simp only [List.nil_append] at hinv
  refine ⟨t, hrun, ?_, ?_, ?_, rfl, by simp [array_free, array_count, vsize]⟩
  · cases t with
    | none =>
      have hxs : xs = [] := hinv
      simp [array_count, vsize, hxs]
    | some b =>
      obtain ⟨_, hsize, _, _⟩ := hinv
      simp only [array_count, vsize, hsize]
      exact Nat.mul_div_cancel _ hs
  · intro i hi
    cases t with
    | none =>
      have hxs : xs = [] := hinv
      subst hxs
      simp at hi
    | some b =>
      obtain ⟨_, hsize, hfit, hmem⟩ := hinv
      have hoff : i * s + s ≤ xs.length * s := offset_lt hi
      simp only [array_get]
      rw [if_pos (by omega)]
      exact hmem i hi
  · cases t with
    | none => simp [vsize, vcapacity, vbytes]
    | some b => exact hinv.2.2.1

/-- Instance of C20: three appends of 8-byte elements. -/
theorem C20_witness :
    0 < 8 ∧
    ∃ t, append_all 8 [10, 20, 30] array_init = Except.ok t ∧
      array_count 8 t = [10, 20, 30].length ∧
      (∀ i, i < [10, 20, 30].length → array_get 8 t i = [10, 20, 30][i]?) ∧
      vsize t + vcapacity t ≤ vbytes t ∧
      array_free t = array_init ∧ array_count 8 (array_free t) = 0 :=
  ⟨by decide, C20_vector_append 8 [10, 20, 30] (by decide)⟩

end Cson5
